import Mathlib

/-!
# envconfig: binding environment variables to struct fields

A shallow embedding of the Go package `envconfig` (files `gather_info.go`,
`field_unmarshal_result.go`, `find_unknown.go`) and theorems about it.

Conventions of the embedding

* A Go function returning `(T, error)` becomes a Lean function returning a
  pair or structure whose error component is an `Option GoError`; `nil` is
  `none`.
* Go strings are Lean strings.  Go orders strings by their bytes; on valid
  UTF-8 this is the code point order, which is the order of Lean strings.
* The process environment is a list of `name, value` pairs in the order
  `os.Environ` enumerates them; `os.LookupEnv` reads the first entry of a name.
* The configuration object is a tree (`Value`): two pointers never share a
  target.  Types are finite trees as well, so the recursive struct types on
  which the Go code does not terminate are outside the embedding.
-/

namespace Envconfig

/-! ## Errors -/

/-- One piece of the message of an error built by `fmt.Errorf`: literal text
(also an argument formatted by `%s`), or an argument formatted by `%q`. -/
inductive Seg where
  | text (s : String)
  | quoted (s : String)
deriving DecidableEq, Repr

/-- The error values the package builds.  `new text` is `errors.New(text)`;
`errorf msg` is `fmt.Errorf` with a format that has no `%w`; `wrapf msg err`
is `fmt.Errorf` with a format that ends in `%w`, applied to `err`. -/
inductive GoError where
  | new (text : String)
  | errorf (msg : List Seg)
  | wrapf (msg : List Seg) (err : GoError)
deriving DecidableEq, Repr

/-- The method `Unwrap` of an error: only errors built with `%w` have one. -/
def GoError.Unwrap : GoError → Option GoError
  | .wrapf _ err => some err
  | _ => none

/-- The function `errors.Is`: `err` or some error in its `Unwrap` chain equals
`target`.  Go compares the error values themselves; here two errors are equal
when they are built alike, which agrees for the package's two sentinels. -/
def errorsIs : GoError → GoError → Bool
  | .wrapf msg err, target => decide (GoError.wrapf msg err = target) || errorsIs err target
  | err, target => decide (err = target)

/-- ErrEmptyPrefix indicates that prefix is empty. -/
def ErrEmptyPrefix : GoError := .new "prefix must be non-empty"

/-- Modelled from the spec: the declaration of `ErrInvalidSpecification` is not
in the sources at hand (only its uses are).  The spec names the error kind
InvalidSpecification; the message text below plays no part in any theorem. -/
def ErrInvalidSpecification : GoError := .new "invalid specification"

/-! ## Reflection: struct fields, types, values -/

/-- The type `reflect.StructTag`, parsed: the `key:"value"` pairs of a tag in
the order they are written. -/
abbrev StructTag := List (String × String)

/-- The method `StructTag.Lookup`: the value of the first pair with that key,
and whether there is one. -/
def StructTag.Lookup (tag : StructTag) (key : String) : String × Bool :=
  match List.lookup key tag with
  | some v => (v, true)
  | none => ("", false)

/-- The method `StructTag.Get`. -/
def StructTag.Get (tag : StructTag) (key : String) : String :=
  (StructTag.Lookup tag key).1

/-- The fields of `reflect.StructField` the package reads.  `PkgPath` is empty
exactly for exported fields. -/
structure StructField where
  Name : String
  PkgPath : String
  Tag : StructTag
deriving DecidableEq, Repr

/-- Types whose `reflect.Kind` is neither `Ptr` nor `Struct`. -/
inductive BasicType where
  | bool
  | int (bits : Nat)
  | uint (bits : Nat)
  | float (bits : Nat)
  | string
  | duration
  | slice (elem : BasicType)
  | map (key elem : BasicType)
  | named (name : String) (underlying : BasicType)
  | other (name : String)
deriving DecidableEq, Repr

/-- The data held by a value of a basic type. -/
inductive Data where
  | none
  | bool (b : Bool)
  | int (i : Int)
  | float (text : String)
  | str (s : String)
  | seq (xs : List Data)
  | dict (kvs : List (Data × Data))
deriving Repr

/-- Go types, as far as extraction tells them apart. -/
inductive GoType where
  | basic (t : BasicType)
  | ptr (elem : GoType)
  | struct (name : String) (fields : List (StructField × GoType))
deriving Repr

/-- Go values.  A nil pointer remembers the type of its element. -/
inductive Value where
  | basic (t : BasicType) (d : Data)
  | nilPtr (elem : GoType)
  | ptr (target : Value)
  | struct (name : String) (fields : List (StructField × Value))
deriving Repr

/-- The zero data of a basic type. -/
def BasicType.zero : BasicType → Data
  | .bool => .bool false
  | .int _ => .int 0
  | .uint _ => .int 0
  | .float _ => .float "0"
  | .string => .str ""
  | .duration => .int 0
  | .slice _ => .seq []
  | .map _ _ => .dict []
  | .named _ u => u.zero
  | .other _ => .none

mutual
/-- The zero value of a type: what `reflect.New(t).Elem()` holds. -/
def zeroValue : GoType → Value
  | .basic t => .basic t t.zero
  | .ptr elem => .nilPtr elem
  | .struct name fields => .struct name (zeroFields fields)
/-- The zero values of the fields of a struct type. -/
def zeroFields : List (StructField × GoType) → List (StructField × Value)
  | [] => []
  | (sf, t) :: rest => (sf, zeroValue t) :: zeroFields rest
end

mutual
/-- The method `reflect.Value.Type`. -/
def Value.Type : Value → GoType
  | .basic t _ => .basic t
  | .nilPtr elem => .ptr elem
  | .ptr target => .ptr target.Type
  | .struct name fields => .struct name (fieldTypes fields)
/-- The declared types of the fields of a struct value. -/
def fieldTypes : List (StructField × Value) → List (StructField × GoType)
  | [] => []
  | (sf, v) :: rest => (sf, v.Type) :: fieldTypes rest
end

/-- The three kinds extraction tells apart. -/
inductive Kind where
  | Ptr
  | Struct
  | Other
deriving DecidableEq, Repr

/-- The method `reflect.Type.Kind`. -/
def GoType.Kind : GoType → Kind
  | .basic _ => .Other
  | .ptr _ => .Ptr
  | .struct _ _ => .Struct

/-- The method `reflect.Value.Kind`. -/
def Value.Kind : Value → Kind
  | .basic _ _ => .Other
  | .nilPtr _ => .Ptr
  | .ptr _ => .Ptr
  | .struct _ _ => .Struct

/-- One step from a value to a part of it. -/
inductive Step where
  | elem
  | field (i : Nat)
deriving DecidableEq, Repr

/-- The place of a `reflect.Value` inside the struct that `spec` points to. -/
abbrev Path := List Step

/-! ## The environment -/

/-- The process environment, in the order of `os.Environ`. -/
abbrev Environ := List (String × String)

/-- The function `os.LookupEnv`. -/
def LookupEnv (env : Environ) (key : String) : String × Bool :=
  match List.lookup key env with
  | some v => (v, true)
  | none => ("", false)

/-! ## gather_info.go -/

/-- envVarInfo maintains information about the configuration variable.
`Field` is the place of the field in the configuration object. -/
structure envVarInfo where
  Name : String
  Key : String
  Field : Path
  Comment : String
  Default : String
  IsDefaultSet : Bool
deriving DecidableEq, Repr

/-- The method `GetValueFromEnv`, reading the environment `env`. -/
def envVarInfo.GetValueFromEnv (env : Environ) (info : envVarInfo) : String × Option GoError :=
  if info.Key = "" then
    ("", some (.errorf [.text "\"env\" tag is empty on struct field: ", .text info.Name]))
  else
    let (value, ok) := LookupEnv env info.Key
    if !ok then
      if info.IsDefaultSet then
        (info.Default, none)
      else
        ("", some (.errorf [.text "env variable is not set: ", .quoted info.Key]))
    else
      (value, none)

/-- The function `createEnvVarInfo`; `f` is the place of the field. -/
def createEnvVarInfo (f : Path) (ftype : StructField) : envVarInfo :=
  let (defaultValue, isDefaultSet) := ftype.Tag.Lookup "default"
  { Name := ftype.Name
    Field := f
    Comment := ftype.Tag.Get "comment"
    Key := ftype.Tag.Get "env"
    Default := defaultValue
    IsDefaultSet := isDefaultSet }

/-- The guarantee of `sort.Slice(infos, less)` with
`less(i, j) = infos[i].Key < infos[j].Key`: the slice is rearranged so that no
element is less than one before it.  The routine is not stable, so the order
of descriptors with equal keys is left open: every theorem holds for every
such routine. -/
structure SliceSorter where
  sort : List envVarInfo → List envVarInfo
  perm : ∀ l, (sort l).Perm l
  sorted : ∀ l, (sort l).Pairwise (fun a b => ¬ b.Key < a.Key)

/-- The outcome of `followPointerChain` on the content of a field slot:
`slot` is the content of the slot after the call, `value` is the content of
the returned `reflect.Value`, which lies `steps` applications of `Elem` below
the slot. -/
structure Followed where
  slot : Value
  steps : Nat
  value : Value

/-- The function `followPointerChain`.  A nil pointer to a struct is set to a
fresh zero struct, which ends the loop since its kind is `Struct`. -/
def followPointerChain : Value → Followed
  | .ptr target =>
    let r := followPointerChain target
    ⟨.ptr r.slot, r.steps + 1, r.value⟩
  | .nilPtr elem =>
    if elem.Kind ≠ Kind.Struct then
      ⟨.nilPtr elem, 0, .nilPtr elem⟩
    else
      ⟨.ptr (zeroValue elem), 1, zeroValue elem⟩
  | f => ⟨f, 0, f⟩

/-- The method `reflect.Value.Elem` of a pointer that is not nil; any other
value is returned as it is. -/
def Value.Elem : Value → Value
  | .ptr target => target
  | v => v

/-- The content of a slot after the value `n` applications of `Elem` below it
has become `w`. -/
def Value.setElem : Nat → Value → Value → Value
  | 0, _, w => w
  | n + 1, .ptr target, w => .ptr (Value.setElem n target w)
  | _ + 1, v, _ => v

/-- The place `n` applications of `Elem` below field `i`. -/
def fieldPath (i n : Nat) : Path :=
  Step.field i :: List.replicate n Step.elem

/-- A descriptor found inside the struct at place `p`, seen from outside. -/
def envVarInfo.under (p : Path) (info : envVarInfo) : envVarInfo :=
  { info with Field := p ++ info.Field }

mutual
/-- The size of a type, a bound for the size of its zero value. -/
def GoType.size : GoType → Nat
  | .basic _ => 1
  | .ptr elem => elem.size + 1
  | .struct _ fields => typeFieldsSize fields + 1
/-- The size of the fields of a struct type. -/
def typeFieldsSize : List (StructField × GoType) → Nat
  | [] => 0
  | (_, t) :: rest => t.size + 1 + typeFieldsSize rest
end

mutual
/-- The size of a value, the measure by which extraction terminates. -/
def Value.size : Value → Nat
  | .basic _ _ => 1
  | .nilPtr elem => elem.size + 1
  | .ptr target => target.size + 1
  | .struct _ fields => fieldsSize fields + 1
/-- The size of the fields of a struct value. -/
def fieldsSize : List (StructField × Value) → Nat
  | [] => 0
  | (_, v) :: rest => v.size + 1 + fieldsSize rest
end

mutual
theorem size_zeroValue : ∀ t : GoType, (zeroValue t).size = t.size
  | .basic _ => by simp [zeroValue, Value.size, GoType.size]
  | .ptr _ => by simp [zeroValue, Value.size, GoType.size]
  | .struct _ fields => by
    simp [zeroValue, Value.size, GoType.size, size_zeroFields fields]
theorem size_zeroFields : ∀ fields : List (StructField × GoType),
    fieldsSize (zeroFields fields) = typeFieldsSize fields
  | [] => by simp [zeroFields, fieldsSize, typeFieldsSize]
  | (_, t) :: rest => by
    simp [zeroFields, fieldsSize, typeFieldsSize, size_zeroValue t, size_zeroFields rest]
end

theorem size_followPointerChain : ∀ f : Value, (followPointerChain f).value.size ≤ f.size
  | .basic _ _ => by simp [followPointerChain]
  | .struct _ _ => by simp [followPointerChain]
  | .ptr target => by
    have := size_followPointerChain target
    simp only [followPointerChain, Value.size]
    omega
  | .nilPtr elem => by
    simp only [followPointerChain]
    split
    · simp
    · simp [Value.size, size_zeroValue]

theorem size_embeddedPtr (ftype : StructField) (f : Value) (rest : List (StructField × Value)) :
    (Value.ptr (followPointerChain f).value).size < fieldsSize ((ftype, f) :: rest) + 1 := by
  have := size_followPointerChain f
  simp only [Value.size, fieldsSize]
  omega

/-- The three results of `gatherInfo`: the configuration object after the
call, the descriptors, and the error. -/
structure GatherResult where
  spec : Value
  infos : List envVarInfo
  err : Option GoError

/-- The state of the loop over the fields in `gatherInfo`: the fields after
the loop, the descriptors collected, and the error that ended it. -/
structure LoopResult where
  fields : List (StructField × Value)
  infos : List envVarInfo
  err : Option GoError

mutual
/-- The function `gatherInfo` gathers information about the specified struct.
`S` is the sorting routine and `implementsInterface` the function of that
name, whose source is not at hand. -/
def gatherInfo (S : SliceSorter) (implementsInterface : GoType → Bool) (spec : Value) :
    GatherResult :=
  match spec with
  | .ptr (.struct name fields) =>
    let r := gatherFields S implementsInterface 0 fields
    match r.err with
    | some err => ⟨.ptr (.struct name r.fields), [], some err⟩
    | none => ⟨.ptr (.struct name r.fields), S.sort r.infos, none⟩
  | .ptr _ =>
    ⟨spec, [], some (.wrapf [.text "spec must be a pointer to a struct: "] ErrInvalidSpecification)⟩
  | .nilPtr _ =>
    ⟨spec, [], some (.wrapf [.text "spec must be a pointer to a struct: "] ErrInvalidSpecification)⟩
  | _ =>
    ⟨spec, [], some (.wrapf [.text "spec must be a pointer: "] ErrInvalidSpecification)⟩
termination_by spec.size
decreasing_by
  simp_wf
  simp only [Value.size]
  omega
/-- The loop of `gatherInfo` over the fields from index `i` on. -/
def gatherFields (S : SliceSorter) (implementsInterface : GoType → Bool) (i : Nat)
    (fields : List (StructField × Value)) : LoopResult :=
  match fields with
  | [] => ⟨[], [], none⟩
  | (ftype, f) :: rest =>
    if ftype.PkgPath ≠ "" then
      ⟨(ftype, f) :: rest, [],
        some (.wrapf [.text "spec must not contain unexported fields: "] ErrInvalidSpecification)⟩
    else
      let c := followPointerChain f
      if c.value.Kind = Kind.Struct ∧ implementsInterface f.Type = false then
        let e := gatherInfo S implementsInterface (.ptr c.value)
        let slot := Value.setElem c.steps c.slot e.spec.Elem
        match e.err with
        | some err => ⟨(ftype, slot) :: rest, [], some err⟩
        | none =>
          let r := gatherFields S implementsInterface (i + 1) rest
          match r.err with
          | some err => ⟨(ftype, slot) :: r.fields, [], some err⟩
          | none =>
            ⟨(ftype, slot) :: r.fields,
              e.infos.map (envVarInfo.under (fieldPath i c.steps)) ++ r.infos, none⟩
      else
        let r := gatherFields S implementsInterface (i + 1) rest
        match r.err with
        | some err => ⟨(ftype, c.slot) :: r.fields, [], some err⟩
        | none =>
          ⟨(ftype, c.slot) :: r.fields,
            createEnvVarInfo (fieldPath i c.steps) ftype :: r.infos, none⟩
termination_by fieldsSize fields + 1
decreasing_by
  all_goals simp_wf
  · exact size_embeddedPtr _ _ _
  · simp only [fieldsSize]; omega
  · simp only [fieldsSize]; omega
end

/-- A sorting routine for `sort.Slice`: insertion sort on the keys. -/
def insertionSorter : SliceSorter where
  sort := List.insertionSort (fun a b => a.Key ≤ b.Key)
  perm := List.perm_insertionSort _
  sorted := by
    intro l
    haveI : IsTotal envVarInfo (fun a b => a.Key ≤ b.Key) := ⟨fun a b => le_total a.Key b.Key⟩
    haveI : IsTrans envVarInfo (fun a b => a.Key ≤ b.Key) := ⟨fun _ _ _ h₁ h₂ => le_trans h₁ h₂⟩
    have h := List.sorted_insertionSort (fun a b : envVarInfo => a.Key ≤ b.Key) l
    exact List.Pairwise.imp (fun hab => not_lt.mpr hab) h

/-! ## Extraction as the specification describes it -/

/-- The fields of a struct value; no fields for any other value. -/
def Value.fields : Value → List (StructField × Value)
  | .struct _ fields => fields
  | _ => []

theorem size_fields : ∀ v : Value, fieldsSize v.fields < v.size
  | .basic _ _ => by simp [Value.fields, fieldsSize, Value.size]
  | .nilPtr _ => by simp [Value.fields, fieldsSize, Value.size]
  | .ptr _ => by simp [Value.fields, fieldsSize, Value.size]
  | .struct _ _ => by simp [Value.fields, Value.size]

theorem size_innerFields (ftype : StructField) (f : Value) (rest : List (StructField × Value)) :
    fieldsSize (followPointerChain f).value.fields < fieldsSize ((ftype, f) :: rest) := by
  have h₁ := size_followPointerChain f
  have h₂ := size_fields (followPointerChain f).value
  simp only [fieldsSize]
  omega

/-- The declaration-order flattening of the fields of a struct, numbered from
`i` on: a field that, behind its pointers, is a struct without a decoding
capability of its own is replaced by the flattening of its fields; any other
field gives one descriptor made from its own tags.  Nothing is sorted. -/
def flatten (implementsInterface : GoType → Bool) (i : Nat)
    (fields : List (StructField × Value)) : List envVarInfo :=
  match fields with
  | [] => []
  | (ftype, f) :: rest =>
    let c := followPointerChain f
    if c.value.Kind = Kind.Struct ∧ implementsInterface f.Type = false then
      (flatten implementsInterface 0 c.value.fields).map (envVarInfo.under (fieldPath i c.steps))
        ++ flatten implementsInterface (i + 1) rest
    else
      createEnvVarInfo (fieldPath i c.steps) ftype :: flatten implementsInterface (i + 1) rest
termination_by fieldsSize fields
decreasing_by
  all_goals simp_wf
  · exact size_innerFields _ _ _
  · simp only [fieldsSize]; omega
  · simp only [fieldsSize]; omega

/-- The number of leaf fields of a struct: the fields, at any depth, that
extraction does not recurse into. -/
def leafCount (implementsInterface : GoType → Bool)
    (fields : List (StructField × Value)) : Nat :=
  match fields with
  | [] => 0
  | (_, f) :: rest =>
    let c := followPointerChain f
    if c.value.Kind = Kind.Struct ∧ implementsInterface f.Type = false then
      leafCount implementsInterface c.value.fields + leafCount implementsInterface rest
    else
      1 + leafCount implementsInterface rest
termination_by fieldsSize fields
decreasing_by
  all_goals simp_wf
  · exact size_innerFields _ _ _
  · simp only [fieldsSize]; omega
  · simp only [fieldsSize]; omega

/-- Whether some field of the struct, or of a struct among its fields that
extraction recurses into, is not settable. -/
def hasUnsettable (implementsInterface : GoType → Bool)
    (fields : List (StructField × Value)) : Bool :=
  match fields with
  | [] => false
  | (ftype, f) :: rest =>
    let c := followPointerChain f
    decide (ftype.PkgPath ≠ "")
      || (decide (c.value.Kind = Kind.Struct ∧ implementsInterface f.Type = false)
          && hasUnsettable implementsInterface c.value.fields)
      || hasUnsettable implementsInterface rest
termination_by fieldsSize fields
decreasing_by
  all_goals simp_wf
  · exact size_innerFields _ _ _
  · simp only [fieldsSize]; omega

/-! ## field_unmarshal_result.go -/

/-- A FieldUnmarshalResult. Err is filled when an environment variable is
required but missing or cannot be converted to the type required by a struct
field during assignment. -/
structure FieldUnmarshalResult where
  KeyName : String
  FieldName : String
  TypeName : String
  Value : String
  Err : Option GoError
deriving DecidableEq, Repr

/-- The type `FieldUnmarshalResults`. -/
abbrev FieldUnmarshalResults := List FieldUnmarshalResult

/-- The method `firstError`. -/
def firstError : FieldUnmarshalResults → Option GoError
  | [] => none
  | result :: rest =>
    if result.Err ≠ none then result.Err else firstError rest

/-! ## Unmarshal -/

/-- The value at a place of the struct `v`, if the place exists. -/
def Value.get : Value → Path → Option Value
  | v, [] => some v
  | .ptr target, Step.elem :: p => target.get p
  | .struct _ fields, Step.field i :: p =>
    match fields[i]? with
    | some (_, v) => v.get p
    | none => none
  | _, _ => none

/-- The struct `v` after `w` is written at a place of it. -/
def Value.set : Value → Path → Value → Value
  | _, [], w => w
  | .ptr target, Step.elem :: p, w => .ptr (target.set p w)
  | .struct name fields, Step.field i :: p, w =>
    match fields[i]? with
    | some (sf, v) => .struct name (fields.set i (sf, v.set p w))
    | none => .struct name fields
  | v, _, _ => v

/-- Modelled from the spec: the type-conversion dispatch of section 4.2,
whose source is not at hand.  `typeName` is the description of the type of a
field in the report; `convert` takes the content of the target and the raw
string and gives the converted content to be written into the target, or the
cause of the failure. -/
structure Converter where
  typeName : GoType → String
  convert : Value → String → Except GoError Value

/-- Modelled from the spec: value resolution and conversion for one
descriptor (section 4.2, resolution order), whose source is not at hand.  The
raw value comes from `GetValueFromEnv`; when that fails the target is left
unmodified; otherwise the raw string is converted and written into the
target, and a conversion failure is wrapped as
"assigning key=raw to field type description: cause", the target unmodified.
`obj` is the struct that `spec` points to.  A descriptor whose place is not in
the object, which extraction never produces, leaves the object as it is. -/
def processField (C : Converter) (env : Environ) (obj : Value) (info : envVarInfo) :
    Value × FieldUnmarshalResult :=
  match obj.get info.Field with
  | none =>
    (obj, ⟨info.Key, info.Name, "", "", some (.errorf [.text "no such field: ", .text info.Name])⟩)
  | some target =>
    let typeName := C.typeName target.Type
    match info.GetValueFromEnv env with
    | (raw, some err) => (obj, ⟨info.Key, info.Name, typeName, raw, some err⟩)
    | (raw, none) =>
      match C.convert target raw with
      | .ok converted => (obj.set info.Field converted, ⟨info.Key, info.Name, typeName, raw, none⟩)
      | .error cause =>
        (obj, ⟨info.Key, info.Name, typeName, raw,
          some (.wrapf [.text "assigning ", .text info.Key, .text "=", .quoted raw, .text " to ",
            .text info.Name, .text " type ", .text typeName, .text ": "] cause)⟩)

/-- Modelled from the spec: one outcome per descriptor, in the order of
extraction (section 4.3); a failure of one field does not end the pass. -/
def processFields (C : Converter) (env : Environ) :
    Value → List envVarInfo → Value × FieldUnmarshalResults
  | obj, [] => (obj, [])
  | obj, info :: rest =>
    let step := processField C env obj info
    let pass := processFields C env step.1 rest
    (pass.1, step.2 :: pass.2)

/-- The results of `Unmarshal`: the configuration object after the call, the
report, and the aggregate error. -/
structure UnmarshalResult where
  spec : Value
  results : FieldUnmarshalResults
  err : Option GoError

/-- Modelled from the spec: the entry point `Unmarshal`, whose source is not
at hand (sections 2, 4.1, 4.2, 4.3, 6 and 7).  Extraction comes first; a
structural error ends the pass with an empty report.  A binding key that two
descriptors share is a structural error (InvalidSpecification) as well, fatal
to the whole pass.  An empty key is no binding key: descriptors without a key
are not compared, since that is the error of their own field at resolution
time and never ends the pass.  Otherwise every descriptor is resolved in the
order of extraction, and the aggregate error is the first error of the
report. -/
def Unmarshal (S : SliceSorter) (implementsInterface : GoType → Bool) (C : Converter)
    (env : Environ) (spec : Value) : UnmarshalResult :=
  let g := gatherInfo S implementsInterface spec
  match g.err with
  | some err => ⟨g.spec, [], some err⟩
  | none =>
    if ((g.infos.map (fun info => info.Key)).filter (fun key => key != "")).Nodup then
      let pass := processFields C env g.spec.Elem g.infos
      ⟨.ptr pass.1, pass.2, firstError pass.2⟩
    else
      ⟨g.spec, [], some (.wrapf [.text "duplicate binding key: "] ErrInvalidSpecification)⟩

/-! ## find_unknown.go -/

/-- The function `os.Environ`: the entries `name=value` of the environment. -/
def osEnviron (env : Environ) : List String :=
  env.map (fun entry => entry.1 ++ "=" ++ entry.2)

/-- The function `strings.HasPrefix`. -/
def HasPrefix (s pfx : String) : Bool :=
  pfx.data.isPrefixOf s.data

/-- The expression `strings.SplitN(s, "=", 2)[0]`: the part of `s` before its
first `=`, all of `s` when it has none. -/
def beforeEquals (s : String) : String :=
  String.mk (s.data.takeWhile (fun c => c != '='))

/-- The results of `FindUnknownEnvVariablesByPrefix`: the configuration object
after the call, the unknown variables, and the error. -/
structure FindResult where
  spec : Value
  unknownVars : List String
  err : Option GoError

/-- FindUnknownEnvVariablesByPrefix checks that no environment variables with
the prefix are set that we don't know how or want to parse. This is likely
only meaningful with a non-empty prefix. Returns list of unknown env
variables. -/
def FindUnknownEnvVariablesByPrefix (S : SliceSorter) (implementsInterface : GoType → Bool)
    (environ : Environ) (pfx : String) (spec : Value) : FindResult :=
  if pfx = "" then
    ⟨spec, [], some (.wrapf [] ErrEmptyPrefix)⟩
  else
    let g := gatherInfo S implementsInterface spec
    match g.err with
    | some err => ⟨g.spec, [], some (.wrapf [.text "gather info: "] err)⟩
    | none =>
      let vars := g.infos.map (fun info => info.Key)
      ⟨g.spec,
        (osEnviron environ).filterMap (fun env =>
          if !HasPrefix env pfx then none
          else
            let v := beforeEquals env
            if v ∈ vars then none else some v),
        none⟩

/-! ## The messages of errors -/

/-- The digit of `n` modulo 16 in lower-case hexadecimal. -/
def hexDigit (n : Nat) : Char :=
  "0123456789abcdef".data.getD (n % 16) '0'

/-- The last `width` hexadecimal digits of `n`. -/
def hexDigits : Nat → Nat → List Char
  | 0, _ => []
  | width + 1, n => hexDigits width (n / 16) ++ [hexDigit n]

/-- The function `strconv.IsPrint`.  Up to U+00FF it is given by ranges; beyond,
by tables of the standard library, taken as the parameter `wide`. -/
def IsPrint (wide : Char → Bool) (r : Char) : Bool :=
  if r.toNat ≤ 0xFF then
    if 0x20 ≤ r.toNat ∧ r.toNat ≤ 0x7E then true
    else if 0xA1 ≤ r.toNat ∧ r.toNat ≤ 0xFF then decide (r.toNat ≠ 0xAD)
    else false
  else wide r

/-- The function `appendEscapedRune` of `strconv`, as `Quote` calls it: the
text that stands for the rune `r` between double quotes. -/
def escapedRune (wide : Char → Bool) (r : Char) : List Char :=
  if r = '"' ∨ r = '\\' then ['\\', r]
  else if IsPrint wide r then [r]
  else if r.toNat = 7 then ['\\', 'a']
  else if r.toNat = 8 then ['\\', 'b']
  else if r.toNat = 12 then ['\\', 'f']
  else if r = '\n' then ['\\', 'n']
  else if r = '\r' then ['\\', 'r']
  else if r = '\t' then ['\\', 't']
  else if r.toNat = 11 then ['\\', 'v']
  else if r.toNat < 0x20 ∨ r.toNat = 0x7F then '\\' :: 'x' :: hexDigits 2 r.toNat
  else if r.toNat < 0x10000 then '\\' :: 'u' :: hexDigits 4 r.toNat
  else '\\' :: 'U' :: hexDigits 8 r.toNat

/-- The function `strconv.Quote`, which formats the verb `%q` of a string. -/
def strconvQuote (wide : Char → Bool) (s : String) : String :=
  String.mk ('"' :: (s.data.map (escapedRune wide)).flatten ++ ['"'])

/-- The text of one piece of a message. -/
def Seg.render (wide : Char → Bool) : Seg → String
  | .text s => s
  | .quoted s => strconvQuote wide s

/-- The message of the pieces of a format. -/
def renderSegs (wide : Char → Bool) : List Seg → String
  | [] => ""
  | seg :: rest => seg.render wide ++ renderSegs wide rest

/-- The method `Error` of an error. -/
def GoError.Error (wide : Char → Bool) : GoError → String
  | .new text => text
  | .errorf msg => renderSegs wide msg
  | .wrapf msg err => renderSegs wide msg ++ err.Error wide

/-! ## The writes of extraction, as the specification describes them -/

mutual
/-- The value `w` is the value `v` after some nil pointers to a struct type
have been set to a fresh zero struct, inside which nil pointers to a struct
type may have been set in turn; nothing else differs. -/
inductive Materialised : Value → Value → Prop where
  | basic (t : BasicType) (d : Data) : Materialised (.basic t d) (.basic t d)
  | nilPtr (elem : GoType) : Materialised (.nilPtr elem) (.nilPtr elem)
  | alloc (elem : GoType) (w : Value) : elem.Kind = Kind.Struct →
      Materialised (zeroValue elem) w → Materialised (.nilPtr elem) (.ptr w)
  | ptr (v w : Value) : Materialised v w → Materialised (.ptr v) (.ptr w)
  | struct (name : String) (fs gs : List (StructField × Value)) :
      MaterialisedFields fs gs → Materialised (.struct name fs) (.struct name gs)
/-- The same for the fields of a struct, field by field. -/
inductive MaterialisedFields :
    List (StructField × Value) → List (StructField × Value) → Prop where
  | nil : MaterialisedFields [] []
  | cons (sf : StructField) (v w : Value) (fs gs : List (StructField × Value)) :
      Materialised v w → MaterialisedFields fs gs →
      MaterialisedFields ((sf, v) :: fs) ((sf, w) :: gs)
end

/-- Whether the type is a chain of one or more pointers that ends in a struct
type. -/
def GoType.isStructChain : GoType → Bool
  | .ptr (.struct _ _) => true
  | .ptr elem => elem.isStructChain
  | _ => false

/-- Whether no link of the pointer chain of the value is nil, the last link
before a struct apart. -/
def reachesStruct : Value → Bool
  | .struct _ _ => true
  | .ptr target => reachesStruct target
  | .nilPtr elem => decide (elem.Kind = Kind.Struct)
  | .basic _ _ => false

/-! ## Conversion -/

/-- The function `strings.Split(s, sep)` for a separator of one character, on
the characters of `s`: one piece more than there are separators. -/
def splitChars (sep : Char) : List Char → List (List Char)
  | [] => [[]]
  | c :: cs =>
    if c = sep then [] :: splitChars sep cs
    else
      match splitChars sep cs with
      | [] => [[c]]
      | piece :: pieces => (c :: piece) :: pieces

/-- The pieces of a string between its commas. -/
def splitComma (s : String) : List String :=
  (splitChars ',' s.data).map String.mk

/-- The parts of the characters before and after the first separator, if there
is one. -/
def cutChars (sep : Char) : List Char → Option (List Char × List Char)
  | [] => none
  | c :: cs =>
    if c = sep then some ([], cs)
    else
      match cutChars sep cs with
      | some (before, after) => some (c :: before, after)
      | none => none

/-- The key and the value of a pair `key:value`, cut at its first colon. -/
def cutColon (s : String) : Option (String × String) :=
  match cutChars ':' s.data with
  | some (before, after) => some (String.mk before, String.mk after)
  | none => none

/-- The pieces joined with the separator between them. -/
def joinChars (sep : Char) : List (List Char) → List Char
  | [] => []
  | [piece] => piece
  | piece :: pieces => piece ++ sep :: joinChars sep pieces

/-- The strings joined with commas between them, as `strings.Join` does. -/
def joinComma (xs : List String) : String :=
  String.mk (joinChars ',' (xs.map String.data))

/-- The value of a decimal digit. -/
def digitValue (c : Char) : Option Nat :=
  if 48 ≤ c.toNat ∧ c.toNat ≤ 57 then some (c.toNat - 48) else none

/-- The number written by decimal digits after the number `acc`. -/
def parseDigitsFrom : Nat → List Char → Option Nat
  | acc, [] => some acc
  | acc, c :: cs =>
    match digitValue c with
    | some d => parseDigitsFrom (acc * 10 + d) cs
    | none => none

/-- The number written by one or more decimal digits. -/
def parseDigits : List Char → Option Nat
  | [] => none
  | c :: cs => parseDigitsFrom 0 (c :: cs)

/-- The decimal text of an integer, as `strconv.Itoa` and `toString` write it. -/
def formatInt : Int → String
  | .ofNat n => String.mk (Nat.toDigits 10 n)
  | .negSucc n => String.mk ('-' :: Nat.toDigits 10 (n + 1))

/-- Modelled from the spec: conversion to a signed integer of the given bit
width (section 4.2, primitive kinds); its source is not at hand.  A decimal
literal with an optional sign is accepted; the conversion fails on any other
text and on overflow. -/
def parseInt (bits : Nat) (raw : String) : Except GoError Int :=
  let parsed : Option Int :=
    match raw.data with
    | '-' :: ds => (parseDigits ds).map (fun n => -(n : Int))
    | '+' :: ds => (parseDigits ds).map (fun n => (n : Int))
    | ds => (parseDigits ds).map (fun n => (n : Int))
  match parsed with
  | none => .error (.errorf [.text "strconv.ParseInt: parsing ", .quoted raw, .text ": invalid syntax"])
  | some i =>
    if -(2 ^ (bits - 1) : Int) ≤ i ∧ i < 2 ^ (bits - 1) then .ok i
    else .error (.errorf [.text "strconv.ParseInt: parsing ", .quoted raw,
      .text ": value out of range"])

/-- Modelled from the spec: conversion to an unsigned integer of the given bit
width (section 4.2, primitive kinds); its source is not at hand.  Decimal
digits are accepted; the conversion fails on a sign, hence on every negative
value, on any other text and on overflow. -/
def parseUint (bits : Nat) (raw : String) : Except GoError Nat :=
  match parseDigits raw.data with
  | none => .error (.errorf [.text "strconv.ParseUint: parsing ", .quoted raw, .text ": invalid syntax"])
  | some n =>
    if n < 2 ^ bits then .ok n
    else .error (.errorf [.text "strconv.ParseUint: parsing ", .quoted raw,
      .text ": value out of range"])

/-- Modelled from the spec: conversion to a boolean (section 4.2, primitive
kinds) by the boolean literals of the platform, those of `strconv.ParseBool`;
its source is not at hand. -/
def parseBool (raw : String) : Except GoError Bool :=
  if raw ∈ ["1", "t", "T", "TRUE", "true", "True"] then .ok true
  else if raw ∈ ["0", "f", "F", "FALSE", "false", "False"] then .ok false
  else .error (.errorf [.text "strconv.ParseBool: parsing ", .quoted raw, .text ": invalid syntax"])

mutual
/-- Equality of data, as Go compares the keys of a map. -/
def Data.beq : Data → Data → Bool
  | .none, .none => true
  | .bool a, .bool b => a == b
  | .int a, .int b => a == b
  | .float a, .float b => a == b
  | .str a, .str b => a == b
  | .seq xs, .seq ys => Data.beqList xs ys
  | .dict xs, .dict ys => Data.beqPairs xs ys
  | _, _ => false
/-- Equality of sequences of data. -/
def Data.beqList : List Data → List Data → Bool
  | [], [] => true
  | x :: xs, y :: ys => Data.beq x y && Data.beqList xs ys
  | _, _ => false
/-- Equality of sequences of pairs of data. -/
def Data.beqPairs : List (Data × Data) → List (Data × Data) → Bool
  | [], [] => true
  | (k, v) :: xs, (l, w) :: ys => Data.beq k l && Data.beq v w && Data.beqPairs xs ys
  | _, _ => false
end

/-- The entries of a map after `m[k] = v`: the value of an entry with the key
`k` is replaced, otherwise the entry is added. -/
def dictInsert (k v : Data) : List (Data × Data) → List (Data × Data)
  | [] => [(k, v)]
  | (l, w) :: rest => if Data.beq l k then (l, v) :: rest else (l, w) :: dictInsert k v rest

/-- The entries of a map after the pairs have been inserted from left to
right, starting from the entries `m`. -/
def dictInsertAll (m : List (Data × Data)) (pairs : List (Data × Data)) : List (Data × Data) :=
  pairs.foldl (fun acc pair => dictInsert pair.1 pair.2 acc) m

/-- The value of the key `k` in the entries of a map. -/
def dictLookup (k : Data) : List (Data × Data) → Option Data
  | [] => none
  | (l, w) :: rest => if Data.beq l k then some w else dictLookup k rest

/-- A capability of a type: from the current content of a value and the raw
string to the new content, or the cause of the failure. -/
abbrev Capability := Value → String → Except GoError Value

/-- Modelled from the spec: what the conversion takes from outside (section
4.2); none of it is in the sources at hand.  `Decode`, `UnmarshalBinary` and
`Set` give the custom decode, binary-unmarshal and textual-set capability of
the defined type of a given name, if the type provides it.  `ParseFloat`,
`ParseDuration` and `ParseTime` stand for the parsers of floating point
numbers of a bit width, of durations and of timestamps in the fixed layout.
`typeName` is the description of a type in the report. -/
structure Methods where
  Decode : String → Option Capability
  UnmarshalBinary : String → Option Capability
  Set : String → Option Capability
  ParseFloat : Nat → String → Except GoError Data
  ParseDuration : String → Except GoError Data
  ParseTime : String → Except GoError Value
  typeName : GoType → String

/-- Modelled from the spec: the custom capability that converts a value of the
defined type `name`, by the precedence of section 4.2: the decode capability
before everything, then the binary-unmarshal and the textual-set capability. -/
def Methods.capability (M : Methods) (name : String) : Option Capability :=
  match M.Decode name with
  | some decode => some decode
  | none =>
    match M.UnmarshalBinary name with
    | some unmarshal => some unmarshal
    | none => M.Set name

/-- The error of a type that has no conversion. -/
def unsupportedType : GoError := .errorf [.text "unsupported type"]

/-- Modelled from the spec: the conversion of every piece of a sequence, in
order; it fails with the first failure. -/
def convertPieces (convert : String → Except GoError Data) :
    List String → Except GoError (List Data)
  | [] => .ok []
  | piece :: pieces =>
    match convert piece with
    | .error cause => .error cause
    | .ok d =>
      match convertPieces convert pieces with
      | .error cause => .error cause
      | .ok ds => .ok (d :: ds)

/-- Modelled from the spec: the conversion of the pairs of a mapping, in
order, each cut at its first colon into key and value; it fails on a pair
without colon and with the first failure of a key or value. -/
def convertPairs (convertKey convertElem : String → Except GoError Data) :
    List String → Except GoError (List (Data × Data))
  | [] => .ok []
  | pair :: pairs =>
    match cutColon pair with
    | none => .error (.errorf [.text "invalid map item: ", .quoted pair])
    | some (key, value) =>
      match convertKey key with
      | .error cause => .error cause
      | .ok k =>
        match convertElem value with
        | .error cause => .error cause
        | .ok v =>
          match convertPairs convertKey convertElem pairs with
          | .error cause => .error cause
          | .ok kvs => .ok ((k, v) :: kvs)

/-- Modelled from the spec: the type-conversion dispatch of section 4.2 for a
type of basic kind, whose source is not at hand: a custom capability of a
defined type first, then the primitive kinds, sequences (split on commas; a
sequence of bytes takes the raw string as it is; the empty string gives the
empty sequence), mappings (pairs split on commas, each cut at its first colon,
inserted from left to right; the empty string gives the empty mapping), and
failure for anything else. -/
def convertData (M : Methods) : BasicType → String → Except GoError Data
  | .bool, raw => (parseBool raw).map Data.bool
  | .int bits, raw => (parseInt bits raw).map Data.int
  | .uint bits, raw => (parseUint bits raw).map (fun n => Data.int n)
  | .float bits, raw => M.ParseFloat bits raw
  | .string, raw => .ok (.str raw)
  | .duration, raw => M.ParseDuration raw
  | .slice (.uint 8), raw => .ok (.str raw)
  | .slice elem, raw =>
    if raw = "" then .ok (.seq [])
    else (convertPieces (fun piece => convertData M elem piece) (splitComma raw)).map Data.seq
  | .map key elem, raw =>
    if raw = "" then .ok (.dict [])
    else
      (convertPairs (fun piece => convertData M key piece) (fun piece => convertData M elem piece)
        (splitComma raw)).map (fun pairs => Data.dict (dictInsertAll [] pairs))
  | .named name underlying, raw =>
    match M.capability name with
    | some capability =>
      match capability (.basic (.named name underlying) underlying.zero) raw with
      | .ok (.basic _ d) => .ok d
      | .ok _ => .error unsupportedType
      | .error cause => .error cause
    | none => convertData M underlying raw
  | .other _, _ => .error unsupportedType

/-- The name of the defined type of a value, if its type is a defined type. -/
def Value.typeName? : Value → Option String
  | .basic (.named name _) _ => some name
  | .struct name _ => if name = "" then none else some name
  | _ => none

/-- Modelled from the spec: the type-conversion dispatch of section 4.2 for a
target that is not a pointer, whose source is not at hand: a custom capability
of the type of the target pre-empts everything; a value of basic kind is
converted by its kind; the timestamp type is parsed in its layout; anything
else fails. -/
def convertLeaf (M : Methods) (target : Value) (raw : String) : Except GoError Value :=
  match target.typeName?.bind M.capability with
  | some capability => capability target raw
  | none =>
    match target with
    | .basic t _ => (convertData M t raw).map (Value.basic t)
    | .struct name _ => if name = "time.Time" then M.ParseTime raw else .error unsupportedType
    | _ => .error unsupportedType

/-- Modelled from the spec: the conversion into a fresh value of a type; a
pointer type gets a pointer to a fresh converted element. -/
def convertZero (M : Methods) : GoType → String → Except GoError Value
  | .ptr elem, raw => (convertZero M elem raw).map Value.ptr
  | .basic t, raw => convertLeaf M (zeroValue (.basic t)) raw
  | .struct name fields, raw => convertLeaf M (zeroValue (.struct name fields)) raw

/-- Modelled from the spec: the conversion of the raw string into the type of
the target (section 4.2, step 5), whose source is not at hand.  A target that
is a nil pointer, which extraction leaves when the element is not a struct,
gets a pointer to a fresh converted element, as the tests with fields of type
`*string` show. -/
def convertValue (M : Methods) : Value → String → Except GoError Value
  | .ptr target, raw => (convertValue M target raw).map Value.ptr
  | .nilPtr elem, raw => (convertZero M elem raw).map Value.ptr
  | .basic t d, raw => convertLeaf M (.basic t d) raw
  | .struct name fields, raw => convertLeaf M (.struct name fields) raw

/-- Modelled from the spec: the conversion of section 4.2 as a `Converter`. -/
def specConverter (M : Methods) : Converter where
  typeName := M.typeName
  convert := convertValue M

/-- Methods for configurations whose types have no capability: no type name
provides one, and the parsers of floats, durations and timestamps, which no
theorem evaluates, fail. -/
def noMethods : Methods where
  Decode := fun _ => none
  UnmarshalBinary := fun _ => none
  Set := fun _ => none
  ParseFloat := fun _ _ => .error unsupportedType
  ParseDuration := fun _ => .error unsupportedType
  ParseTime := fun _ => .error unsupportedType
  typeName := fun _ => ""

/-! ## The outcome of one field -/

/-- Two places part ways: after a common beginning they go on with different
steps, so neither lies inside the other. -/
def Path.diverge : Path → Path → Prop
  | a :: p, b :: q => if a = b then Path.diverge p q else True
  | _, _ => False

/-- Modelled from the spec: what resolution does to the target of one
descriptor (section 4.2): the content of the target afterwards and the error
of the outcome.  The target keeps its content `t` when no value is resolved or
the conversion fails. -/
def fieldOutcome (C : Converter) (env : Environ) (t : Value) (info : envVarInfo) :
    Value × Option GoError :=
  match info.GetValueFromEnv env with
  | (_, some err) => (t, some err)
  | (raw, none) =>
    match C.convert t raw with
    | .ok converted => (converted, none)
    | .error cause =>
      (t, some (.wrapf [.text "assigning ", .text info.Key, .text "=", .quoted raw, .text " to ",
        .text info.Name, .text " type ", .text (C.typeName t.Type), .text ": "] cause))

/-! ## Configurations of the tests -/

/-- An exported field with an `env` tag. -/
def envField (name key : String) (v : Value) : StructField × Value :=
  (⟨name, "", [("env", key)]⟩, v)

/-- The zero value of a field of type `string`, `bool`, `int`. -/
def zeroString : Value := .basic .string (.str "")

def zeroBool : Value := .basic .bool (.bool false)

def zeroInt : Value := .basic (.int 64) (.int 0)

/-- No type has a decoding capability of its own. -/
def noInterface : GoType → Bool := fun _ => false

/-- The struct of `TestEnvVarCollision`. -/
def collisionSpec : Value :=
  .ptr (.struct "" [envField "A" "A" zeroString, envField "B" "A" zeroString])

/-- The struct of `TestEmbeddedStruct`, with the fields `Debug` and `Port` of
`TestFieldParseResults_PrettyPrint` after the embedded struct. -/
def embeddedSpec : Value :=
  .ptr (.struct "" [
    (⟨"Embedded", "", [("env", "ENV_CONFIG_EMBEDDED"), ("comment", "can we document a struct")]⟩,
      .struct "Embedded" [
        (⟨"Bool", "", [("env", "ENV_CONFIG_ENABLED"), ("comment", "some embedded value")]⟩, zeroBool),
        envField "Int" "ENV_CONFIG_EMBEDDED_PORT" zeroInt,
        envField "String" "ENV_CONFIG_MULTI_WORD_VAR" zeroString]),
    envField "Debug" "ENV_CONFIG_DEBUG" zeroBool,
    envField "Port" "ENV_CONFIG_PORT" zeroInt])

/-- The type `HonorDecodeInStruct` of the tests. -/
def honorDecodeInStruct : GoType :=
  .struct "HonorDecodeInStruct" [(⟨"Value", "", []⟩, .basic .string)]

/-- The types `HonorDecodeInStruct` and `*HonorDecodeInStruct` have a decoding
capability, no other type has. -/
def honorInterface : GoType → Bool
  | .struct "HonorDecodeInStruct" _ => true
  | .ptr (.struct "HonorDecodeInStruct" _) => true
  | _ => false

/-- A struct with the fields `AfterNested` and `DecodeStruct` of `TestProcess`. -/
def decodeSpec : Value :=
  .ptr (.struct "" [
    envField "AfterNested" "ENV_CONFIG_AFTER_NESTED" zeroString,
    (⟨"DecodeStruct", "", [("env", "ENV_CONFIG_HONOR"), ("default", "x"), ("comment", "c")]⟩,
      zeroValue honorDecodeInStruct)])

/-- A struct whose fields share the key `A`; the first is a nil pointer to a
struct with a decoding capability. -/
def pointerCollisionSpec : Value :=
  .ptr (.struct "" [
    envField "P" "A" (.nilPtr honorDecodeInStruct),
    envField "B" "A" zeroString])

/-- A struct with two fields without an `env` tag and a field bound to `Z`. -/
def untaggedSpec : Value :=
  .ptr (.struct "" [(⟨"X", "", []⟩, zeroString), (⟨"Y", "", []⟩, zeroString),
    envField "Z" "Z" zeroString])

/-- The struct of `TestUnsetVars`. -/
def userSpec : Value :=
  .ptr (.struct "" [envField "User" "ENV_CONFIG_USER" zeroString])

/-- The argument of `TestErrInvalidSpecification`: a pointer to a map. -/
def mapSpec : Value :=
  .ptr (.basic (.map .string .string) (.dict []))

/-- A struct with an embedded struct that has a field that is not exported. -/
def unexportedSpec : Value :=
  .ptr (.struct "" [
    envField "Debug" "ENV_CONFIG_DEBUG" zeroBool,
    (⟨"Embedded", "", []⟩, .struct "Embedded" [
      envField "Port" "ENV_CONFIG_PORT" zeroInt,
      (⟨"hidden", "envconfig", [("env", "ENV_CONFIG_HIDDEN")]⟩, zeroString)])])

/-- A conversion that accepts every raw string for a field of type `string`
and no other field. -/
def stringConverter : Converter where
  typeName := fun _ => "string"
  convert := fun target raw =>
    match target with
    | .basic .string _ => .ok (.basic .string (.str raw))
    | _ => .error (.errorf [.text "unsupported type"])

/-- A struct with one exported field of a basic type, with its `env` tag. -/
def singleSpec (name key : String) (t : BasicType) : Value :=
  .ptr (.struct "" [envField name key (.basic t t.zero)])

/-- The descriptor of the field of `singleSpec`. -/
def singleInfo (name key : String) : envVarInfo :=
  ⟨name, key, [.field 0], "", "", false⟩

/-- The field `MagicNumbers []int` of `TestProcess`. -/
def numbersSpec : Value := singleSpec "MagicNumbers" "ENV_CONFIG_MAGIC_NUMBERS" (.slice (.int 64))

/-- The field `ColorCodes map[string]int` of `TestProcess`. -/
def colorSpec : Value :=
  singleSpec "ColorCodes" "ENV_CONFIG_COLOR_CODES" (.map .string (.int 64))

/-- The field `TTL uint32` of `TestParseErrorUint`. -/
def ttlSpec : Value := singleSpec "TTL" "ENV_CONFIG_TTL" (.uint 32)

/-- The field `AdminUsers []string` of `TestProcess`. -/
def adminSpec : Value := singleSpec "AdminUsers" "ENV_CONFIG_ADMIN_USERS" (.slice .string)

/-- The field `MapField map[string]string` of `TestProcess`. -/
def mapFieldSpec : Value := singleSpec "MapField" "ENV_CONFIG_MAPFIELD" (.map .string .string)

/-- A value of the type `quoted` of the tests, a struct around a `bracketed`
string with the given text. -/
def quotedValue (text : String) : Value :=
  .struct "quoted" [(⟨"Value", "", []⟩, .basic (.named "bracketed" .string) (.str text))]

/-- The field `Baz quoted` of `TestCustomValueFields`, with an initial value. -/
def quotedSpec : Value :=
  .ptr (.struct "" [envField "Baz" "ENV_CONFIG_BAZ" (quotedValue "")])

/-- The method `Set` of `bracketed`, seen from `quoted`: the text becomes the
value between brackets. -/
def quotedSet : Capability := fun _ value => .ok (quotedValue ("[" ++ value ++ "]"))

/-- The method `Decode` of `quoted`: `Set` of the value between double quotes. -/
def quotedDecode : Capability := fun target value => quotedSet target ("\"" ++ value ++ "\"")

/-- The methods of the type `quoted`: it has both `Decode` and `Set`. -/
def quotedMethods : Methods :=
  { noMethods with
    Decode := fun name => if name = "quoted" then some quotedDecode else none
    Set := fun name => if name = "quoted" then some quotedSet else none }

/-- The type `quoted` has a capability of its own. -/
def quotedInterface : GoType → Bool
  | .struct "quoted" _ => true
  | _ => false

/-- The struct of `TestCheckDisallowedOnlyAllowed`. -/
def debugSpec : Value :=
  .ptr (.struct "" [envField "Debug" "ENV_CONFIG_DEBUG" zeroBool])

/-- The empty struct of `TestCheckUnknownEmptyPrefix`. -/
def emptySpec : Value := .ptr (.struct "" [])

/-- A nil pointer to a struct. -/
def nilStructPtr : Value := .nilPtr honorDecodeInStruct

/-- A nil pointer to a pointer to a struct. -/
def nilPtrPtr : Value := .nilPtr (.ptr honorDecodeInStruct)

/-! ## Lemmas on extraction -/

theorem Value.eq_struct_of_kind : ∀ v : Value, v.Kind = Kind.Struct →
    ∃ name, v = Value.struct name v.fields
  | .basic _ _ => by simp [Value.Kind]
  | .nilPtr _ => by simp [Value.Kind]
  | .ptr _ => by simp [Value.Kind]
  | .struct name _ => fun _ => ⟨name, rfl⟩

/-- Induction over the fields of a struct along the calls of extraction: from
the fields of a struct recursed into, and from the rest of the fields. -/
theorem fields_induction (motive : Nat → List (StructField × Value) → Prop)
    (nil : ∀ i, motive i [])
    (cons : ∀ i ftype f rest, motive 0 (followPointerChain f).value.fields →
      motive (i + 1) rest → motive i ((ftype, f) :: rest)) :
    ∀ i fields, motive i fields := by
  have key : ∀ n fields, fieldsSize fields ≤ n → ∀ i, motive i fields := by
    intro n
    induction n with
    | zero =>
      intro fields h i
      cases fields with
      | nil => exact nil i
      | cons p rest =>
        obtain ⟨ftype, f⟩ := p
        simp only [fieldsSize] at h
        omega
    | succ n ih =>
      intro fields h i
      cases fields with
      | nil => exact nil i
      | cons p rest =>
        obtain ⟨ftype, f⟩ := p
        have h₁ := size_innerFields ftype f rest
        have h₂ : fieldsSize rest < fieldsSize ((ftype, f) :: rest) := by
          simp only [fieldsSize]; omega
        exact cons i ftype f rest (ih _ (by omega) 0) (ih _ (by omega) (i + 1))
  intro i fields
  exact key _ fields (le_refl _) i

theorem gatherInfo_err (S : SliceSorter) (impl : GoType → Bool) : ∀ v : Value,
    v.Kind = Kind.Struct →
    (gatherInfo S impl (.ptr v)).err = (gatherFields S impl 0 v.fields).err
  | .basic _ _ => by simp [Value.Kind]
  | .nilPtr _ => by simp [Value.Kind]
  | .ptr _ => by simp [Value.Kind]
  | .struct name fields => by
    intro _
    rw [gatherInfo.eq_1]
    show _ = (gatherFields S impl 0 fields).err
    cases h : (gatherFields S impl 0 fields).err <;> rfl

theorem gatherInfo_infos (S : SliceSorter) (impl : GoType → Bool) : ∀ v : Value,
    v.Kind = Kind.Struct →
    (gatherInfo S impl (.ptr v)).infos =
      match (gatherFields S impl 0 v.fields).err with
      | some _ => []
      | none => S.sort (gatherFields S impl 0 v.fields).infos
  | .basic _ _ => by simp [Value.Kind]
  | .nilPtr _ => by simp [Value.Kind]
  | .ptr _ => by simp [Value.Kind]
  | .struct name fields => by
    intro _
    rw [gatherInfo.eq_1]
    show _ = match (gatherFields S impl 0 fields).err with
      | some _ => []
      | none => S.sort (gatherFields S impl 0 fields).infos
    cases h : (gatherFields S impl 0 fields).err <;> rfl

theorem errorsIs_wrapf (msg : List Seg) (err target : GoError) (h : errorsIs err target = true) :
    errorsIs (.wrapf msg err) target = true := by
  simp [errorsIs, h]

theorem errorsIs_refl : ∀ err : GoError, errorsIs err err = true
  | .new _ => by simp [errorsIs]
  | .errorf _ => by simp [errorsIs]
  | .wrapf _ _ => by simp [errorsIs]

/-- The loop fails exactly when a visited field is not settable; its error
then wraps `ErrInvalidSpecification` and it returns no descriptor. -/
theorem gatherFields_err (S : SliceSorter) (impl : GoType → Bool) :
    ∀ i fields,
      ((gatherFields S impl i fields).err ≠ none ↔ hasUnsettable impl fields = true) ∧
      (∀ e, (gatherFields S impl i fields).err = some e →
        errorsIs e ErrInvalidSpecification = true ∧ (gatherFields S impl i fields).infos = []) := by
  apply fields_induction
  · intro i
    rw [gatherFields.eq_1, hasUnsettable]
    simp
  · intro i ftype f rest ihInner ihRest
    rw [gatherFields.eq_2, hasUnsettable]
    by_cases hset : ftype.PkgPath ≠ ""
    · simp [hset, errorsIs_wrapf, errorsIs_refl]
    · by_cases hrec : (followPointerChain f).value.Kind = Kind.Struct ∧ impl f.Type = false
      · have herr := gatherInfo_err S impl _ hrec.1
        have hinfos := gatherInfo_infos S impl _ hrec.1
        simp only [hset, hrec, if_true, if_false, and_self, decide_True, decide_False,
          Bool.false_or, Bool.true_and, not_false_eq_true]
        cases he : (gatherInfo S impl (followPointerChain f).value.ptr).err with
        | some err =>
          rw [he] at herr
          have h₁ := (ihInner.1).mp (by rw [← herr]; simp)
          have h₂ := ihInner.2 err herr.symm
          simp [h₁, h₂.1]
        | none =>
          rw [he] at herr
          have h₁ : hasUnsettable impl (followPointerChain f).value.fields = false := by
            by_contra hne
            have := (ihInner.1).mpr (by simpa using hne)
            exact this herr.symm
          cases hr : (gatherFields S impl (i + 1) rest).err with
          | some err =>
            have h₂ := (ihRest.1).mp (by rw [hr]; simp)
            have h₃ := ihRest.2 err hr
            simp [h₁, h₂, h₃.1]
          | none =>
            have h₂ : hasUnsettable impl rest = false := by
              by_contra hne
              have := (ihRest.1).mpr (by simpa using hne)
              exact this hr
            simp [h₁, h₂]
      · simp only [hset, hrec, if_true, if_false, decide_True, decide_False,
          Bool.false_or, Bool.false_and, not_false_eq_true]
        cases hr : (gatherFields S impl (i + 1) rest).err with
        | some err =>
          have h₂ := (ihRest.1).mp (by rw [hr]; simp)
          have h₃ := ihRest.2 err hr
          simp [h₂, h₃.1]
        | none =>
          have h₂ : hasUnsettable impl rest = false := by
            by_contra hne
            have := (ihRest.1).mpr (by simpa using hne)
            exact this hr
          simp [h₂]

/-- When the loop succeeds, its descriptors are a rearrangement of the
declaration-order flattening. -/
theorem gatherFields_perm (S : SliceSorter) (impl : GoType → Bool) :
    ∀ i fields, (gatherFields S impl i fields).err = none →
      (gatherFields S impl i fields).infos.Perm (flatten impl i fields) := by
  apply fields_induction
  · intro i _
    rw [gatherFields.eq_1, flatten]
  · intro i ftype f rest ihInner ihRest
    rw [gatherFields.eq_2, flatten]
    by_cases hset : ftype.PkgPath ≠ ""
    · simp [hset]
    · by_cases hrec : (followPointerChain f).value.Kind = Kind.Struct ∧ impl f.Type = false
      · have herr := gatherInfo_err S impl _ hrec.1
        have hinfos := gatherInfo_infos S impl _ hrec.1
        simp only [hset, hrec, if_true, if_false, and_self]
        cases he : (gatherInfo S impl (followPointerChain f).value.ptr).err with
        | some err => simp
        | none =>
          rw [he] at herr
          rw [← herr] at hinfos
          simp only at hinfos
          cases hr : (gatherFields S impl (i + 1) rest).err with
          | some err => simp
          | none =>
            intro _
            simp only
            apply List.Perm.append
            · apply List.Perm.map
              rw [hinfos]
              exact (S.perm _).trans (ihInner herr.symm)
            · exact ihRest hr
      · simp only [hset, hrec, if_true, if_false]
        cases hr : (gatherFields S impl (i + 1) rest).err with
        | some err => simp
        | none =>
          intro _
          exact List.Perm.cons _ (ihRest hr)

theorem flatten_length (impl : GoType → Bool) :
    ∀ i fields, (flatten impl i fields).length = leafCount impl fields := by
  apply fields_induction
  · intro i
    rw [flatten, leafCount]
    rfl
  · intro i ftype f rest ihInner ihRest
    rw [flatten, leafCount]
    by_cases hrec : (followPointerChain f).value.Kind = Kind.Struct ∧ impl f.Type = false
    · simp only [hrec, if_true, and_self, List.length_append, List.length_map, ihInner, ihRest]
    · simp only [hrec, if_false, List.length_cons, ihRest]
      omega

/-- Every descriptor of the flattening from index `i` on lies in a field of
index at least `i`. -/
theorem flatten_head (impl : GoType → Bool) :
    ∀ (fields : List (StructField × Value)) (i : Nat) (d : envVarInfo),
      d ∈ flatten impl i fields → ∃ j, i ≤ j ∧ d.Field.head? = some (Step.field j) := by
  intro fields
  induction fields with
  | nil =>
    intro i d hd
    rw [flatten] at hd
    simp at hd
  | cons p rest ih =>
    obtain ⟨ftype, f⟩ := p
    intro i d hd
    rw [flatten] at hd
    by_cases hrec : (followPointerChain f).value.Kind = Kind.Struct ∧ impl f.Type = false
    · simp only [hrec, if_true, and_self, List.mem_append, List.mem_map] at hd
      rcases hd with ⟨d', _, rfl⟩ | hd
      · exact ⟨i, le_refl _, by simp [envVarInfo.under, fieldPath]⟩
      · obtain ⟨j, hj, hh⟩ := ih (i + 1) d hd
        exact ⟨j, by omega, hh⟩
    · simp only [hrec, if_false, List.mem_cons] at hd
      rcases hd with rfl | hd
      · exact ⟨i, le_refl _, by simp [createEnvVarInfo, fieldPath]⟩
      · obtain ⟨j, hj, hh⟩ := ih (i + 1) d hd
        exact ⟨j, by omega, hh⟩

/-- The descriptors of the flattening that lie in the field of index `i + k`. -/
theorem flatten_filter (impl : GoType → Bool) :
    ∀ (fields : List (StructField × Value)) (i k : Nat) (ftype : StructField) (f : Value),
      fields[k]? = some (ftype, f) →
      (flatten impl i fields).filter (fun d => d.Field.head? = some (Step.field (i + k))) =
        if (followPointerChain f).value.Kind = Kind.Struct ∧ impl f.Type = false then
          (flatten impl 0 (followPointerChain f).value.fields).map
            (envVarInfo.under (fieldPath (i + k) (followPointerChain f).steps))
        else
          [createEnvVarInfo (fieldPath (i + k) (followPointerChain f).steps) ftype] := by
  intro fields
  induction fields with
  | nil =>
    intro i k ftype f h
    simp at h
  | cons p rest ih =>
    obtain ⟨ftype₀, f₀⟩ := p
    intro i k ftype f h
    have hrest :
        (flatten impl (i + 1) rest).filter (fun d => d.Field.head? = some (Step.field i)) = [] := by
      rw [List.filter_eq_nil_iff]
      intro d hd
      obtain ⟨j', hj', hh⟩ := flatten_head impl rest (i + 1) d hd
      simp only [hh, decide_eq_true_eq, Option.some.injEq, Step.field.injEq]
      omega
    cases k with
    | zero =>
      simp only [List.getElem?_cons_zero, Option.some.injEq, Prod.mk.injEq] at h
      obtain ⟨rfl, rfl⟩ := h
      rw [flatten]
      by_cases hrec : (followPointerChain f₀).value.Kind = Kind.Struct ∧ impl f₀.Type = false
      · simp only [hrec, if_true, and_self, List.filter_append, Nat.add_zero, hrest,
          List.append_nil]
        rw [List.filter_eq_self]
        intro d hd
        simp only [List.mem_map] at hd
        obtain ⟨d', _, rfl⟩ := hd
        simp [envVarInfo.under, fieldPath]
      · simp only [hrec, if_false, Nat.add_zero]
        rw [List.filter_cons]
        simp [createEnvVarInfo, fieldPath, hrest]
    | succ k =>
      simp only [List.getElem?_cons_succ] at h
      have := ih (i + 1) k ftype f h
      have hik : i + 1 + k = i + (k + 1) := by omega
      rw [hik] at this
      rw [flatten]
      by_cases hrec : (followPointerChain f₀).value.Kind = Kind.Struct ∧ impl f₀.Type = false
      · simp only [hrec, if_true, and_self, List.filter_append, this]
        have hnil : List.filter (fun d => decide (d.Field.head? = some (Step.field (i + (k + 1)))))
            (List.map (envVarInfo.under (fieldPath i (followPointerChain f₀).steps))
              (flatten impl 0 (followPointerChain f₀).value.fields)) = [] := by
          rw [List.filter_eq_nil_iff]
          intro d hd
          simp only [List.mem_map] at hd
          obtain ⟨d', _, rfl⟩ := hd
          simp [envVarInfo.under, fieldPath]
        rw [hnil, List.nil_append]
      · simp only [hrec, if_false]
        rw [List.filter_cons]
        simp [createEnvVarInfo, fieldPath, this]

theorem gatherInfo_not_struct (S : SliceSorter) (impl : GoType → Bool) (spec : Value)
    (h : spec.Kind ≠ Kind.Ptr ∨ spec.Elem.Kind ≠ Kind.Struct) :
    (gatherInfo S impl spec).spec = spec ∧ (gatherInfo S impl spec).infos = [] ∧
      ∃ msg, (gatherInfo S impl spec).err = some (.wrapf msg ErrInvalidSpecification) := by
  cases spec with
  | basic t d =>
    rw [gatherInfo.eq_4 S impl _ (by intro _ _ h; cases h) (by intro _ h; cases h)
      (by intro _ h; cases h)]
    exact ⟨rfl, rfl, _, rfl⟩
  | struct name fields =>
    rw [gatherInfo.eq_4 S impl _ (by intro _ _ h; cases h) (by intro _ h; cases h)
      (by intro _ h; cases h)]
    exact ⟨rfl, rfl, _, rfl⟩
  | nilPtr elem =>
    rw [gatherInfo.eq_3]
    exact ⟨rfl, rfl, _, rfl⟩
  | ptr target =>
    have hk : target.Kind ≠ Kind.Struct := by
      rcases h with h | h
      · exact absurd rfl h
      · exact h
    rw [gatherInfo.eq_2 S impl _ (by intro _ _ h; rw [h] at hk; exact hk rfl)]
    exact ⟨rfl, rfl, _, rfl⟩

theorem gatherInfo_infos_of_err (S : SliceSorter) (impl : GoType → Bool) (spec : Value) :
    ∀ e, (gatherInfo S impl spec).err = some e →
      errorsIs e ErrInvalidSpecification = true ∧ (gatherInfo S impl spec).infos = [] := by
  intro e he
  by_cases h : spec.Kind ≠ Kind.Ptr ∨ spec.Elem.Kind ≠ Kind.Struct
  · obtain ⟨_, hinfos, msg, herr⟩ := gatherInfo_not_struct S impl spec h
    rw [herr] at he
    cases he
    exact ⟨errorsIs_wrapf _ _ _ (errorsIs_refl _), hinfos⟩
  · rw [not_or, not_not, not_not] at h
    cases spec with
    | basic t d => simp [Value.Kind] at h
    | struct name fields => simp [Value.Kind] at h
    | nilPtr elem => simp [Value.Kind, Value.Elem] at h
    | ptr target =>
      have hk : target.Kind = Kind.Struct := h.2
      have herr := gatherInfo_err S impl target hk
      have hinfos := gatherInfo_infos S impl target hk
      rw [he] at herr
      rw [← herr] at hinfos
      exact ⟨((gatherFields_err S impl 0 target.fields).2 e herr.symm).1, hinfos⟩

theorem gatherInfo_perm (S : SliceSorter) (impl : GoType → Bool) (spec : Value)
    (hok : (gatherInfo S impl spec).err = none) :
    (gatherInfo S impl spec).infos.Perm (flatten impl 0 spec.Elem.fields) := by
  by_cases h : spec.Kind ≠ Kind.Ptr ∨ spec.Elem.Kind ≠ Kind.Struct
  · obtain ⟨_, _, msg, herr⟩ := gatherInfo_not_struct S impl spec h
    rw [herr] at hok
    cases hok
  · rw [not_or, not_not, not_not] at h
    cases spec with
    | basic t d => simp [Value.Kind] at h
    | struct name fields => simp [Value.Kind] at h
    | nilPtr elem => simp [Value.Kind, Value.Elem] at h
    | ptr target =>
      have hk : target.Kind = Kind.Struct := h.2
      have herr := gatherInfo_err S impl target hk
      have hinfos := gatherInfo_infos S impl target hk
      rw [hok] at herr
      rw [← herr] at hinfos
      rw [hinfos]
      exact (S.perm _).trans (gatherFields_perm S impl 0 target.fields herr.symm)

/-! ## Lemmas on the places of descriptors -/

theorem Value.get_append : ∀ (p q : Path) (v : Value),
    v.get (p ++ q) = (v.get p).bind (fun w => w.get q) := by
  intro p
  induction p with
  | nil => intro q v; simp [Value.get]
  | cons s p ih =>
    intro q v
    cases s with
    | elem =>
      cases v with
      | ptr target => simp [Value.get, ih]
      | basic t d => simp [Value.get]
      | nilPtr e => simp [Value.get]
      | struct n fs => simp [Value.get]
    | field i =>
      cases v with
      | struct n fs =>
        simp only [List.cons_append, Value.get]
        cases fs[i]? with
        | none => simp
        | some x => simp [ih]
      | basic t d => simp [Value.get]
      | nilPtr e => simp [Value.get]
      | ptr target => simp [Value.get]

/-- When the place that `followPointerChain` returns exists before the call,
the call changes nothing and returns the value at that place. -/
theorem followPointerChain_get : ∀ (f v : Value),
    f.get (List.replicate (followPointerChain f).steps Step.elem) = some v →
    (followPointerChain f).slot = f ∧ (followPointerChain f).value = v
  | .basic _ _, v => by
    simp only [followPointerChain, List.replicate, Value.get, Option.some.injEq]
    exact fun h => ⟨trivial, h⟩
  | .struct _ _, v => by
    simp only [followPointerChain, List.replicate, Value.get, Option.some.injEq]
    exact fun h => ⟨trivial, h⟩
  | .nilPtr elem, v => by
    simp only [followPointerChain]
    split
    · simp only [List.replicate, Value.get, Option.some.injEq]
      exact fun h => ⟨trivial, h⟩
    · simp [List.replicate, Value.get]
  | .ptr target, v => by
    intro h
    simp only [followPointerChain, List.replicate_succ, Value.get] at h
    have ih := followPointerChain_get target v h
    simp only [followPointerChain]
    exact ⟨by rw [ih.1], ih.2⟩

theorem Value.setElem_get : ∀ (n : Nat) (s w u : Value) (q : Path),
    s.get (List.replicate n Step.elem) = some u →
    (Value.setElem n s w).get (List.replicate n Step.elem ++ q) = w.get q := by
  intro n
  induction n with
  | zero => intro s w u q _; simp [Value.setElem]
  | succ n ih =>
    intro s w u q h
    cases s with
    | ptr target =>
      simp only [List.replicate_succ, Value.get] at h
      simp only [Value.setElem, List.replicate_succ, List.cons_append, Value.get]
      exact ih target w u q h
    | basic t d => simp [List.replicate_succ, Value.get] at h
    | nilPtr e => simp [List.replicate_succ, Value.get] at h
    | struct nm fs => simp [List.replicate_succ, Value.get] at h

theorem gatherInfo_spec (S : SliceSorter) (impl : GoType → Bool) (name : String)
    (fields : List (StructField × Value)) :
    (gatherInfo S impl (.ptr (.struct name fields))).spec =
      .ptr (.struct name (gatherFields S impl 0 fields).fields) := by
  rw [gatherInfo.eq_1]
  cases (gatherFields S impl 0 fields).err <;> rfl

theorem gatherFields_head (S : SliceSorter) (impl : GoType → Bool) (i : Nat)
    (fields : List (StructField × Value)) (hok : (gatherFields S impl i fields).err = none)
    (d : envVarInfo) (hd : d ∈ (gatherFields S impl i fields).infos) :
    ∃ j, i ≤ j ∧ ∃ p, d.Field = Step.field j :: p := by
  obtain ⟨j, hj, hh⟩ := flatten_head impl fields i d
    ((gatherFields_perm S impl i fields hok).mem_iff.mp hd)
  refine ⟨j, hj, ?_⟩
  cases hf : d.Field with
  | nil => rw [hf] at hh; simp at hh
  | cons a p =>
    rw [hf] at hh
    simp only [List.head?_cons, Option.some.injEq] at hh
    exact ⟨p, by rw [hh]⟩

theorem get_field_append (name : String) (pre fields : List (StructField × Value))
    (k : Nat) (p : Path) :
    (Value.struct name (pre ++ fields)).get (Step.field (pre.length + k) :: p) =
      (fields[k]?).bind (fun x => x.2.get p) := by
  simp only [Value.get]
  rw [List.getElem?_append_right (by omega)]
  simp only [Nat.add_sub_cancel_left]
  cases fields[k]? with
  | none => rfl
  | some x => rfl

/-- The loop leaves the value at the place of every descriptor as it was, when
the place exists before the call. -/
theorem gatherFields_frame (S : SliceSorter) (impl : GoType → Bool) :
    ∀ i fields, (gatherFields S impl i fields).err = none →
      ∀ d ∈ (gatherFields S impl i fields).infos,
      ∀ (name name' : String) (pre pre' : List (StructField × Value)),
        pre.length = i → pre'.length = i → ∀ v,
        (Value.struct name (pre ++ fields)).get d.Field = some v →
        (Value.struct name' (pre' ++ (gatherFields S impl i fields).fields)).get d.Field
          = some v := by
  apply fields_induction
  · intro i _ d hd
    rw [gatherFields.eq_1] at hd
    simp at hd
  · intro i ftype f rest ihInner ihRest hok d hd name name' pre pre' hpre hpre' v hv
    have hrestCase : ∀ slot, (gatherFields S impl (i + 1) rest).err = none →
        d ∈ (gatherFields S impl (i + 1) rest).infos →
        (Value.struct name' (pre' ++ (ftype, slot) :: (gatherFields S impl (i + 1) rest).fields)).get
          d.Field = some v := by
      intro slot hr hdr
      have := ihRest hr d hdr name name' (pre ++ [(ftype, f)]) (pre' ++ [(ftype, slot)])
        (by simp [hpre]) (by simp [hpre']) v (by simpa using hv)
      simpa using this
    rw [gatherFields.eq_2] at hok hd ⊢
    by_cases hset : ftype.PkgPath ≠ ""
    · simp [hset] at hok
    · by_cases hrec : (followPointerChain f).value.Kind = Kind.Struct ∧ impl f.Type = false
      · simp only [hset, hrec, if_true, if_false, and_self] at hok hd ⊢
        cases he : (gatherInfo S impl (followPointerChain f).value.ptr).err with
        | some err => simp [he] at hok
        | none =>
          cases hr : (gatherFields S impl (i + 1) rest).err with
          | some err => simp [he, hr] at hok
          | none =>
            simp only [he, hr] at hd ⊢
            rw [List.mem_append] at hd
            rcases hd with hd | hd
            · rw [List.mem_map] at hd
              obtain ⟨d', hd', rfl⟩ := hd
              obtain ⟨nm, hnm⟩ := Value.eq_struct_of_kind _ hrec.1
              have herr := gatherInfo_err S impl _ hrec.1
              have hinfos := gatherInfo_infos S impl _ hrec.1
              rw [he] at herr
              rw [← herr] at hinfos
              simp only at hinfos
              rw [hinfos] at hd'
              have hd₂ := (S.perm _).mem_iff.mp hd'
              have hspec : (gatherInfo S impl (followPointerChain f).value.ptr).spec.Elem =
                  .struct nm (gatherFields S impl 0 (followPointerChain f).value.fields).fields := by
                conv_lhs => rw [hnm]
                rw [gatherInfo_spec]
                rfl
              rw [hspec]
              simp only [envVarInfo.under, fieldPath, List.cons_append] at hv ⊢
              rw [← hpre, ← Nat.add_zero pre.length, get_field_append] at hv
              rw [← hpre', ← Nat.add_zero pre'.length, get_field_append]
              simp only [List.getElem?_cons_zero, Option.some_bind] at hv ⊢
              rw [Value.get_append] at hv
              cases hw : f.get (List.replicate (followPointerChain f).steps Step.elem) with
              | none => rw [hw] at hv; simp at hv
              | some w =>
                rw [hw] at hv
                simp only [Option.some_bind] at hv
                obtain ⟨hslot, hval⟩ := followPointerChain_get f w hw
                rw [hslot, Value.setElem_get _ _ _ w _ hw]
                rw [← hval, hnm] at hv
                have := ihInner herr.symm d' hd₂ nm nm [] [] rfl rfl v (by simpa using hv)
                simpa using this
            · exact hrestCase _ hr hd
      · simp only [hset, hrec, if_true, if_false] at hok hd ⊢
        cases hr : (gatherFields S impl (i + 1) rest).err with
        | some err => simp [hr] at hok
        | none =>
          simp only [hr] at hd ⊢
          rw [List.mem_cons] at hd
          rcases hd with rfl | hd
          · simp only [createEnvVarInfo, fieldPath] at hv ⊢
            rw [← hpre, ← Nat.add_zero pre.length, get_field_append] at hv
            rw [← hpre', ← Nat.add_zero pre'.length, get_field_append]
            simp only [List.getElem?_cons_zero, Option.some_bind] at hv ⊢
            rw [(followPointerChain_get f v hv).1]
            exact hv
          · exact hrestCase _ hr hd

/-- Extraction leaves the value at the place of every descriptor as it was,
when the place exists before the call. -/
theorem gatherInfo_frame (S : SliceSorter) (impl : GoType → Bool) (spec : Value)
    (hok : (gatherInfo S impl spec).err = none) :
    ∀ d ∈ (gatherInfo S impl spec).infos, ∀ v,
      spec.Elem.get d.Field = some v → (gatherInfo S impl spec).spec.Elem.get d.Field = some v := by
  by_cases h : spec.Kind ≠ Kind.Ptr ∨ spec.Elem.Kind ≠ Kind.Struct
  · obtain ⟨_, _, msg, herr⟩ := gatherInfo_not_struct S impl spec h
    rw [herr] at hok
    cases hok
  · rw [not_or, not_not, not_not] at h
    cases spec with
    | basic t d => simp [Value.Kind] at h
    | struct name fields => simp [Value.Kind] at h
    | nilPtr elem => simp [Value.Kind, Value.Elem] at h
    | ptr target =>
      have hk : target.Kind = Kind.Struct := h.2
      obtain ⟨nm, hnm⟩ := Value.eq_struct_of_kind _ hk
      have herr := gatherInfo_err S impl target hk
      have hinfos := gatherInfo_infos S impl target hk
      rw [hok] at herr
      rw [← herr] at hinfos
      simp only at hinfos
      intro d hd v hv
      rw [hinfos] at hd
      have hd' := (S.perm _).mem_iff.mp hd
      have hspec : (gatherInfo S impl target.ptr).spec.Elem =
          .struct nm (gatherFields S impl 0 target.fields).fields := by
        conv_lhs => rw [hnm]
        rw [gatherInfo_spec]
        rfl
      rw [hspec]
      have hv' : (Value.struct nm ([] ++ target.fields)).get d.Field = some v := by
        rw [List.nil_append, ← hnm]
        exact hv
      have := gatherFields_frame S impl 0 target.fields herr.symm d hd' nm nm [] [] rfl rfl v hv'
      simpa using this

/-! ## The configurations of the tests, extracted -/

theorem collisionSpec_gather :
    (gatherInfo insertionSorter noInterface collisionSpec).err = none ∧
    (gatherInfo insertionSorter noInterface collisionSpec).infos.map (fun info => info.Key)
      = ["A", "A"] := by
  simp [collisionSpec, envField, zeroString, noInterface, gatherInfo, gatherFields,
    followPointerChain, Value.Kind, insertionSorter, createEnvVarInfo, StructTag.Get,
    StructTag.Lookup, List.lookup, fieldPath]

theorem embeddedSpec_gather :
    (gatherInfo insertionSorter noInterface embeddedSpec).err = none ∧
    (gatherInfo insertionSorter noInterface embeddedSpec).infos.map (fun info => (info.Key, info.Field))
      = [("ENV_CONFIG_DEBUG", [.field 1]), ("ENV_CONFIG_EMBEDDED_PORT", [.field 0, .field 1]),
         ("ENV_CONFIG_ENABLED", [.field 0, .field 0]), ("ENV_CONFIG_MULTI_WORD_VAR", [.field 0, .field 2]),
         ("ENV_CONFIG_PORT", [.field 2])] := by
  simp [embeddedSpec, envField, zeroString, zeroBool, zeroInt, noInterface, gatherInfo, gatherFields,
    followPointerChain, Value.Kind, insertionSorter, createEnvVarInfo, StructTag.Get,
    StructTag.Lookup, List.lookup, fieldPath, envVarInfo.under]
  decide

theorem pointerCollisionSpec_gather :
    (gatherInfo insertionSorter honorInterface pointerCollisionSpec).err = none ∧
    (gatherInfo insertionSorter honorInterface pointerCollisionSpec).infos.map
      (fun info => (info.Key, info.Field)) = [("A", [.field 0, .elem]), ("A", [.field 1])] ∧
    (gatherInfo insertionSorter honorInterface pointerCollisionSpec).spec =
      .ptr (.struct "" [
        envField "P" "A" (.ptr (zeroValue honorDecodeInStruct)),
        envField "B" "A" zeroString]) := by
  simp [pointerCollisionSpec, envField, zeroString, honorDecodeInStruct, zeroValue, zeroFields,
    honorInterface, gatherInfo, gatherFields, followPointerChain, Value.Kind, GoType.Kind,
    Value.Type, fieldTypes, insertionSorter, createEnvVarInfo, StructTag.Get, StructTag.Lookup,
    List.lookup, fieldPath, Value.setElem, Value.Elem]

/-- The model of `Unmarshal` at `TestRequiredVar`-like input: the variable is
set, and its value is written into the field. -/
theorem userSpec_Unmarshal :
    (Unmarshal insertionSorter noInterface stringConverter [("ENV_CONFIG_USER", "Kelsey")]
      userSpec).err = none ∧
    (Unmarshal insertionSorter noInterface stringConverter [("ENV_CONFIG_USER", "Kelsey")]
      userSpec).spec.Elem.get [.field 0] = some (.basic .string (.str "Kelsey")) ∧
    (Unmarshal insertionSorter noInterface stringConverter [] userSpec).err ≠ none ∧
    (Unmarshal insertionSorter noInterface stringConverter [] userSpec).spec = userSpec := by
  simp [Unmarshal, userSpec, envField, zeroString, noInterface, gatherInfo, gatherFields,
    followPointerChain, Value.Kind, insertionSorter, createEnvVarInfo, StructTag.Get,
    StructTag.Lookup, List.lookup, fieldPath, processFields, processField, Value.Elem,
    Value.get, Value.set, envVarInfo.GetValueFromEnv, LookupEnv, stringConverter, firstError]

/-! ## Theorems: resolving one value -/

/-- C1: a descriptor with a non-empty key that is present in the environment
resolves to exactly the value of the environment, with no error, whatever
default is declared; a key present with the empty string resolves to the
empty string. -/
theorem GetValueFromEnv_present (env : Environ) (info : envVarInfo) (v : String)
    (hkey : info.Key ≠ "") (hpresent : LookupEnv env info.Key = (v, true)) :
    info.GetValueFromEnv env = (v, none) := by
  simp [envVarInfo.GetValueFromEnv, hkey, hpresent]

/-- C1 at `TestExplicitBlankDefaultVar`: the key is set to the empty string
and the default is `foobar`; the field resolves to the empty string. -/
theorem GetValueFromEnv_present_witness :
    LookupEnv [("ENV_CONFIG_DEFAULT_VAR", "")] "ENV_CONFIG_DEFAULT_VAR" = ("", true) ∧
    envVarInfo.GetValueFromEnv [("ENV_CONFIG_DEFAULT_VAR", "")]
      ⟨"DefaultVar", "ENV_CONFIG_DEFAULT_VAR", [.field 0], "", "foobar", true⟩ = ("", none) :=
  ⟨by decide,
   GetValueFromEnv_present [("ENV_CONFIG_DEFAULT_VAR", "")]
     ⟨"DefaultVar", "ENV_CONFIG_DEFAULT_VAR", [.field 0], "", "foobar", true⟩ ""
     (by decide) (by decide)⟩

/-- C2: a descriptor with a non-empty key that is absent from the environment
and with a declared default resolves to that default with no error; and a
field whose tag declares a default, the empty one included, gets a descriptor
with `IsDefaultSet = true`, so that it resolves to the declared default. -/
theorem GetValueFromEnv_default (env : Environ) :
    (∀ info : envVarInfo, info.Key ≠ "" → (LookupEnv env info.Key).2 = false →
      info.IsDefaultSet = true → info.GetValueFromEnv env = (info.Default, none)) ∧
    (∀ (f : Path) (ftype : StructField) (d : String),
      ftype.Tag.Lookup "default" = (d, true) →
      (createEnvVarInfo f ftype).IsDefaultSet = true ∧
      (createEnvVarInfo f ftype).Default = d ∧
      ((createEnvVarInfo f ftype).Key ≠ "" →
        (LookupEnv env (createEnvVarInfo f ftype).Key).2 = false →
        (createEnvVarInfo f ftype).GetValueFromEnv env = (d, none))) := by
  have h₁ : ∀ info : envVarInfo, info.Key ≠ "" → (LookupEnv env info.Key).2 = false →
      info.IsDefaultSet = true → info.GetValueFromEnv env = (info.Default, none) := by
    intro info hkey habsent hdef
    simp [envVarInfo.GetValueFromEnv, hkey, habsent, hdef]
  refine ⟨h₁, ?_⟩
  intro f ftype d hd
  have hset : (createEnvVarInfo f ftype).IsDefaultSet = true := by
    simp [createEnvVarInfo, hd]
  have hval : (createEnvVarInfo f ftype).Default = d := by
    simp [createEnvVarInfo, hd]
  refine ⟨hset, hval, ?_⟩
  intro hkey habsent
  rw [h₁ _ hkey habsent hset, hval]

/-- C2 at a field tagged `env:"ENV_CONFIG_USER" default:""` in the empty
environment: the descriptor records the empty default and resolves to it. -/
theorem GetValueFromEnv_default_witness :
    (createEnvVarInfo [.field 0] ⟨"User", "", [("env", "ENV_CONFIG_USER"), ("default", "")]⟩).IsDefaultSet
      = true ∧
    (createEnvVarInfo [.field 0]
      ⟨"User", "", [("env", "ENV_CONFIG_USER"), ("default", "")]⟩).GetValueFromEnv [] = ("", none) :=
  have h := (GetValueFromEnv_default []).2 [.field 0]
    ⟨"User", "", [("env", "ENV_CONFIG_USER"), ("default", "")]⟩ "" (by decide)
  ⟨h.1, h.2.2 (by decide) (by decide)⟩

/-- C3: `GetValueFromEnv` returns an error exactly when the key is empty, or
the key is absent from the environment and no default is declared; an empty
key fails in every environment, whatever default is declared; and with every
error the returned value is the empty string. -/
theorem GetValueFromEnv_error (env : Environ) (info : envVarInfo) :
    ((info.GetValueFromEnv env).2 ≠ none ↔
      (info.Key = "" ∨ ((LookupEnv env info.Key).2 = false ∧ info.IsDefaultSet = false))) ∧
    (info.Key = "" → (info.GetValueFromEnv env).2 ≠ none) ∧
    ((info.GetValueFromEnv env).2 ≠ none → (info.GetValueFromEnv env).1 = "") := by
  unfold envVarInfo.GetValueFromEnv
  by_cases hkey : info.Key = ""
  · simp [hkey]
  · cases hok : (LookupEnv env info.Key).2 <;> cases hdef : info.IsDefaultSet <;>
      simp [hkey, hok, hdef]

/-! ## Theorems: extraction -/

/-- C4: when `gatherInfo` succeeds, its descriptors are in ascending order of
binding key: the key of a descriptor is less than or equal to the key of every
later one, whichever struct, nested or outer, the descriptors come from. -/
theorem gatherInfo_sorted (S : SliceSorter) (impl : GoType → Bool) (spec : Value)
    (hok : (gatherInfo S impl spec).err = none) :
    (gatherInfo S impl spec).infos.Sorted (fun a b => a.Key ≤ b.Key) := by
  by_cases h : spec.Kind ≠ Kind.Ptr ∨ spec.Elem.Kind ≠ Kind.Struct
  · rw [(gatherInfo_not_struct S impl spec h).2.1]
    exact List.sorted_nil
  · rw [not_or, not_not, not_not] at h
    cases spec with
    | basic t d => simp [Value.Kind] at h
    | struct name fields => simp [Value.Kind] at h
    | nilPtr elem => simp [Value.Kind, Value.Elem] at h
    | ptr target =>
      have hk : target.Kind = Kind.Struct := h.2
      have herr := gatherInfo_err S impl target hk
      have hinfos := gatherInfo_infos S impl target hk
      rw [hok] at herr
      rw [← herr] at hinfos
      rw [hinfos]
      exact List.Pairwise.imp (fun hab => not_lt.mp hab) (S.sorted _)

/-- C4 at a struct with an embedded struct: extraction succeeds, the keys
ascend, and the descriptors of the embedded struct (field 0) lie between
those of the outer fields `Debug` and `Port`. -/
theorem gatherInfo_sorted_witness :
    (gatherInfo insertionSorter noInterface embeddedSpec).err = none ∧
    (gatherInfo insertionSorter noInterface embeddedSpec).infos.Sorted (fun a b => a.Key ≤ b.Key) ∧
    (gatherInfo insertionSorter noInterface embeddedSpec).infos.map (fun info => (info.Key, info.Field))
      = [("ENV_CONFIG_DEBUG", [.field 1]), ("ENV_CONFIG_EMBEDDED_PORT", [.field 0, .field 1]),
         ("ENV_CONFIG_ENABLED", [.field 0, .field 0]), ("ENV_CONFIG_MULTI_WORD_VAR", [.field 0, .field 2]),
         ("ENV_CONFIG_PORT", [.field 2])] :=
  ⟨embeddedSpec_gather.1,
   gatherInfo_sorted insertionSorter noInterface embeddedSpec embeddedSpec_gather.1,
   embeddedSpec_gather.2⟩

/-- C5: `gatherInfo` returns an error exactly when its argument is not a
pointer, or is a pointer to something other than a struct (a nil pointer
included), or some field visited by the walk, in the struct or in a struct
that is recursed into, is not settable; every such error wraps
`ErrInvalidSpecification` and comes with no descriptor. -/
theorem gatherInfo_error (S : SliceSorter) (impl : GoType → Bool) (spec : Value) :
    ((gatherInfo S impl spec).err ≠ none ↔
      (spec.Kind ≠ Kind.Ptr ∨ (spec.Kind = Kind.Ptr ∧ spec.Elem.Kind ≠ Kind.Struct) ∨
        hasUnsettable impl spec.Elem.fields = true)) ∧
    (∀ e, (gatherInfo S impl spec).err = some e →
      errorsIs e ErrInvalidSpecification = true ∧ (gatherInfo S impl spec).infos = []) := by
  refine ⟨?_, gatherInfo_infos_of_err S impl spec⟩
  by_cases h : spec.Kind ≠ Kind.Ptr ∨ spec.Elem.Kind ≠ Kind.Struct
  · obtain ⟨_, _, msg, herr⟩ := gatherInfo_not_struct S impl spec h
    rw [herr]
    constructor
    · intro _
      by_cases hp : spec.Kind = Kind.Ptr
      · rcases h with h | h
        · exact absurd hp h
        · exact Or.inr (Or.inl ⟨hp, h⟩)
      · exact Or.inl hp
    · intro _
      simp
  · rw [not_or, not_not, not_not] at h
    cases spec with
    | basic t d => simp [Value.Kind] at h
    | struct name fields => simp [Value.Kind] at h
    | nilPtr elem => simp [Value.Kind, Value.Elem] at h
    | ptr target =>
      have hk : target.Kind = Kind.Struct := h.2
      rw [gatherInfo_err S impl target hk, (gatherFields_err S impl 0 target.fields).1]
      constructor
      · intro hu
        exact Or.inr (Or.inr hu)
      · rintro (h₁ | ⟨_, h₂⟩ | h₃)
        · exact absurd rfl h₁
        · exact absurd hk h₂
        · exact h₃

/-- C5 at a pointer to a map (`TestErrInvalidSpecification`) and at a struct
whose embedded struct has a field that is not exported: both fail with an
error that wraps `ErrInvalidSpecification`. -/
theorem gatherInfo_error_witness :
    (∃ e, (gatherInfo insertionSorter noInterface mapSpec).err = some e ∧
      errorsIs e ErrInvalidSpecification = true) ∧
    (∃ e, (gatherInfo insertionSorter noInterface unexportedSpec).err = some e ∧
      errorsIs e ErrInvalidSpecification = true) ∧
    (gatherInfo insertionSorter noInterface unexportedSpec).infos = [] := by
  have hmap : (gatherInfo insertionSorter noInterface mapSpec).err ≠ none :=
    (gatherInfo_error insertionSorter noInterface mapSpec).1.mpr
      (Or.inr (Or.inl ⟨rfl, by decide⟩))
  have hunexp : (gatherInfo insertionSorter noInterface unexportedSpec).err ≠ none :=
    (gatherInfo_error insertionSorter noInterface unexportedSpec).1.mpr
      (Or.inr (Or.inr (by
        simp [unexportedSpec, envField, zeroBool, zeroInt, zeroString, noInterface, Value.Elem,
          Value.fields, hasUnsettable, followPointerChain, Value.Kind])))
  obtain ⟨e₁, he₁⟩ := Option.ne_none_iff_exists'.mp hmap
  obtain ⟨e₂, he₂⟩ := Option.ne_none_iff_exists'.mp hunexp
  exact ⟨⟨e₁, he₁, ((gatherInfo_error insertionSorter noInterface mapSpec).2 e₁ he₁).1⟩,
    ⟨e₂, he₂, ((gatherInfo_error insertionSorter noInterface unexportedSpec).2 e₂ he₂).1⟩,
    ((gatherInfo_error insertionSorter noInterface unexportedSpec).2 e₂ he₂).2⟩

/-- C6: when `gatherInfo` succeeds, its descriptors are a rearrangement of the
declaration-order flattening of the struct, one descriptor for each leaf
field at every depth, so their number is the number of leaf fields; and a
field that is recursed into has no descriptor at its own place, whatever its
tags. -/
theorem gatherInfo_leaves (S : SliceSorter) (impl : GoType → Bool) (spec : Value)
    (hok : (gatherInfo S impl spec).err = none) :
    (gatherInfo S impl spec).infos.Perm (flatten impl 0 spec.Elem.fields) ∧
    (gatherInfo S impl spec).infos.length = leafCount impl spec.Elem.fields ∧
    (∀ (k : Nat) (ftype : StructField) (f : Value),
      spec.Elem.fields[k]? = some (ftype, f) →
      (followPointerChain f).value.Kind = Kind.Struct ∧ impl f.Type = false →
      ∀ d ∈ (gatherInfo S impl spec).infos,
        d.Field ≠ fieldPath k (followPointerChain f).steps) := by
  have hperm := gatherInfo_perm S impl spec hok
  refine ⟨hperm, ?_, ?_⟩
  · rw [hperm.length_eq, flatten_length]
  · intro k ftype f hfield hrec d hd hplace
    have hmem : d ∈ (flatten impl 0 spec.Elem.fields).filter
        (fun d => d.Field.head? = some (Step.field (0 + k))) := by
      rw [List.mem_filter]
      refine ⟨hperm.mem_iff.mp hd, ?_⟩
      simp [hplace, fieldPath]
    rw [flatten_filter impl _ 0 k ftype f hfield, if_pos hrec, List.mem_map] at hmem
    obtain ⟨d', hd', rfl⟩ := hmem
    obtain ⟨j, _, hj⟩ := flatten_head impl _ 0 d' hd'
    have hlen := congrArg List.length hplace
    simp only [envVarInfo.under, Nat.zero_add, List.length_append] at hlen
    cases hf : d'.Field with
    | nil => rw [hf] at hj; simp at hj
    | cons a p =>
      rw [hf] at hlen
      simp at hlen

/-- C6 at the struct of `TestEmbeddedStruct`: five leaf fields give five
descriptors, none at the place of the embedded struct and none with its key
`ENV_CONFIG_EMBEDDED`. -/
theorem gatherInfo_leaves_witness :
    (gatherInfo insertionSorter noInterface embeddedSpec).err = none ∧
    (gatherInfo insertionSorter noInterface embeddedSpec).infos.length = 5 ∧
    leafCount noInterface embeddedSpec.Elem.fields = 5 ∧
    ∀ d ∈ (gatherInfo insertionSorter noInterface embeddedSpec).infos,
      d.Field ≠ [.field 0] ∧ d.Key ≠ "ENV_CONFIG_EMBEDDED" := by
  have h := gatherInfo_leaves insertionSorter noInterface embeddedSpec embeddedSpec_gather.1
  have hlen : (gatherInfo insertionSorter noInterface embeddedSpec).infos.length = 5 := by
    have := congrArg List.length embeddedSpec_gather.2
    simpa using this
  refine ⟨embeddedSpec_gather.1, hlen, ?_, ?_⟩
  · rw [← h.2.1, hlen]
  · intro d hd
    have hmem : (d.Key, d.Field) ∈ (gatherInfo insertionSorter noInterface embeddedSpec).infos.map
        (fun info => (info.Key, info.Field)) := List.mem_map_of_mem _ hd
    rw [embeddedSpec_gather.2] at hmem
    simp only [List.mem_cons, Prod.mk.injEq, List.mem_singleton, List.not_mem_nil, or_false] at hmem
    rcases hmem with h | h | h | h | h <;> rw [h.1, h.2] <;> decide

/-! ## Theorems: the aggregate error -/

/-- C7: `firstError` returns the `Err` of the earliest result whose `Err` is
not nil, and it returns nil exactly when the `Err` of every result is nil. -/
theorem firstError_spec (f : FieldUnmarshalResults) :
    (∀ (pre post : FieldUnmarshalResults) (r : FieldUnmarshalResult),
      f = pre ++ r :: post → (∀ x ∈ pre, x.Err = none) → r.Err ≠ none →
      firstError f = r.Err) ∧
    (firstError f = none ↔ ∀ r ∈ f, r.Err = none) := by
  constructor
  · intro pre
    induction pre generalizing f with
    | nil =>
      intro post r hf _ hr
      subst hf
      simp [firstError, hr]
    | cons x pre ih =>
      intro post r hf hpre hr
      subst hf
      have hx : x.Err = none := hpre x (List.mem_cons_self _ _)
      have := ih (pre ++ r :: post) post r rfl
        (fun y hy => hpre y (List.mem_cons_of_mem _ hy)) hr
      simpa [firstError, hx] using this
  · induction f with
    | nil => simp [firstError]
    | cons x rest ih =>
      by_cases hx : x.Err = none
      · simp [firstError, hx, ih]
      · simp [firstError, hx]

/-! ## Theorems: binding keys -/

/-- C8, the claim as stated fails: the fields `A` and `B` of
`TestEnvVarCollision` declare the same key, and `gatherInfo` succeeds with a
descriptor for each. -/
theorem gatherInfo_duplicate_keys :
    (gatherInfo insertionSorter noInterface collisionSpec).err = none ∧
    (gatherInfo insertionSorter noInterface collisionSpec).infos.map (fun info => info.Key)
      = ["A", "A"] ∧
    ¬ ((gatherInfo insertionSorter noInterface collisionSpec).infos.map
      (fun info => info.Key)).Nodup := by
  refine ⟨collisionSpec_gather.1, collisionSpec_gather.2, ?_⟩
  rw [collisionSpec_gather.2]
  decide

/-- C8, as the code has it: `gatherInfo` does not compare binding keys.  When
it succeeds, the keys of its descriptors are a rearrangement of the keys the
leaf fields declare, so they are pairwise distinct exactly when the declared
keys are; fields that declare the same key all keep their descriptors. -/
theorem gatherInfo_keys (S : SliceSorter) (impl : GoType → Bool) (spec : Value)
    (hok : (gatherInfo S impl spec).err = none) :
    ((gatherInfo S impl spec).infos.map (fun info => info.Key)).Perm
      ((flatten impl 0 spec.Elem.fields).map (fun info => info.Key)) ∧
    (((gatherInfo S impl spec).infos.map (fun info => info.Key)).Nodup ↔
      ((flatten impl 0 spec.Elem.fields).map (fun info => info.Key)).Nodup) := by
  have hperm := gatherInfo_perm S impl spec hok
  exact ⟨hperm.map _, (hperm.map _).nodup_iff⟩

/-- C8 at `TestEnvVarCollision`: extraction succeeds and the declared keys
are not pairwise distinct. -/
theorem gatherInfo_keys_witness :
    (gatherInfo insertionSorter noInterface collisionSpec).err = none ∧
    ¬ ((flatten noInterface 0 collisionSpec.Elem.fields).map (fun info => info.Key)).Nodup := by
  refine ⟨collisionSpec_gather.1, ?_⟩
  rw [← (gatherInfo_keys insertionSorter noInterface collisionSpec collisionSpec_gather.1).2,
    collisionSpec_gather.2]
  decide

/-! ## Theorems: fields with a decoding capability -/

/-- C10: a field whose declared type has a decoding capability of its own
(`implementsInterface` holds of it) is not recursed into, also when it is a
struct behind its pointers: when `gatherInfo` succeeds, exactly one of its
descriptors lies in that field, and it is the descriptor made from the tags of
the field itself, with its `env`, `default` and `comment` values. -/
theorem gatherInfo_custom (S : SliceSorter) (impl : GoType → Bool) (spec : Value)
    (k : Nat) (ftype : StructField) (f : Value)
    (hfield : spec.Elem.fields[k]? = some (ftype, f))
    (himpl : impl f.Type = true)
    (hok : (gatherInfo S impl spec).err = none) :
    (gatherInfo S impl spec).infos.filter (fun d => d.Field.head? = some (Step.field k)) =
      [createEnvVarInfo (fieldPath k (followPointerChain f).steps) ftype] ∧
    (createEnvVarInfo (fieldPath k (followPointerChain f).steps) ftype).Key = ftype.Tag.Get "env" ∧
    (createEnvVarInfo (fieldPath k (followPointerChain f).steps) ftype).Default =
      (ftype.Tag.Lookup "default").1 ∧
    (createEnvVarInfo (fieldPath k (followPointerChain f).steps) ftype).IsDefaultSet =
      (ftype.Tag.Lookup "default").2 ∧
    (createEnvVarInfo (fieldPath k (followPointerChain f).steps) ftype).Comment =
      ftype.Tag.Get "comment" := by
  refine ⟨?_, rfl, rfl, rfl, rfl⟩
  have hperm := gatherInfo_perm S impl spec hok
  have hfilter := hperm.filter (fun d => d.Field.head? = some (Step.field (0 + k)))
  rw [flatten_filter impl _ 0 k ftype f hfield, if_neg (by simp [himpl])] at hfilter
  simpa using List.perm_singleton.mp hfilter

/-- C10 at the field `DecodeStruct` of `TestProcess`: its one descriptor has
the tags of the field, and the inner field `Value` has none. -/
theorem gatherInfo_custom_witness :
    (gatherInfo insertionSorter honorInterface decodeSpec).infos.filter
        (fun d => d.Field.head? = some (Step.field 1)) =
      [⟨"DecodeStruct", "ENV_CONFIG_HONOR", [.field 1], "c", "x", true⟩] := by
  have hok : (gatherInfo insertionSorter honorInterface decodeSpec).err = none := by
    simp [decodeSpec, envField, zeroString, honorDecodeInStruct, zeroValue, zeroFields,
      honorInterface, gatherInfo, gatherFields, followPointerChain, Value.Kind, Value.Type,
      fieldTypes]
  have h := (gatherInfo_custom insertionSorter honorInterface decodeSpec 1
    ⟨"DecodeStruct", "", [("env", "ENV_CONFIG_HONOR"), ("default", "x"), ("comment", "c")]⟩
    (zeroValue honorDecodeInStruct) rfl (by rfl) hok).1
  rw [h]
  simp [createEnvVarInfo, StructTag.Get, StructTag.Lookup, List.lookup, fieldPath,
    followPointerChain, honorDecodeInStruct, zeroValue]

/-! ## Lemmas on find_unknown.go -/

theorem takeWhile_before (sep : Char) (l r : List Char) (h : sep ∉ l) :
    (l ++ sep :: r).takeWhile (fun c => c != sep) = l := by
  induction l with
  | nil => simp [List.takeWhile]
  | cons c cs ih =>
    have hc : c ≠ sep := fun hc => h (by simp [hc])
    have ih₁ := ih (fun hm => h (List.mem_cons_of_mem _ hm))
    rw [List.cons_append, List.takeWhile_cons]
    simp [hc, ih₁]

theorem isPrefixOf_before (sep : Char) (p : List Char) (h : sep ∉ p) :
    ∀ l r : List Char, p.isPrefixOf (l ++ sep :: r) = p.isPrefixOf l := by
  induction p with
  | nil => intro l r; simp [List.isPrefixOf]
  | cons c cs ih =>
    have hc : c ≠ sep := fun hc => h (by simp [hc])
    have ih₁ := ih (fun hm => h (List.mem_cons_of_mem _ hm))
    intro l r
    cases l with
    | nil => simp [List.isPrefixOf, hc]
    | cons d ds =>
      have := ih₁ ds r
      simp only [List.cons_append, List.isPrefixOf]
      rw [show ds.append (sep :: r) = ds ++ sep :: r from rfl, this]

theorem beforeEquals_entry (name value : String) (h : '=' ∉ name.data) :
    beforeEquals (name ++ "=" ++ value) = name := by
  have hd : (name ++ "=" ++ value).data = name.data ++ '=' :: value.data := by
    simp [String.data_append]
  unfold beforeEquals
  rw [hd, takeWhile_before _ _ _ h]

theorem HasPrefix_entry (name value pfx : String) (h : '=' ∉ pfx.data) :
    HasPrefix (name ++ "=" ++ value) pfx = HasPrefix name pfx := by
  have hd : (name ++ "=" ++ value).data = name.data ++ '=' :: value.data := by
    simp [String.data_append]
  unfold HasPrefix
  rw [hd, isPrefixOf_before _ _ h]

theorem filterMap_names (cond : String → Bool) (environ : Environ) :
    environ.filterMap (fun entry => if cond entry.1 then some entry.1 else none) =
      (environ.map (fun entry => entry.1)).filter cond := by
  induction environ with
  | nil => rfl
  | cons entry rest ih =>
    rw [List.filterMap_cons, List.map_cons, List.filter_cons]
    cases h : cond entry.1 <;> simp [ih]

/-- For a prefix without `=` and an environment whose names have no `=`, the
unknown variables are, in the order of the environment, the names that start
with the prefix and are not binding keys. -/
theorem FindUnknown_names (S : SliceSorter) (impl : GoType → Bool) (environ : Environ)
    (pfx : String) (spec : Value) (hpfx : pfx ≠ "") (heq : '=' ∉ pfx.data)
    (hnames : ∀ entry ∈ environ, '=' ∉ entry.1.data)
    (hok : (gatherInfo S impl spec).err = none) :
    (FindUnknownEnvVariablesByPrefix S impl environ pfx spec).err = none ∧
    (FindUnknownEnvVariablesByPrefix S impl environ pfx spec).unknownVars =
      (environ.map (fun entry => entry.1)).filter (fun name =>
        HasPrefix name pfx &&
          decide (name ∉ (gatherInfo S impl spec).infos.map (fun info => info.Key))) := by
  simp only [FindUnknownEnvVariablesByPrefix, hpfx, if_false, hok, true_and]
  rw [← filterMap_names, osEnviron, List.filterMap_map]
  apply List.filterMap_congr
  intro entry hentry
  have hname := hnames entry hentry
  simp only [Function.comp, HasPrefix_entry _ _ _ heq, beforeEquals_entry _ _ hname]
  cases hp : HasPrefix entry.1 pfx
  · simp
  · by_cases hm : entry.1 ∈ (gatherInfo S impl spec).infos.map (fun info => info.Key)
    · simp [hm]
    · simp [hm]

/-! ## Theorems: the message of a missing variable -/

theorem escapedRune_plain (wide : Char → Bool) (c : Char)
    (h : c ≠ '"' ∧ c ≠ '\\' ∧ IsPrint wide c = true) : escapedRune wide c = [c] := by
  simp [escapedRune, h.1, h.2.1, h.2.2]

theorem join_escapedRune_plain (wide : Char → Bool) (l : List Char)
    (h : ∀ c ∈ l, c ≠ '"' ∧ c ≠ '\\' ∧ IsPrint wide c = true) :
    (l.map (escapedRune wide)).flatten = l := by
  induction l with
  | nil => rfl
  | cons c cs ih =>
    rw [List.map_cons, List.flatten_cons, escapedRune_plain wide c (h c (List.mem_cons_self _ _)),
      ih (fun d hd => h d (List.mem_cons_of_mem _ hd))]
    rfl

/-- C18, as the code has it: for a non-empty key that is absent and has no
default, the message of the error is `env variable is not set: ` followed by
the key as `strconv.Quote` writes it; the key itself is a part of the message
when none of its characters is one that `Quote` escapes (a double quote, a
backslash, a character that is not printable). -/
theorem GetValueFromEnv_message (wide : Char → Bool) (env : Environ) (info : envVarInfo)
    (hkey : info.Key ≠ "") (habsent : (LookupEnv env info.Key).2 = false)
    (hdef : info.IsDefaultSet = false) :
    ∃ e, (info.GetValueFromEnv env).2 = some e ∧
      e.Error wide = "env variable is not set: " ++ strconvQuote wide info.Key ∧
      ((∀ c ∈ info.Key.data, c ≠ '"' ∧ c ≠ '\\' ∧ IsPrint wide c = true) →
        info.Key.data <:+: (e.Error wide).data) := by
  refine ⟨.errorf [.text "env variable is not set: ", .quoted info.Key], ?_, ?_, ?_⟩
  · simp [envVarInfo.GetValueFromEnv, hkey, habsent, hdef]
  · simp [GoError.Error, renderSegs, Seg.render]
  · intro hplain
    refine ⟨"env variable is not set: ".data ++ ['"'], ['"'], ?_⟩
    simp [GoError.Error, renderSegs, Seg.render, strconvQuote,
      join_escapedRune_plain wide _ hplain, String.data_append]

/-- C18 at `TestErrorMessageForRequired`: the key `BAR` is absent from the
empty environment, and the message contains `BAR`. -/
theorem GetValueFromEnv_message_witness :
    ∃ e, (envVarInfo.GetValueFromEnv [] ⟨"Foo", "BAR", [.field 0], "", "", false⟩).2 = some e ∧
      "BAR".data <:+: (e.Error (fun _ => false)).data := by
  obtain ⟨e, he, _, hinfix⟩ := GetValueFromEnv_message (fun _ => false) []
    ⟨"Foo", "BAR", [.field 0], "", "", false⟩ (by decide) (by decide) rfl
  exact ⟨e, he, hinfix (by decide)⟩

/-- C18, the claim as stated fails: for the key `A"B`, absent from the empty
environment, the message is `env variable is not set: "A\"B"`, in which the
key does not occur. -/
theorem GetValueFromEnv_message_quote :
    (envVarInfo.GetValueFromEnv [] ⟨"Foo", "A\"B", [.field 0], "", "", false⟩).2 =
      some (.errorf [.text "env variable is not set: ", .quoted "A\"B"]) ∧
    GoError.Error (fun _ => false) (.errorf [.text "env variable is not set: ", .quoted "A\"B"]) =
      "env variable is not set: \"A\\\"B\"" ∧
    ¬ ("A\"B".data <:+:
      (GoError.Error (fun _ => false)
        (.errorf [.text "env variable is not set: ", .quoted "A\"B"])).data) := by
  refine ⟨by decide, by decide, ?_⟩
  decide

/-! ## Theorems: unknown variables -/

/-- C11, where the code departs from the claim: with the prefix `A=` and the
environment `A=1`, the entry `A=1` starts with the prefix, so the name `A` is
returned although it does not start with `A=`. -/
theorem FindUnknown_prefix_with_equals :
    (FindUnknownEnvVariablesByPrefix insertionSorter noInterface [("A", "1")] "A=" emptySpec).err
      = none ∧
    (FindUnknownEnvVariablesByPrefix insertionSorter noInterface [("A", "1")] "A="
      emptySpec).unknownVars = ["A"] ∧
    HasPrefix "A" "A=" = false := by
  have hg : (gatherInfo insertionSorter noInterface emptySpec).err = none ∧
      (gatherInfo insertionSorter noInterface emptySpec).infos = [] := by
    simp [emptySpec, gatherInfo, gatherFields, insertionSorter]
  refine ⟨?_, ?_, by decide⟩
  · simp [FindUnknownEnvVariablesByPrefix, hg.1]
  · simp only [FindUnknownEnvVariablesByPrefix, hg.1, hg.2]
    decide

/-- C12: with the empty prefix, `FindUnknownEnvVariablesByPrefix` returns no
variable and an error that wraps `ErrEmptyPrefix`, for every argument and
every environment; the configuration object is as it was, since the check of
the prefix comes before extraction. -/
theorem FindUnknown_empty_prefix (S : SliceSorter) (impl : GoType → Bool) (environ : Environ)
    (spec : Value) :
    (FindUnknownEnvVariablesByPrefix S impl environ "" spec).unknownVars = [] ∧
    (∃ e, (FindUnknownEnvVariablesByPrefix S impl environ "" spec).err = some e ∧
      errorsIs e ErrEmptyPrefix = true) ∧
    (FindUnknownEnvVariablesByPrefix S impl environ "" spec).spec = spec := by
  refine ⟨by simp [FindUnknownEnvVariablesByPrefix], ⟨.wrapf [] ErrEmptyPrefix, ?_, ?_⟩,
    by simp [FindUnknownEnvVariablesByPrefix]⟩
  · simp [FindUnknownEnvVariablesByPrefix]
  · exact errorsIs_wrapf _ _ _ (errorsIs_refl _)

/-- The tests `TestCheckDisallowedOnlyAllowed` and `TestCheckDisallowedMispelled`. -/
theorem FindUnknown_tests :
    (FindUnknownEnvVariablesByPrefix insertionSorter noInterface
      [("ENV_CONFIG_DEBUG", "true"), ("ENV_CONFIG_UNRELATED_ENV_VAR", "true"),
        ("HOME", "/root"), ("ENV_CONFIG_UNRELATED_ENV_VAR2", "true")]
      "ENV_CONFIG_" debugSpec).unknownVars =
      ["ENV_CONFIG_UNRELATED_ENV_VAR", "ENV_CONFIG_UNRELATED_ENV_VAR2"] ∧
    (FindUnknownEnvVariablesByPrefix insertionSorter noInterface
      [("ENV_CONFIG_DEBUG", "true"), ("ENV_CONFIG_ZEBUG", "false")]
      "ENV_CONFIG_" debugSpec).unknownVars = ["ENV_CONFIG_ZEBUG"] := by
  have hg : (gatherInfo insertionSorter noInterface debugSpec).err = none ∧
      (gatherInfo insertionSorter noInterface debugSpec).infos.map (fun info => info.Key)
        = ["ENV_CONFIG_DEBUG"] := by
    simp [debugSpec, envField, zeroBool, noInterface, gatherInfo, gatherFields,
      followPointerChain, Value.Kind, insertionSorter, createEnvVarInfo, StructTag.Get,
      StructTag.Lookup, List.lookup, fieldPath]
  constructor
  · rw [(FindUnknown_names insertionSorter noInterface _ "ENV_CONFIG_" debugSpec (by decide)
      (by decide) (by decide) hg.1).2, hg.2]
    decide
  · rw [(FindUnknown_names insertionSorter noInterface _ "ENV_CONFIG_" debugSpec (by decide)
      (by decide) (by decide) hg.1).2, hg.2]
    decide

/-! ## Lemmas on the writes of extraction -/

mutual
theorem Materialised_refl : ∀ v : Value, Materialised v v
  | .basic t d => .basic t d
  | .nilPtr elem => .nilPtr elem
  | .ptr target => .ptr _ _ (Materialised_refl target)
  | .struct name fields => .struct name _ _ (MaterialisedFields_refl fields)
theorem MaterialisedFields_refl : ∀ fields : List (StructField × Value),
    MaterialisedFields fields fields
  | [] => .nil
  | (sf, v) :: rest => .cons sf v v rest rest (Materialised_refl v) (MaterialisedFields_refl rest)
end

/-- Writing a materialised end of the chain back into the slot materialises
the slot. -/
theorem followPointerChain_setElem : ∀ (f w : Value),
    Materialised (followPointerChain f).value w →
    Materialised f (Value.setElem (followPointerChain f).steps (followPointerChain f).slot w)
  | .basic _ _, w => by
    simp only [followPointerChain, Value.setElem]
    exact id
  | .struct _ _, w => by
    simp only [followPointerChain, Value.setElem]
    exact id
  | .ptr target, w => by
    intro h
    simp only [followPointerChain] at h
    simp only [followPointerChain, Value.setElem]
    exact .ptr _ _ (followPointerChain_setElem target w h)
  | .nilPtr elem, w => by
    simp only [followPointerChain]
    split
    · simp only [Value.setElem]
      exact id
    · rename_i hk
      intro h
      simp only [Value.setElem]
      exact .alloc elem w (by simpa using hk) h

theorem followPointerChain_setElem_value : ∀ g : Value,
    Value.setElem (followPointerChain g).steps (followPointerChain g).slot
      (followPointerChain g).value = (followPointerChain g).slot
  | .basic _ _ => by simp [followPointerChain, Value.setElem]
  | .struct _ _ => by simp [followPointerChain, Value.setElem]
  | .nilPtr elem => by
    simp only [followPointerChain]
    split <;> simp [Value.setElem]
  | .ptr target => by
    simp [followPointerChain, Value.setElem, followPointerChain_setElem_value target]

theorem followPointerChain_slot (f : Value) : Materialised f (followPointerChain f).slot := by
  have h := followPointerChain_setElem f _ (Materialised_refl (followPointerChain f).value)
  rw [followPointerChain_setElem_value] at h
  exact h

theorem gatherFields_materialised (S : SliceSorter) (impl : GoType → Bool) :
    ∀ i fields, MaterialisedFields fields (gatherFields S impl i fields).fields := by
  apply fields_induction
  · intro i
    rw [gatherFields.eq_1]
    exact .nil
  · intro i ftype f rest ihInner ihRest
    rw [gatherFields.eq_2]
    by_cases hset : ftype.PkgPath ≠ ""
    · rw [if_pos hset]
      exact MaterialisedFields_refl _
    · by_cases hrec : (followPointerChain f).value.Kind = Kind.Struct ∧ impl f.Type = false
      · simp only [hset, hrec, if_true, if_false, and_self]
        obtain ⟨nm, hnm⟩ := Value.eq_struct_of_kind _ hrec.1
        have hspec : (gatherInfo S impl (followPointerChain f).value.ptr).spec.Elem =
            .struct nm (gatherFields S impl 0 (followPointerChain f).value.fields).fields := by
          conv_lhs => rw [hnm]
          rw [gatherInfo_spec]
          rfl
        have hinner : Materialised (followPointerChain f).value
            (gatherInfo S impl (followPointerChain f).value.ptr).spec.Elem := by
          rw [hspec]
          conv_lhs => rw [hnm]
          exact .struct nm _ _ ihInner
        have hslot := followPointerChain_setElem f _ hinner
        cases he : (gatherInfo S impl (followPointerChain f).value.ptr).err with
        | some err => exact .cons _ _ _ _ _ hslot (MaterialisedFields_refl _)
        | none =>
          cases hr : (gatherFields S impl (i + 1) rest).err with
          | some err => exact .cons _ _ _ _ _ hslot ihRest
          | none => exact .cons _ _ _ _ _ hslot ihRest
      · simp only [hset, hrec, if_true, if_false]
        cases hr : (gatherFields S impl (i + 1) rest).err with
        | some err => exact .cons _ _ _ _ _ (followPointerChain_slot f) ihRest
        | none => exact .cons _ _ _ _ _ (followPointerChain_slot f) ihRest

theorem gatherInfo_materialised (S : SliceSorter) (impl : GoType → Bool) (spec : Value) :
    Materialised spec (gatherInfo S impl spec).spec := by
  by_cases h : spec.Kind ≠ Kind.Ptr ∨ spec.Elem.Kind ≠ Kind.Struct
  · rw [(gatherInfo_not_struct S impl spec h).1]
    exact Materialised_refl _
  · rw [not_or, not_not, not_not] at h
    cases spec with
    | basic t d => simp [Value.Kind] at h
    | struct name fields => simp [Value.Kind] at h
    | nilPtr elem => simp [Value.Kind, Value.Elem] at h
    | ptr target =>
      have hk : target.Kind = Kind.Struct := h.2
      obtain ⟨nm, hnm⟩ := Value.eq_struct_of_kind _ hk
      rw [hnm, gatherInfo_spec]
      exact .ptr _ _ (.struct nm _ _ (gatherFields_materialised S impl 0 _))

mutual
/-- What is materialised is materialised place by place. -/
theorem Materialised_get : ∀ (p : Path) (v w x : Value), Materialised v w →
    v.get p = some x → ∃ y, w.get p = some y ∧ Materialised x y
  | [], v, w, x, h, hx => by
    simp only [Value.get, Option.some.injEq] at hx
    subst hx
    exact ⟨w, by simp [Value.get], h⟩
  | Step.elem :: p, v, w, x, h, hx => by
    cases h with
    | basic t d => simp [Value.get] at hx
    | nilPtr elem => simp [Value.get] at hx
    | alloc elem w hk hz => simp [Value.get] at hx
    | ptr v w h =>
      simp only [Value.get] at hx ⊢
      exact Materialised_get p v w x h hx
    | struct name fs gs h => simp [Value.get] at hx
  | Step.field i :: p, v, w, x, h, hx => by
    cases h with
    | basic t d => simp [Value.get] at hx
    | nilPtr elem => simp [Value.get] at hx
    | alloc elem w hk hz => simp [Value.get] at hx
    | ptr v w h => simp [Value.get] at hx
    | struct name fs gs h =>
      simp only [Value.get] at hx ⊢
      exact MaterialisedFields_get p i fs gs x h hx
theorem MaterialisedFields_get : ∀ (p : Path) (i : Nat) (fs gs : List (StructField × Value))
    (x : Value), MaterialisedFields fs gs →
    (match fs[i]? with
      | some (_, v) => v.get p
      | none => none) = some x →
    ∃ y, (match gs[i]? with
      | some (_, v) => v.get p
      | none => none) = some y ∧ Materialised x y
  | p, i, _, _, x, .nil, hx => by simp at hx
  | p, 0, _, _, x, .cons sf v w fs gs h hs, hx => by
    simp only [List.getElem?_cons_zero] at hx ⊢
    exact Materialised_get p v w x h hx
  | p, i + 1, _, _, x, .cons sf v w fs gs h hs, hx => by
    simp only [List.getElem?_cons_succ] at hx ⊢
    exact MaterialisedFields_get p i fs gs x hs hx
end

/-! ## Theorems: pointer chains and the writes of extraction -/

theorem followPointerChain_reaches : ∀ f : Value,
    ((followPointerChain f).value.Kind = Kind.Struct ↔ reachesStruct f = true) ∧
    (followPointerChain f).slot.get (List.replicate (followPointerChain f).steps Step.elem) =
      some (followPointerChain f).value
  | .basic _ _ => by simp [followPointerChain, reachesStruct, Value.Kind, Value.get]
  | .struct _ _ => by simp [followPointerChain, reachesStruct, Value.Kind, Value.get]
  | .ptr target => by
    have ih := followPointerChain_reaches target
    simp only [followPointerChain, reachesStruct, List.replicate_succ, Value.get]
    exact ih
  | .nilPtr elem => by
    simp only [followPointerChain, reachesStruct]
    split
    · rename_i hk
      simp [Value.Kind, Value.get, hk]
    · rename_i hk
      have hk' : elem.Kind = Kind.Struct := by simpa using hk
      cases elem with
      | basic t => simp [GoType.Kind] at hk'
      | ptr e => simp [GoType.Kind] at hk'
      | struct n fs => simp [zeroValue, Value.Kind, Value.get, GoType.Kind]

theorem followPointerChain_stuck : ∀ f : Value, f.Type.isStructChain = true →
    reachesStruct f = false →
    (followPointerChain f).slot = f ∧
      ∃ elem, (followPointerChain f).value = .nilPtr elem ∧ elem.Kind = Kind.Ptr
  | .basic _ _ => by simp [Value.Type, GoType.isStructChain]
  | .struct _ _ => by simp [Value.Type, GoType.isStructChain]
  | .ptr target => by
    intro ht hr
    have htarget : target.Type.isStructChain = true := by
      cases target with
      | basic t d => simp [Value.Type, GoType.isStructChain] at ht
      | struct n fs => simp [reachesStruct] at hr
      | nilPtr e => simpa [Value.Type, GoType.isStructChain] using ht
      | ptr v => simpa [Value.Type, GoType.isStructChain] using ht
    have ih := followPointerChain_stuck target htarget (by simpa [reachesStruct] using hr)
    simp only [followPointerChain]
    exact ⟨by rw [ih.1], ih.2⟩
  | .nilPtr elem => by
    intro ht hr
    have hk : elem.Kind ≠ Kind.Struct := by simpa [reachesStruct] using hr
    have hp : elem.Kind = Kind.Ptr := by
      cases elem with
      | basic t => simp [Value.Type, GoType.isStructChain] at ht
      | ptr e => rfl
      | struct n fs => simp [GoType.Kind] at hk
    simp only [followPointerChain, hk, ne_eq, not_false_eq_true, if_true]
    exact ⟨trivial, elem, rfl, hp⟩

/-! ## Theorems: pointer chains -/

/-- C19, the claim as stated fails: the field is a nil pointer to a pointer to
a struct; `followPointerChain` sets nothing and returns the nil pointer, a
value of kind `Ptr`. -/
theorem followPointerChain_nil_outer :
    nilPtrPtr.Type.isStructChain = true ∧
    (followPointerChain nilPtrPtr).slot = nilPtrPtr ∧
    (followPointerChain nilPtrPtr).value = nilPtrPtr ∧
    (followPointerChain nilPtrPtr).value.Kind = Kind.Ptr := by
  simp [nilPtrPtr, honorDecodeInStruct, followPointerChain, GoType.Kind, Value.Kind, Value.Type,
    GoType.isStructChain]

/-- C19, as the code has it: for a field whose type is a chain of pointers
that ends in a struct, `followPointerChain` returns the struct at the end of
the chain exactly when no link before the last is nil; a nil last link is set
to a fresh zero struct, nothing else is written, and the value returned lies
at the end of the chain of the slot.  When a link before the last is nil, the
slot is left as it is and the value returned is that nil pointer. -/
theorem followPointerChain_chain (f : Value) (htype : f.Type.isStructChain = true) :
    (reachesStruct f = true →
      (followPointerChain f).value.Kind = Kind.Struct ∧
      Materialised f (followPointerChain f).slot ∧
      (followPointerChain f).slot.get (List.replicate (followPointerChain f).steps Step.elem) =
        some (followPointerChain f).value) ∧
    (reachesStruct f = false →
      (followPointerChain f).slot = f ∧
      ∃ elem, (followPointerChain f).value = .nilPtr elem ∧ elem.Kind = Kind.Ptr) :=
  ⟨fun hr => ⟨(followPointerChain_reaches f).1.mpr hr, followPointerChain_slot f,
      (followPointerChain_reaches f).2⟩,
   followPointerChain_stuck f htype⟩

/-- C19 at a pointer to a nil pointer to a struct: the nil link is the last
one; it is set to a zero struct, which is returned. -/
theorem followPointerChain_chain_witness :
    (followPointerChain (.ptr nilStructPtr)).value = zeroValue honorDecodeInStruct ∧
    (followPointerChain (.ptr nilStructPtr)).slot = .ptr (.ptr (zeroValue honorDecodeInStruct)) ∧
    (followPointerChain (.ptr nilStructPtr)).value.Kind = Kind.Struct :=
  ⟨rfl, rfl,
   ((followPointerChain_chain (.ptr nilStructPtr) rfl).1 rfl).1⟩

/-- C20: the writes of `followPointerChain` and of `gatherInfo`, failing or
not, set nil pointers to a struct type to fresh zero structs and do nothing
else.  A nil pointer to a type that is not a struct is left nil and returned
as it is.  In the object after `gatherInfo`, every value of a basic kind is
where it was, every pointer that was not nil is not nil and points to what
its target has become, every nil pointer to a type that is not a struct is
nil, and the target of every descriptor that exists before the call holds the
value it had. -/
theorem extraction_writes (S : SliceSorter) (impl : GoType → Bool) (spec : Value) :
    (∀ f : Value, Materialised f (followPointerChain f).slot) ∧
    (∀ elem : GoType, elem.Kind ≠ Kind.Struct →
      (followPointerChain (.nilPtr elem)).slot = .nilPtr elem ∧
      (followPointerChain (.nilPtr elem)).value = .nilPtr elem) ∧
    Materialised spec (gatherInfo S impl spec).spec ∧
    (∀ (p : Path) (t : BasicType) (d : Data), spec.get p = some (.basic t d) →
      (gatherInfo S impl spec).spec.get p = some (.basic t d)) ∧
    (∀ (p : Path) (x : Value), spec.get p = some (.ptr x) →
      ∃ y, (gatherInfo S impl spec).spec.get p = some (.ptr y) ∧ Materialised x y) ∧
    (∀ (p : Path) (elem : GoType), spec.get p = some (.nilPtr elem) → elem.Kind ≠ Kind.Struct →
      (gatherInfo S impl spec).spec.get p = some (.nilPtr elem)) ∧
    ((gatherInfo S impl spec).err = none →
      ∀ d ∈ (gatherInfo S impl spec).infos, ∀ v, spec.Elem.get d.Field = some v →
        (gatherInfo S impl spec).spec.Elem.get d.Field = some v) := by
  have hm := gatherInfo_materialised S impl spec
  refine ⟨followPointerChain_slot, ?_, hm, ?_, ?_, ?_, gatherInfo_frame S impl spec⟩
  · intro elem hk
    simp [followPointerChain, hk]
  · intro p t d hp
    obtain ⟨y, hy, hxy⟩ := Materialised_get p _ _ _ hm hp
    cases hxy
    exact hy
  · intro p x hp
    obtain ⟨y, hy, hxy⟩ := Materialised_get p _ _ _ hm hp
    cases hxy with
    | ptr v w h => exact ⟨w, hy, h⟩
  · intro p elem hp hk
    obtain ⟨y, hy, hxy⟩ := Materialised_get p _ _ _ hm hp
    cases hxy with
    | nilPtr e => exact hy
    | alloc e w hs hz => exact absurd hs hk

/-! ## Theorems: fields that share a binding key -/

/-- The place of every descriptor of the flattening is the place of a field
followed by steps through pointers. -/
theorem flatten_slot (impl : GoType → Bool) :
    ∀ i fields, ∀ d ∈ flatten impl i fields,
      ∃ (q : Path) (j n : Nat), d.Field = q ++ Step.field j :: List.replicate n Step.elem := by
  apply fields_induction
  · intro i d hd
    rw [flatten] at hd
    simp at hd
  · intro i ftype f rest ihInner ihRest d hd
    rw [flatten] at hd
    by_cases hrec : (followPointerChain f).value.Kind = Kind.Struct ∧ impl f.Type = false
    · simp only [hrec, if_true, and_self, List.mem_append, List.mem_map] at hd
      rcases hd with ⟨d', hd', rfl⟩ | hd
      · obtain ⟨q, j, n, hq⟩ := ihInner d' hd'
        exact ⟨fieldPath i (followPointerChain f).steps ++ q, j, n, by
          simp only [envVarInfo.under, hq, List.append_assoc]⟩
      · exact ihRest d hd
    · simp only [hrec, if_false, List.mem_cons] at hd
      rcases hd with rfl | hd
      · exact ⟨[], i, (followPointerChain f).steps, by simp [createEnvVarInfo, fieldPath]⟩
      · exact ihRest d hd

/-- The struct after extraction is the struct before it, materialised. -/
theorem gatherInfo_materialised_elem (S : SliceSorter) (impl : GoType → Bool) (spec : Value) :
    Materialised spec.Elem (gatherInfo S impl spec).spec.Elem := by
  by_cases h : spec.Kind ≠ Kind.Ptr ∨ spec.Elem.Kind ≠ Kind.Struct
  · rw [(gatherInfo_not_struct S impl spec h).1]
    exact Materialised_refl _
  · rw [not_or, not_not, not_not] at h
    cases spec with
    | basic t d => simp [Value.Kind] at h
    | struct name fields => simp [Value.Kind] at h
    | nilPtr elem => simp [Value.Kind, Value.Elem] at h
    | ptr target =>
      have hm := gatherInfo_materialised S impl (.ptr target)
      generalize (gatherInfo S impl (.ptr target)).spec = w at hm
      cases hm with
      | ptr v w h => exact h

/-- The descriptors that the fields of `TestEnvVarCollision` declare. -/
theorem collisionSpec_flatten :
    flatten noInterface 0 collisionSpec.Elem.fields =
      [⟨"A", "A", [.field 0], "", "", false⟩, ⟨"B", "A", [.field 1], "", "", false⟩] := by
  simp [collisionSpec, envField, zeroString, noInterface, Value.Elem, Value.fields, flatten,
    followPointerChain, Value.Kind, createEnvVarInfo, StructTag.Get, StructTag.Lookup,
    List.lookup, fieldPath]

/-- Two fields without a key do not end the pass: each has the error of its
own, and the field bound to `Z` is resolved. -/
theorem untaggedSpec_Unmarshal :
    (Unmarshal insertionSorter noInterface stringConverter [("Z", "v")]
      untaggedSpec).spec.Elem.get [.field 2] = some (.basic .string (.str "v")) ∧
    (Unmarshal insertionSorter noInterface stringConverter [("Z", "v")]
      untaggedSpec).results.length = 3 ∧
    (Unmarshal insertionSorter noInterface stringConverter [("Z", "v")]
      untaggedSpec).err ≠ none := by
  simp [Unmarshal, untaggedSpec, envField, zeroString, noInterface, gatherInfo, gatherFields,
    followPointerChain, Value.Kind, insertionSorter, createEnvVarInfo, StructTag.Get,
    StructTag.Lookup, List.lookup, fieldPath, processFields, processField, Value.Elem,
    Value.get, Value.set, envVarInfo.GetValueFromEnv, LookupEnv, stringConverter, firstError]

/-- C9, the claim as stated fails: the fields `P` and `B` share the key `A`,
`Unmarshal` fails, and the field `P`, nil before the call, points to a fresh
zero struct after it. -/
theorem Unmarshal_duplicate_keys_pointer :
    (Unmarshal insertionSorter honorInterface stringConverter [("A", "true")]
      pointerCollisionSpec).err ≠ none ∧
    pointerCollisionSpec.Elem.get [.field 0] = some (.nilPtr honorDecodeInStruct) ∧
    (Unmarshal insertionSorter honorInterface stringConverter [("A", "true")]
      pointerCollisionSpec).spec.Elem.get [.field 0] = some (.ptr (zeroValue honorDecodeInStruct)) := by
  have hkeys : (gatherInfo insertionSorter honorInterface pointerCollisionSpec).infos.map
      (fun info => info.Key) = ["A", "A"] := by
    have := congrArg (List.map Prod.fst) pointerCollisionSpec_gather.2.1
    simpa [List.map_map, Function.comp] using this
  have hspec := pointerCollisionSpec_gather.2.2
  refine ⟨?_, rfl, ?_⟩
  · simp [Unmarshal, pointerCollisionSpec_gather.1, hkeys]
  · simp [Unmarshal, pointerCollisionSpec_gather.1, hkeys, hspec, Value.Elem, Value.get, envField]

/-- C9, as the model has it: when a leaf field declares a binding key that is
not empty and that another leaf field declares as well, `Unmarshal` returns an
error, whatever the environment holds and whatever converts.  The field keeps
the value it had before the call, but for nil pointers to a struct type in it,
which extraction sets to fresh zero structs: a field of a basic kind holds the
very value it had.  When extraction succeeds, the target of the descriptor of
the field, if it exists before the call, holds the value it had. -/
theorem Unmarshal_duplicate_keys (S : SliceSorter) (impl : GoType → Bool) (C : Converter)
    (env : Environ) (spec : Value) (d : envVarInfo)
    (hd : d ∈ flatten impl 0 spec.Elem.fields)
    (hkey : d.Key ≠ "")
    (hshare : 1 < ((flatten impl 0 spec.Elem.fields).map (fun info => info.Key)).count d.Key) :
    (Unmarshal S impl C env spec).err ≠ none ∧
    (∃ (q : Path) (i n : Nat), d.Field = q ++ Step.field i :: List.replicate n Step.elem) ∧
    (∀ (q : Path) (i n : Nat), d.Field = q ++ Step.field i :: List.replicate n Step.elem →
      ∀ v, spec.Elem.get (q ++ [Step.field i]) = some v →
        ∃ w, (Unmarshal S impl C env spec).spec.Elem.get (q ++ [Step.field i]) = some w ∧
          Materialised v w ∧ (∀ t c, v = .basic t c → w = .basic t c)) ∧
    ((gatherInfo S impl spec).err = none → ∀ v, spec.Elem.get d.Field = some v →
      (Unmarshal S impl C env spec).spec.Elem.get d.Field = some v) := by
  have hfail : (Unmarshal S impl C env spec).spec = (gatherInfo S impl spec).spec ∧
      (Unmarshal S impl C env spec).err ≠ none := by
    cases hg : (gatherInfo S impl spec).err with
    | some err => simp [Unmarshal, hg]
    | none =>
      have hperm := gatherInfo_perm S impl spec hg
      have hdup : ¬ (((gatherInfo S impl spec).infos.map (fun info => info.Key)).filter
          (fun key => key != "")).Nodup := by
        intro hn
        have hc := List.nodup_iff_count_le_one.mp hn d.Key
        rw [List.count_filter (by simpa using hkey), (hperm.map _).count_eq] at hc
        omega
      simp [Unmarshal, hg, hdup]
  obtain ⟨hspec, herr⟩ := hfail
  have hm := gatherInfo_materialised_elem S impl spec
  refine ⟨herr, flatten_slot impl 0 _ d hd, ?_, ?_⟩
  · intro q i n _ v hv
    obtain ⟨w, hw, hvw⟩ := Materialised_get _ _ _ _ hm hv
    refine ⟨w, by rw [hspec]; exact hw, hvw, ?_⟩
    intro t c hvt
    subst hvt
    cases hvw
    rfl
  · intro hg v hv
    rw [hspec]
    exact gatherInfo_frame S impl spec hg d ((gatherInfo_perm S impl spec hg).mem_iff.mpr hd) v hv

/-- C9 at `TestEnvVarCollision`, with `A` set to `true`: `Unmarshal` fails and
the fields `A` and `B` hold the empty string as before. -/
theorem Unmarshal_duplicate_keys_witness :
    (Unmarshal insertionSorter noInterface stringConverter [("A", "true")] collisionSpec).err ≠ none ∧
    (Unmarshal insertionSorter noInterface stringConverter [("A", "true")]
      collisionSpec).spec.Elem.get [.field 0] = some zeroString ∧
    (Unmarshal insertionSorter noInterface stringConverter [("A", "true")]
      collisionSpec).spec.Elem.get [.field 1] = some zeroString := by
  have hA := Unmarshal_duplicate_keys insertionSorter noInterface stringConverter [("A", "true")]
    collisionSpec ⟨"A", "A", [.field 0], "", "", false⟩
    (by rw [collisionSpec_flatten]; simp) (by decide) (by rw [collisionSpec_flatten]; decide)
  have hB := Unmarshal_duplicate_keys insertionSorter noInterface stringConverter [("A", "true")]
    collisionSpec ⟨"B", "A", [.field 1], "", "", false⟩
    (by rw [collisionSpec_flatten]; simp) (by decide) (by rw [collisionSpec_flatten]; decide)
  obtain ⟨w, hw, _, hbasic⟩ := hA.2.2.1 [] 0 0 rfl zeroString rfl
  obtain ⟨w', hw', _, hbasic'⟩ := hB.2.2.1 [] 1 0 rfl zeroString rfl
  rw [hbasic .string (.str "") rfl] at hw
  rw [hbasic' .string (.str "") rfl] at hw'
  exact ⟨hA.1, hw, hw'⟩

/-! ## Lemmas on writing at a place -/

theorem Path.diverge_symm : ∀ p q : Path, Path.diverge p q → Path.diverge q p := by
  intro p
  induction p with
  | nil => intro q h; cases q <;> simp [Path.diverge] at h
  | cons a p ih =>
    intro q h
    cases q with
    | nil => simp [Path.diverge] at h
    | cons b q =>
      simp only [Path.diverge] at h ⊢
      by_cases hab : a = b
      · rw [if_pos hab] at h
        rw [if_pos hab.symm]
        exact ih q h
      · rw [if_neg (fun hba => hab hba.symm)]
        trivial

theorem Path.diverge_append (r : Path) : ∀ p q : Path,
    Path.diverge p q → Path.diverge (r ++ p) (r ++ q) := by
  induction r with
  | nil => intro p q h; exact h
  | cons a r ih =>
    intro p q h
    simp only [List.cons_append, Path.diverge, if_true]
    exact ih p q h

theorem Value.set_get_same : ∀ (p : Path) (obj t w : Value),
    obj.get p = some t → (obj.set p w).get p = some w := by
  intro p
  induction p with
  | nil => intro obj t w _; simp [Value.set, Value.get]
  | cons s p ih =>
    intro obj t w h
    cases s with
    | elem =>
      cases obj with
      | ptr target =>
        simp only [Value.get] at h
        simp only [Value.set, Value.get]
        exact ih target t w h
      | basic _ _ => simp [Value.get] at h
      | nilPtr _ => simp [Value.get] at h
      | struct _ _ => simp [Value.get] at h
    | field i =>
      cases obj with
      | struct name fields =>
        simp only [Value.get] at h
        simp only [Value.set]
        cases hf : fields[i]? with
        | none => rw [hf] at h; simp at h
        | some x =>
          obtain ⟨sf, v⟩ := x
          rw [hf] at h
          simp only at h ⊢
          have hi : i < fields.length := by
            by_contra hlt
            rw [List.getElem?_eq_none (by omega)] at hf
            cases hf
          simp only [Value.get, List.getElem?_set_self hi]
          exact ih v t w h
      | basic _ _ => simp [Value.get] at h
      | nilPtr _ => simp [Value.get] at h
      | ptr _ => simp [Value.get] at h

theorem Value.set_get_other : ∀ (p q : Path) (obj w : Value),
    Path.diverge p q → (obj.set p w).get q = obj.get q := by
  intro p
  induction p with
  | nil => intro q obj w h; cases q <;> simp [Path.diverge] at h
  | cons a p ih =>
    intro q obj w h
    cases q with
    | nil => simp [Path.diverge] at h
    | cons b q =>
      simp only [Path.diverge] at h
      cases a with
      | elem =>
        cases obj with
        | ptr target =>
          cases b with
          | elem =>
            simp only [if_true] at h
            simp only [Value.set, Value.get]
            exact ih q target w h
          | field j => simp [Value.set, Value.get]
        | basic _ _ => simp [Value.set]
        | nilPtr _ => simp [Value.set]
        | struct _ _ => simp [Value.set]
      | field i =>
        cases obj with
        | struct name fields =>
          simp only [Value.set]
          cases hf : fields[i]? with
          | none => rfl
          | some x =>
            obtain ⟨sf, v⟩ := x
            simp only
            cases b with
            | elem => simp [Value.get]
            | field j =>
              simp only [Value.get]
              by_cases hij : i = j
              · subst hij
                simp only [if_true] at h
                have hi : i < fields.length := by
                  by_contra hlt
                  rw [List.getElem?_eq_none (by omega)] at hf
                  cases hf
                rw [List.getElem?_set_self hi, hf]
                exact ih q v w h
              · rw [List.getElem?_set_ne hij]
        | basic _ _ => simp [Value.set]
        | nilPtr _ => simp [Value.set]
        | ptr _ => simp [Value.set]

/-! ## Lemmas on the pass over the descriptors -/

theorem processField_outcome (C : Converter) (env : Environ) (obj t : Value) (info : envVarInfo)
    (ht : obj.get info.Field = some t) :
    (processField C env obj info).1.get info.Field = some (fieldOutcome C env t info).1 ∧
    (processField C env obj info).2.Err = (fieldOutcome C env t info).2 ∧
    (processField C env obj info).2.KeyName = info.Key ∧
    (∀ q, Path.diverge info.Field q → (processField C env obj info).1.get q = obj.get q) := by
  rcases hv : info.GetValueFromEnv env with ⟨raw, _ | err⟩
  · cases hc : C.convert t raw with
    | ok converted =>
      have h₁ : processField C env obj info = (obj.set info.Field converted,
          ⟨info.Key, info.Name, C.typeName t.Type, raw, none⟩) := by
        simp only [processField, ht, hv, hc]
      have h₂ : fieldOutcome C env t info = (converted, none) := by
        simp only [fieldOutcome, hv, hc]
      rw [h₁, h₂]
      exact ⟨Value.set_get_same _ _ _ _ ht, rfl, rfl, fun q hq => Value.set_get_other _ _ _ _ hq⟩
    | error cause =>
      have h₁ : (processField C env obj info).1 = obj ∧
          (processField C env obj info).2.Err = (fieldOutcome C env t info).2 ∧
          (processField C env obj info).2.KeyName = info.Key := by
        simp only [processField, fieldOutcome, ht, hv, hc, and_self]
      have h₂ : (fieldOutcome C env t info).1 = t := by
        simp only [fieldOutcome, hv, hc]
      rw [h₁.1, h₂]
      exact ⟨ht, h₁.2.1, h₁.2.2, fun q _ => rfl⟩
  · have h₁ : (processField C env obj info).1 = obj ∧
        (processField C env obj info).2.Err = (fieldOutcome C env t info).2 ∧
        (processField C env obj info).2.KeyName = info.Key := by
      simp only [processField, fieldOutcome, ht, hv, and_self]
    have h₂ : (fieldOutcome C env t info).1 = t := by
      simp only [fieldOutcome, hv]
    rw [h₁.1, h₂]
    exact ⟨ht, h₁.2.1, h₁.2.2, fun q _ => rfl⟩

theorem processField_other (C : Converter) (env : Environ) (obj : Value) (info : envVarInfo)
    (q : Path) (hq : Path.diverge info.Field q) :
    (processField C env obj info).1.get q = obj.get q := by
  cases ht : obj.get info.Field with
  | some t => exact (processField_outcome C env obj t info ht).2.2.2 q hq
  | none =>
    unfold processField
    rw [ht]

theorem processFields_other (C : Converter) (env : Environ) (q : Path) :
    ∀ (infos : List envVarInfo) (obj : Value),
      (∀ info ∈ infos, Path.diverge info.Field q) →
      (processFields C env obj infos).1.get q = obj.get q := by
  intro infos
  induction infos with
  | nil => intro obj _; rfl
  | cons info rest ih =>
    intro obj h
    simp only [processFields]
    rw [ih _ (fun i hi => h i (List.mem_cons_of_mem _ hi)),
      processField_other C env obj info q (h info (List.mem_cons_self _ _))]

theorem firstError_of_mem : ∀ (results : FieldUnmarshalResults) (r : FieldUnmarshalResult),
    r ∈ results → r.Err ≠ none → firstError results ≠ none := by
  intro results
  induction results with
  | nil => intro r hr; simp at hr
  | cons x rest ih =>
    intro r hr herr
    by_cases hx : x.Err = none
    · rcases List.mem_cons.mp hr with rfl | hr
      · exact absurd hx herr
      · simpa [firstError, hx] using ih r hr herr
    · simp [firstError, hx]

/-- In a pass over descriptors whose places part ways pairwise, the target of
each descriptor ends with the outcome of that descriptor, and the report has
its result. -/
theorem processFields_outcome (C : Converter) (env : Environ) :
    ∀ (infos : List envVarInfo) (obj : Value),
      infos.Pairwise (fun a b => Path.diverge a.Field b.Field) →
      ∀ d ∈ infos, ∀ t, obj.get d.Field = some t →
        (processFields C env obj infos).1.get d.Field = some (fieldOutcome C env t d).1 ∧
        ∃ r ∈ (processFields C env obj infos).2,
          r.KeyName = d.Key ∧ r.Err = (fieldOutcome C env t d).2 := by
  intro infos
  induction infos with
  | nil => intro obj _ d hd; simp at hd
  | cons info rest ih =>
    intro obj hpw d hd t ht
    rw [List.pairwise_cons] at hpw
    simp only [processFields]
    rcases List.mem_cons.mp hd with rfl | hd
    · have hstep := processField_outcome C env obj t d ht
      refine ⟨?_, (processField C env obj d).2, List.mem_cons_self _ _, hstep.2.2.1, hstep.2.1⟩
      rw [processFields_other C env d.Field rest _ (fun i hi => Path.diverge_symm _ _ (hpw.1 i hi))]
      exact hstep.1
    · have hother := processField_other C env obj info d.Field (hpw.1 d hd)
      obtain ⟨hget, r, hr, hkey, herr⟩ := ih (processField C env obj info).1 hpw.2 d hd t
        (by rw [hother]; exact ht)
      exact ⟨hget, r, List.mem_cons_of_mem _ hr, hkey, herr⟩

/-! ## Lemmas on the outcome of one field -/

theorem flatten_diverge (impl : GoType → Bool) :
    ∀ i fields, (flatten impl i fields).Pairwise (fun a b => Path.diverge a.Field b.Field) := by
  apply fields_induction
  · intro i
    rw [flatten]
    exact List.Pairwise.nil
  · intro i ftype f rest ihInner ihRest
    have hcross : ∀ (p : Path) (b : envVarInfo), b ∈ flatten impl (i + 1) rest →
        Path.diverge (Step.field i :: p) b.Field := by
      intro p b hb
      obtain ⟨j, hj, hh⟩ := flatten_head impl rest (i + 1) b hb
      cases hf : b.Field with
      | nil => rw [hf] at hh; simp at hh
      | cons s q =>
        rw [hf] at hh
        simp only [List.head?_cons, Option.some.injEq] at hh
        subst hh
        have hne : Step.field i ≠ Step.field j := by
          intro h
          injection h with h
          omega
        simp [Path.diverge, hne]
    rw [flatten]
    by_cases hrec : (followPointerChain f).value.Kind = Kind.Struct ∧ impl f.Type = false
    · simp only [hrec, if_true, and_self]
      rw [List.pairwise_append]
      refine ⟨?_, ihRest, ?_⟩
      · rw [List.pairwise_map]
        exact ihInner.imp (fun h => Path.diverge_append _ _ _ h)
      · intro a ha b hb
        rw [List.mem_map] at ha
        obtain ⟨a', _, rfl⟩ := ha
        exact hcross _ b hb
    · simp only [hrec, if_false]
      rw [List.pairwise_cons]
      exact ⟨fun b hb => hcross _ b hb, ihRest⟩

theorem gatherInfo_diverge (S : SliceSorter) (impl : GoType → Bool) (spec : Value)
    (hok : (gatherInfo S impl spec).err = none) :
    (gatherInfo S impl spec).infos.Pairwise (fun a b => Path.diverge a.Field b.Field) := by
  have hperm := gatherInfo_perm S impl spec hok
  exact (hperm.pairwise_iff (fun h => Path.diverge_symm _ _ h)).mpr (flatten_diverge impl 0 _)

/-- What `Unmarshal` does with one descriptor when extraction succeeds and the
binding keys are pairwise distinct: the target ends with the outcome of the
descriptor, the report has its result, and an error of the outcome makes the
pass fail. -/
theorem Unmarshal_outcome (S : SliceSorter) (impl : GoType → Bool) (C : Converter)
    (env : Environ) (spec : Value) (d : envVarInfo) (t : Value)
    (hok : (gatherInfo S impl spec).err = none)
    (hkeys : ((gatherInfo S impl spec).infos.map (fun info => info.Key)).Nodup)
    (hd : d ∈ (gatherInfo S impl spec).infos)
    (ht : (gatherInfo S impl spec).spec.Elem.get d.Field = some t) :
    (Unmarshal S impl C env spec).spec.Elem.get d.Field = some (fieldOutcome C env t d).1 ∧
    (∃ r ∈ (Unmarshal S impl C env spec).results,
      r.KeyName = d.Key ∧ r.Err = (fieldOutcome C env t d).2) ∧
    ((fieldOutcome C env t d).2 ≠ none → (Unmarshal S impl C env spec).err ≠ none) := by
  obtain ⟨hget, r, hr, hkey, herr⟩ := processFields_outcome C env _ _
    (gatherInfo_diverge S impl spec hok) d hd t ht
  have hU : Unmarshal S impl C env spec =
      ⟨.ptr (processFields C env (gatherInfo S impl spec).spec.Elem (gatherInfo S impl spec).infos).1,
        (processFields C env (gatherInfo S impl spec).spec.Elem (gatherInfo S impl spec).infos).2,
        firstError (processFields C env (gatherInfo S impl spec).spec.Elem
          (gatherInfo S impl spec).infos).2⟩ := by
    simp only [Unmarshal, hok, hkeys.filter (fun key => key != ""), if_true]
  rw [hU]
  refine ⟨hget, ⟨r, hr, hkey, herr⟩, ?_⟩
  intro hne
  exact firstError_of_mem _ r hr (by rw [herr]; exact hne)

/-! ## Lemmas on splitting and joining -/

theorem splitChars_ne_nil (sep : Char) : ∀ l : List Char, splitChars sep l ≠ [] := by
  intro l
  induction l with
  | nil => simp [splitChars]
  | cons c cs ih =>
    simp only [splitChars]
    split
    · simp
    · split <;> simp

theorem splitChars_plain (sep : Char) : ∀ l : List Char, sep ∉ l → splitChars sep l = [l] := by
  intro l
  induction l with
  | nil => intro _; rfl
  | cons c cs ih =>
    intro h
    have hc : c ≠ sep := fun hc => h (by simp [hc])
    have ih₁ := ih (fun hm => h (List.mem_cons_of_mem _ hm))
    simp only [splitChars, hc, if_false, ih₁]

theorem splitChars_append (sep : Char) (r : List Char) : ∀ l : List Char, sep ∉ l →
    splitChars sep (l ++ sep :: r) = l :: splitChars sep r := by
  intro l
  induction l with
  | nil => intro _; simp [splitChars]
  | cons c cs ih =>
    intro h
    have hc : c ≠ sep := fun hc => h (by simp [hc])
    have ih₁ := ih (fun hm => h (List.mem_cons_of_mem _ hm))
    rw [List.cons_append, splitChars, if_neg hc, ih₁]

/-- Splitting what was joined gives the pieces back, when there is a piece
and no piece holds the separator. -/
theorem splitChars_joinChars (sep : Char) : ∀ pieces : List (List Char), pieces ≠ [] →
    (∀ piece ∈ pieces, sep ∉ piece) → splitChars sep (joinChars sep pieces) = pieces := by
  intro pieces
  induction pieces with
  | nil => intro h; exact absurd rfl h
  | cons piece rest ih =>
    intro _ h
    cases rest with
    | nil => exact splitChars_plain sep piece (h piece (List.mem_cons_self _ _))
    | cons next more =>
      have ih₁ := ih (by simp) (fun p hp => h p (List.mem_cons_of_mem _ hp))
      simp only [joinChars]
      rw [splitChars_append sep _ piece (h piece (List.mem_cons_self _ _)), ih₁]

theorem joinChars_eq_nil (sep : Char) : ∀ pieces : List (List Char),
    joinChars sep pieces = [] → pieces = [] ∨ pieces = [[]] := by
  intro pieces h
  cases pieces with
  | nil => exact Or.inl rfl
  | cons piece rest =>
    cases rest with
    | nil =>
      simp only [joinChars] at h
      exact Or.inr (by rw [h])
    | cons next more =>
      simp only [joinChars] at h
      cases piece <;> simp at h

theorem cutChars_append (sep : Char) (r : List Char) : ∀ l : List Char, sep ∉ l →
    cutChars sep (l ++ sep :: r) = some (l, r) := by
  intro l
  induction l with
  | nil => intro _; simp [cutChars]
  | cons c cs ih =>
    intro h
    have hc : c ≠ sep := fun hc => h (by simp [hc])
    have ih₁ := ih (fun hm => h (List.mem_cons_of_mem _ hm))
    rw [List.cons_append, cutChars, if_neg hc, ih₁]

theorem cutChars_plain (sep : Char) : ∀ l : List Char, sep ∉ l → cutChars sep l = none := by
  intro l
  induction l with
  | nil => intro _; rfl
  | cons c cs ih =>
    intro h
    have hc : c ≠ sep := fun hc => h (by simp [hc])
    have ih₁ := ih (fun hm => h (List.mem_cons_of_mem _ hm))
    simp only [cutChars, hc, if_false, ih₁]

theorem splitComma_joinComma (xs : List String) (hne : xs ≠ [])
    (h : ∀ x ∈ xs, ',' ∉ x.data) : splitComma (joinComma xs) = xs := by
  unfold splitComma joinComma
  simp only
  rw [splitChars_joinChars ',' _ (by simpa using hne)
    (by
      intro piece hp
      rw [List.mem_map] at hp
      obtain ⟨x, hx, rfl⟩ := hp
      exact h x hx)]
  rw [List.map_map]
  conv_rhs => rw [← List.map_id xs]
  apply List.map_congr_left
  intro x _
  rfl

theorem joinComma_eq_empty (xs : List String) (h : joinComma xs = "") :
    xs = [] ∨ xs = [""] := by
  unfold joinComma at h
  have hd : joinChars ',' (xs.map String.data) = [] := by
    have := congrArg String.data h
    simpa using this
  rcases joinChars_eq_nil ',' _ hd with h₁ | h₁
  · left
    simpa using h₁
  · right
    cases xs with
    | nil => simp at h₁
    | cons x rest =>
      simp only [List.map_cons, List.cons.injEq, List.map_eq_nil_iff] at h₁
      obtain ⟨hx, hrest⟩ := h₁
      subst hrest
      have : x = "" := by
        cases x
        simp only at hx
        subst hx
        rfl
      rw [this]

theorem cutColon_pair (key value : String) (h : ':' ∉ key.data) :
    cutColon (key ++ ":" ++ value) = some (key, value) := by
  have hd : (key ++ ":" ++ value).data = key.data ++ ':' :: value.data := by
    simp [String.data_append]
  unfold cutColon
  rw [hd, cutChars_append ':' _ _ h]

theorem cutColon_plain (pair : String) (h : ':' ∉ pair.data) : cutColon pair = none := by
  unfold cutColon
  rw [cutChars_plain ':' _ h]

/-! ## Lemmas on decimal numbers -/

theorem digitValue_digitChar (m : Nat) (h : m < 10) : digitValue (Nat.digitChar m) = some m := by
  interval_cases m <;> rfl

theorem parseDigitsFrom_append (ys : List Char) : ∀ (xs : List Char) (acc : Nat),
    parseDigitsFrom acc (xs ++ ys) =
      (parseDigitsFrom acc xs).bind (fun m => parseDigitsFrom m ys) := by
  intro xs
  induction xs with
  | nil => intro acc; rfl
  | cons c cs ih =>
    intro acc
    simp only [List.cons_append, parseDigitsFrom]
    cases digitValue c with
    | none => rfl
    | some d => exact ih _

/-- The digits that `Nat.toDigits` writes are decimal digits, at least one,
and they are read back as the number. -/
theorem toDigitsCore_digits : ∀ (fuel n : Nat) (ds : List Char), n < fuel →
    ∃ xs, Nat.toDigitsCore 10 fuel n ds = xs ++ ds ∧ xs ≠ [] ∧
      parseDigitsFrom 0 xs = some n ∧ ∀ c ∈ xs, (digitValue c).isSome = true := by
  intro fuel
  induction fuel with
  | zero => intro n ds h; omega
  | succ fuel ih =>
    intro n ds h
    have hd : digitValue (Nat.digitChar (n % 10)) = some (n % 10) :=
      digitValue_digitChar _ (Nat.mod_lt _ (by omega))
    simp only [Nat.toDigitsCore]
    by_cases hn : n / 10 = 0
    · rw [if_pos hn]
      have hlt : n < 10 := by omega
      refine ⟨[Nat.digitChar (n % 10)], rfl, by simp, ?_, ?_⟩
      · simp only [parseDigitsFrom, hd]
        congr 1
        omega
      · intro c hc
        simp only [List.mem_singleton] at hc
        rw [hc, hd]
        rfl
    · rw [if_neg hn]
      obtain ⟨xs, hxs, hne, hparse, hall⟩ := ih (n / 10) (Nat.digitChar (n % 10) :: ds) (by omega)
      refine ⟨xs ++ [Nat.digitChar (n % 10)], by rw [hxs]; simp, by simp, ?_, ?_⟩
      · rw [parseDigitsFrom_append, hparse]
        simp only [Option.some_bind, parseDigitsFrom, hd]
        congr 1
        omega
      · intro c hc
        rw [List.mem_append] at hc
        rcases hc with hc | hc
        · exact hall c hc
        · simp only [List.mem_singleton] at hc
          rw [hc, hd]
          rfl

theorem toDigits_digits (n : Nat) :
    Nat.toDigits 10 n ≠ [] ∧ parseDigits (Nat.toDigits 10 n) = some n ∧
      ∀ c ∈ Nat.toDigits 10 n, (digitValue c).isSome = true := by
  obtain ⟨xs, hxs, hne, hparse, hall⟩ := toDigitsCore_digits (n + 1) n [] (by omega)
  have h : Nat.toDigits 10 n = xs := by
    rw [Nat.toDigits, hxs, List.append_nil]
  rw [h]
  refine ⟨hne, ?_, hall⟩
  cases xs with
  | nil => exact absurd rfl hne
  | cons c cs => exact hparse

theorem parseInt_formatInt (bits : Nat) (i : Int)
    (h : -(2 ^ (bits - 1) : Int) ≤ i ∧ i < 2 ^ (bits - 1)) :
    parseInt bits (formatInt i) = .ok i := by
  cases i with
  | ofNat n =>
    obtain ⟨hne, hparse, hall⟩ := toDigits_digits n
    cases hd : Nat.toDigits 10 n with
    | nil => exact absurd hd hne
    | cons c cs =>
      have hc : (digitValue c).isSome = true := hall c (by rw [hd]; exact List.mem_cons_self _ _)
      have hminus : c ≠ '-' := by
        intro hc'
        rw [hc'] at hc
        exact absurd hc (by decide)
      have hplus : c ≠ '+' := by
        intro hc'
        rw [hc'] at hc
        exact absurd hc (by decide)
      rw [hd] at hparse
      have : (match (formatInt (Int.ofNat n)).data with
          | '-' :: ds => (parseDigits ds).map (fun n => -(n : Int))
          | '+' :: ds => (parseDigits ds).map (fun n => (n : Int))
          | ds => (parseDigits ds).map (fun n => (n : Int))) = some (Int.ofNat n) := by
        simp only [formatInt, hd]
        split
        · rename_i heq
          simp only [List.cons.injEq] at heq
          exact absurd heq.1.symm (fun h => hminus h.symm)
        · rename_i heq
          simp only [List.cons.injEq] at heq
          exact absurd heq.1.symm (fun h => hplus h.symm)
        · rw [hparse]
          rfl
      simp only [parseInt, this]
      rw [if_pos h]
  | negSucc n =>
    obtain ⟨_, hparse, _⟩ := toDigits_digits (n + 1)
    have : (match (formatInt (Int.negSucc n)).data with
        | '-' :: ds => (parseDigits ds).map (fun n => -(n : Int))
        | '+' :: ds => (parseDigits ds).map (fun n => (n : Int))
        | ds => (parseDigits ds).map (fun n => (n : Int))) = some (Int.negSucc n) := by
      simp only [formatInt, hparse, Option.map_some', Option.some.injEq]
      rfl
    simp only [parseInt, this]
    rw [if_pos h]

theorem formatInt_no_comma (i : Int) : ',' ∉ (formatInt i).data ∧ (formatInt i).data ≠ [] := by
  have hdigit : ∀ n, ',' ∉ Nat.toDigits 10 n := by
    intro n hmem
    have := (toDigits_digits n).2.2 _ hmem
    exact absurd this (by decide)
  cases i with
  | ofNat n => exact ⟨hdigit n, (toDigits_digits n).1⟩
  | negSucc n =>
    refine ⟨?_, by simp [formatInt]⟩
    simp only [formatInt, List.mem_cons, not_or]
    exact ⟨by decide, hdigit _⟩

theorem convertPieces_map {α : Type} (convert : String → Except GoError Data)
    (write : α → String) (data : α → Data) :
    ∀ xs : List α, (∀ x ∈ xs, convert (write x) = .ok (data x)) →
      convertPieces convert (xs.map write) = .ok (xs.map data) := by
  intro xs
  induction xs with
  | nil => intro _; rfl
  | cons x rest ih =>
    intro h
    simp only [List.map_cons, convertPieces, h x (List.mem_cons_self _ _),
      ih (fun y hy => h y (List.mem_cons_of_mem _ hy))]

/-- The conversion of integers written in decimal and joined with commas
gives the integers in order, when they fit the bit width of the elements. -/
theorem convertData_int_sequence (M : Methods) (bits : Nat) (xs : List Int)
    (hrange : ∀ x ∈ xs, -(2 ^ (bits - 1) : Int) ≤ x ∧ x < 2 ^ (bits - 1)) :
    convertData M (.slice (.int bits)) (joinComma (xs.map formatInt)) =
      .ok (.seq (xs.map Data.int)) := by
  rw [convertData]
  by_cases hraw : joinComma (xs.map formatInt) = ""
  · rw [if_pos hraw]
    rcases joinComma_eq_empty _ hraw with h | h
    · rw [List.map_eq_nil_iff] at h
      rw [h]
      rfl
    · cases xs with
      | nil => simp at h
      | cons x rest =>
        simp only [List.map_cons, List.cons.injEq] at h
        have := (formatInt_no_comma x).2
        rw [h.1] at this
        exact absurd rfl this
  · rw [if_neg hraw]
    have hne : xs.map formatInt ≠ [] := by
      intro h
      rw [h] at hraw
      exact hraw rfl
    rw [splitComma_joinComma _ hne (by
      intro s hs
      rw [List.mem_map] at hs
      obtain ⟨x, _, rfl⟩ := hs
      exact (formatInt_no_comma x).1)]
    rw [convertPieces_map (fun piece => convertData M (.int bits) piece) formatInt Data.int xs
      (by
        intro x hx
        simp only [convertData, parseInt_formatInt bits x (hrange x hx)]
        rfl)]
    rfl
  · intro h
    cases h

/-! ## Lemmas on mappings -/

mutual
theorem Data.beq_iff : ∀ a b : Data, Data.beq a b = true ↔ a = b
  | .none, b => by cases b <;> simp [Data.beq]
  | .bool x, b => by cases b <;> simp [Data.beq]
  | .int x, b => by cases b <;> simp [Data.beq]
  | .float x, b => by cases b <;> simp [Data.beq]
  | .str x, b => by cases b <;> simp [Data.beq]
  | .seq xs, b => by
    cases b <;> simp [Data.beq]
    exact Data.beqList_iff xs _
  | .dict xs, b => by
    cases b <;> simp [Data.beq]
    exact Data.beqPairs_iff xs _
theorem Data.beqList_iff : ∀ xs ys : List Data, Data.beqList xs ys = true ↔ xs = ys
  | [], ys => by cases ys <;> simp [Data.beqList]
  | x :: xs, ys => by
    cases ys with
    | nil => simp [Data.beqList]
    | cons y ys => simp [Data.beqList, Data.beq_iff x y, Data.beqList_iff xs ys]
theorem Data.beqPairs_iff : ∀ xs ys : List (Data × Data), Data.beqPairs xs ys = true ↔ xs = ys
  | [], ys => by cases ys <;> simp [Data.beqPairs]
  | (k, v) :: xs, ys => by
    cases ys with
    | nil => simp [Data.beqPairs]
    | cons y ys =>
      obtain ⟨l, w⟩ := y
      simp [Data.beqPairs, Data.beq_iff k l, Data.beq_iff v w, Data.beqPairs_iff xs ys, and_assoc]
end

theorem dictLookup_dictInsert (k l w : Data) : ∀ m : List (Data × Data),
    dictLookup k (dictInsert l w m) = if Data.beq l k then some w else dictLookup k m := by
  intro m
  induction m with
  | nil => simp [dictInsert, dictLookup]
  | cons entry rest ih =>
    obtain ⟨l', w'⟩ := entry
    simp only [dictInsert]
    by_cases h : Data.beq l' l = true
    · have hl : l' = l := (Data.beq_iff _ _).mp h
      subst hl
      simp only [h, if_true, dictLookup]
      cases Data.beq l' k <;> rfl
    · simp only [h, if_false, dictLookup, ih, Bool.false_eq_true]
      by_cases h' : Data.beq l' k = true
      · have hl : l' = k := (Data.beq_iff _ _).mp h'
        subst hl
        have : Data.beq l l' = false := by
          cases hb : Data.beq l l' with
          | false => rfl
          | true =>
            have := (Data.beq_iff _ _).mp hb
            subst this
            exact absurd hb h
        simp [h', this]
      · simp [h']

/-- In a mapping built by inserting pairs from left to right, the value of a
key is the value of the last pair with that key. -/
theorem dictLookup_dictInsertAll (k : Data) : ∀ (pairs m : List (Data × Data)),
    dictLookup k (dictInsertAll m pairs) =
      match pairs.reverse.find? (fun pair => Data.beq pair.1 k) with
      | some pair => some pair.2
      | none => dictLookup k m := by
  intro pairs
  induction pairs with
  | nil => intro m; rfl
  | cons pair rest ih =>
    intro m
    have hstep : dictInsertAll m (pair :: rest) = dictInsertAll (dictInsert pair.1 pair.2 m) rest :=
      rfl
    rw [hstep, ih, List.reverse_cons, List.find?_append]
    cases hf : rest.reverse.find? (fun pair => Data.beq pair.1 k) with
    | some found => rfl
    | none =>
      simp only [Option.none_or, List.find?_cons, List.find?_nil, dictLookup_dictInsert]
      cases Data.beq pair.1 k <;> rfl

theorem dictInsert_fresh (k v : Data) : ∀ m : List (Data × Data),
    (∀ entry ∈ m, entry.1 ≠ k) → dictInsert k v m = m ++ [(k, v)] := by
  intro m
  induction m with
  | nil => intro _; rfl
  | cons entry rest ih =>
    intro h
    obtain ⟨l, w⟩ := entry
    have hl : Data.beq l k = false := by
      cases hb : Data.beq l k with
      | false => rfl
      | true => exact absurd ((Data.beq_iff _ _).mp hb) (h (l, w) (List.mem_cons_self _ _))
    simp only [dictInsert, hl, Bool.false_eq_true, if_false, List.cons_append,
      ih (fun e he => h e (List.mem_cons_of_mem _ he))]

theorem dictInsertAll_fresh : ∀ (pairs m : List (Data × Data)),
    ((m ++ pairs).map (fun pair => pair.1)).Nodup → dictInsertAll m pairs = m ++ pairs := by
  intro pairs
  induction pairs with
  | nil => intro m _; simp [dictInsertAll]
  | cons pair rest ih =>
    intro m h
    have hstep : dictInsertAll m (pair :: rest) = dictInsertAll (dictInsert pair.1 pair.2 m) rest :=
      rfl
    have hfresh : ∀ entry ∈ m, entry.1 ≠ pair.1 := by
      intro entry he heq
      rw [List.map_append, List.map_cons, List.nodup_append] at h
      exact h.2.2 (List.mem_map_of_mem _ he) (by rw [heq]; exact List.mem_cons_self _ _)
    rw [hstep, dictInsert_fresh _ _ m hfresh, ih _ (by simpa using h)]
    simp

theorem convertPairs_map {α : Type} (convertKey convertElem : String → Except GoError Data)
    (write : α → String) (data : α → Data × Data) :
    ∀ xs : List α, (∀ x ∈ xs, ∃ key value, cutColon (write x) = some (key, value) ∧
        convertKey key = .ok (data x).1 ∧ convertElem value = .ok (data x).2) →
      convertPairs convertKey convertElem (xs.map write) = .ok (xs.map data) := by
  intro xs
  induction xs with
  | nil => intro _; rfl
  | cons x rest ih =>
    intro h
    obtain ⟨key, value, hcut, hk, hv⟩ := h x (List.mem_cons_self _ _)
    simp only [List.map_cons, convertPairs, hcut, hk, hv,
      ih (fun y hy => h y (List.mem_cons_of_mem _ hy))]

theorem convertPairs_no_colon (convertKey convertElem : String → Except GoError Data) :
    ∀ pieces : List String, (∃ piece ∈ pieces, cutColon piece = none) →
      ∃ cause, convertPairs convertKey convertElem pieces = .error cause := by
  intro pieces
  induction pieces with
  | nil => intro h; simp at h
  | cons piece rest ih =>
    intro h
    simp only [convertPairs]
    cases hcut : cutColon piece with
    | none => exact ⟨_, rfl⟩
    | some kv =>
      obtain ⟨key, value⟩ := kv
      have hrest : ∃ p ∈ rest, cutColon p = none := by
        obtain ⟨p, hp, hnone⟩ := h
        rcases List.mem_cons.mp hp with rfl | hp
        · rw [hcut] at hnone
          cases hnone
        · exact ⟨p, hp, hnone⟩
      obtain ⟨cause, hc⟩ := ih hrest
      simp only
      cases convertKey key with
      | error c => exact ⟨_, rfl⟩
      | ok k =>
        simp only
        cases convertElem value with
        | error c => exact ⟨_, rfl⟩
        | ok v =>
          simp only [hc]
          exact ⟨_, rfl⟩

/-! ## Lemmas on structs with one field -/

theorem sort_singleton (S : SliceSorter) (info : envVarInfo) : S.sort [info] = [info] :=
  List.perm_singleton.mp (S.perm [info])

theorem singleSpec_gather (S : SliceSorter) (impl : GoType → Bool) (name key : String)
    (t : BasicType) :
    (gatherInfo S impl (singleSpec name key t)).err = none ∧
    (gatherInfo S impl (singleSpec name key t)).infos = [singleInfo name key] ∧
    (gatherInfo S impl (singleSpec name key t)).spec = singleSpec name key t := by
  simp [singleSpec, singleInfo, envField, gatherInfo, gatherFields, followPointerChain,
    Value.Kind, sort_singleton, createEnvVarInfo, StructTag.Get, StructTag.Lookup, List.lookup,
    fieldPath]

theorem singleSpec_Unmarshal (S : SliceSorter) (impl : GoType → Bool) (name key : String)
    (t : BasicType) :
    (gatherInfo S impl (singleSpec name key t)).err = none ∧
    ((gatherInfo S impl (singleSpec name key t)).infos.map (fun info => info.Key)).Nodup ∧
    singleInfo name key ∈ (gatherInfo S impl (singleSpec name key t)).infos ∧
    (gatherInfo S impl (singleSpec name key t)).spec.Elem.get (singleInfo name key).Field =
      some (.basic t t.zero) := by
  obtain ⟨herr, hinfos, hspec⟩ := singleSpec_gather S impl name key t
  refine ⟨herr, ?_, ?_, ?_⟩
  · rw [hinfos]
    simp
  · rw [hinfos]
    simp
  · rw [hspec]
    rfl

theorem quotedSpec_Unmarshal (S : SliceSorter) :
    (gatherInfo S quotedInterface quotedSpec).err = none ∧
    ((gatherInfo S quotedInterface quotedSpec).infos.map (fun info => info.Key)).Nodup ∧
    singleInfo "Baz" "ENV_CONFIG_BAZ" ∈ (gatherInfo S quotedInterface quotedSpec).infos ∧
    (gatherInfo S quotedInterface quotedSpec).spec.Elem.get
      (singleInfo "Baz" "ENV_CONFIG_BAZ").Field = some (quotedValue "") := by
  have h : (gatherInfo S quotedInterface quotedSpec).err = none ∧
      (gatherInfo S quotedInterface quotedSpec).infos = [singleInfo "Baz" "ENV_CONFIG_BAZ"] ∧
      (gatherInfo S quotedInterface quotedSpec).spec = quotedSpec := by
    simp [quotedSpec, quotedValue, quotedInterface, singleInfo, envField, gatherInfo,
      gatherFields, followPointerChain, Value.Kind, Value.Type, fieldTypes, sort_singleton,
      createEnvVarInfo, StructTag.Get, StructTag.Lookup, List.lookup, fieldPath]
  obtain ⟨herr, hinfos, hspec⟩ := h
  refine ⟨herr, ?_, ?_, ?_⟩
  · rw [hinfos]
    simp
  · rw [hinfos]
    simp
  · rw [hspec]
    rfl

theorem convertValue_basic (M : Methods) (t : BasicType) (cur : Data) (raw : String)
    (h : (Value.basic t cur).typeName? = none) :
    convertValue M (.basic t cur) raw = (convertData M t raw).map (Value.basic t) := by
  simp only [convertValue, convertLeaf, h, Option.none_bind]

theorem fieldOutcome_ok (C : Converter) (env : Environ) (t v : Value) (info : envVarInfo)
    (raw : String) (hraw : info.GetValueFromEnv env = (raw, none))
    (hconv : C.convert t raw = .ok v) : fieldOutcome C env t info = (v, none) := by
  simp only [fieldOutcome, hraw, hconv]

theorem fieldOutcome_error (C : Converter) (env : Environ) (t : Value) (info : envVarInfo)
    (raw : String) (cause : GoError) (hraw : info.GetValueFromEnv env = (raw, none))
    (hconv : C.convert t raw = .error cause) :
    (fieldOutcome C env t info).1 = t ∧ (fieldOutcome C env t info).2 ≠ none := by
  simp only [fieldOutcome, hraw, hconv, ne_eq, not_false_eq_true, and_self, reduceCtorEq]

/-! ## Theorems: conversion -/

/-- C13: when the value resolved for a field of type sequence of integers is
the decimal texts of integers that fit the element type, joined with commas,
`Unmarshal` sets the field to the sequence of those integers in the same order
and reports no error for it; for no integer at all, the empty raw string, the
field is set to the empty sequence. -/
theorem Unmarshal_int_sequence (S : SliceSorter) (impl : GoType → Bool) (M : Methods)
    (env : Environ) (spec : Value) (d : envVarInfo) (bits : Nat) (cur : Data) (xs : List Int)
    (hok : (gatherInfo S impl spec).err = none)
    (hkeys : ((gatherInfo S impl spec).infos.map (fun info => info.Key)).Nodup)
    (hd : d ∈ (gatherInfo S impl spec).infos)
    (htarget : (gatherInfo S impl spec).spec.Elem.get d.Field =
      some (.basic (.slice (.int bits)) cur))
    (hraw : d.GetValueFromEnv env = (joinComma (xs.map formatInt), none))
    (hrange : ∀ x ∈ xs, -(2 ^ (bits - 1) : Int) ≤ x ∧ x < 2 ^ (bits - 1)) :
    (Unmarshal S impl (specConverter M) env spec).spec.Elem.get d.Field =
      some (.basic (.slice (.int bits)) (.seq (xs.map Data.int))) ∧
    (∃ r ∈ (Unmarshal S impl (specConverter M) env spec).results,
      r.KeyName = d.Key ∧ r.Err = none) ∧
    joinComma (([] : List Int).map formatInt) = "" := by
  have hconv : (specConverter M).convert (.basic (.slice (.int bits)) cur)
      (joinComma (xs.map formatInt)) =
      .ok (.basic (.slice (.int bits)) (.seq (xs.map Data.int))) := by
    show convertValue M _ _ = _
    rw [convertValue_basic M (.slice (.int bits)) cur _ rfl,
      convertData_int_sequence M bits xs hrange]
    rfl
  have hout := fieldOutcome_ok _ env _ _ d _ hraw hconv
  obtain ⟨hget, hres, _⟩ := Unmarshal_outcome S impl (specConverter M) env spec d _ hok hkeys hd
    htarget
  rw [hout] at hget hres
  exact ⟨hget, hres, rfl⟩

/-- C13 at the field `MagicNumbers` of `TestProcess`: `5,10,20` gives the
sequence 5, 10, 20, and the empty string gives the empty sequence. -/
theorem Unmarshal_int_sequence_witness :
    (Unmarshal insertionSorter noInterface (specConverter noMethods)
      [("ENV_CONFIG_MAGIC_NUMBERS", "5,10,20")] numbersSpec).spec.Elem.get [.field 0] =
      some (.basic (.slice (.int 64)) (.seq [.int 5, .int 10, .int 20])) ∧
    (Unmarshal insertionSorter noInterface (specConverter noMethods)
      [("ENV_CONFIG_MAGIC_NUMBERS", "")] numbersSpec).spec.Elem.get [.field 0] =
      some (.basic (.slice (.int 64)) (.seq [])) := by
  obtain ⟨hok, hkeys, hd, htarget⟩ := singleSpec_Unmarshal insertionSorter noInterface
    "MagicNumbers" "ENV_CONFIG_MAGIC_NUMBERS" (.slice (.int 64))
  exact ⟨(Unmarshal_int_sequence insertionSorter noInterface noMethods
      [("ENV_CONFIG_MAGIC_NUMBERS", "5,10,20")] numbersSpec _ 64 _ [5, 10, 20] hok hkeys hd htarget
      (by decide) (by decide)).1,
    (Unmarshal_int_sequence insertionSorter noInterface noMethods
      [("ENV_CONFIG_MAGIC_NUMBERS", "")] numbersSpec _ 64 _ [] hok hkeys hd htarget
      (by decide) (by decide)).1⟩

theorem pairTexts_ne_empty (texts : List (String × String)) (hne : texts ≠ []) :
    joinComma (texts.map (fun kv => kv.1 ++ ":" ++ kv.2)) ≠ "" := by
  intro h
  rcases joinComma_eq_empty _ h with h₁ | h₁
  · rw [List.map_eq_nil_iff] at h₁
    exact hne h₁
  · cases texts with
    | nil => exact hne rfl
    | cons kv rest =>
      simp only [List.map_cons, List.cons.injEq] at h₁
      have := congrArg String.data h₁.1
      simp [String.data_append] at this

theorem pairTexts_no_comma (texts : List (String × String))
    (h : ∀ kv ∈ texts, ',' ∉ kv.1.data ∧ ',' ∉ kv.2.data) :
    ∀ x ∈ texts.map (fun kv => kv.1 ++ ":" ++ kv.2), ',' ∉ x.data := by
  intro x hx
  rw [List.mem_map] at hx
  obtain ⟨kv, hkv, rfl⟩ := hx
  have := h kv hkv
  simp [String.data_append, this.1, this.2]

/-- The conversion of pairs `key:value` joined with commas is the mapping
built by inserting the converted pairs from left to right. -/
theorem convertData_map (M : Methods) (key elem : BasicType) (texts : List (String × String))
    (data : String × String → Data × Data) (hne : texts ≠ [])
    (hplain : ∀ kv ∈ texts, ',' ∉ kv.1.data ∧ ':' ∉ kv.1.data ∧ ',' ∉ kv.2.data)
    (hconv : ∀ kv ∈ texts, convertData M key kv.1 = .ok (data kv).1 ∧
      convertData M elem kv.2 = .ok (data kv).2) :
    convertData M (.map key elem) (joinComma (texts.map (fun kv => kv.1 ++ ":" ++ kv.2))) =
      .ok (.dict (dictInsertAll [] (texts.map data))) := by
  rw [convertData, if_neg (pairTexts_ne_empty texts hne),
    splitComma_joinComma _ (by simpa using hne)
      (pairTexts_no_comma texts (fun kv hkv => ⟨(hplain kv hkv).1, (hplain kv hkv).2.2⟩)),
    convertPairs_map _ _ (fun kv : String × String => kv.1 ++ ":" ++ kv.2) data texts
      (fun kv hkv => ⟨kv.1, kv.2, cutColon_pair _ _ (hplain kv hkv).2.1, hconv kv hkv⟩)]
  rfl

theorem convertData_map_no_colon (M : Methods) (key elem : BasicType) (raw : String)
    (hraw : raw ≠ "") (h : ∃ piece ∈ splitComma raw, ':' ∉ piece.data) :
    ∃ cause, convertData M (.map key elem) raw = .error cause := by
  obtain ⟨piece, hp, hcolon⟩ := h
  obtain ⟨cause, hc⟩ := convertPairs_no_colon (fun piece => convertData M key piece)
    (fun piece => convertData M elem piece) (splitComma raw)
    ⟨piece, hp, cutColon_plain piece hcolon⟩
  refine ⟨cause, ?_⟩
  rw [convertData, if_neg hraw, hc]
  rfl

/-- C14: for a field of a mapping type, with the resolved raw value `raw`.
The empty raw string gives the empty mapping and no error.  A raw value with a
piece between commas that has no colon makes the conversion fail: the pass
fails and the field keeps its content.  A raw value whose pieces are
`key:value`, cut at the first colon, with keys and values that convert, gives
the mapping built by inserting the pairs from left to right, in which the
value of a key is the value of the last pair with that key. -/
theorem Unmarshal_map (S : SliceSorter) (impl : GoType → Bool) (M : Methods)
    (env : Environ) (spec : Value) (d : envVarInfo) (key elem : BasicType) (cur : Data)
    (raw : String)
    (hok : (gatherInfo S impl spec).err = none)
    (hkeys : ((gatherInfo S impl spec).infos.map (fun info => info.Key)).Nodup)
    (hd : d ∈ (gatherInfo S impl spec).infos)
    (htarget : (gatherInfo S impl spec).spec.Elem.get d.Field =
      some (.basic (.map key elem) cur))
    (hraw : d.GetValueFromEnv env = (raw, none)) :
    (raw = "" →
      (Unmarshal S impl (specConverter M) env spec).spec.Elem.get d.Field =
        some (.basic (.map key elem) (.dict [])) ∧
      ∃ r ∈ (Unmarshal S impl (specConverter M) env spec).results,
        r.KeyName = d.Key ∧ r.Err = none) ∧
    (raw ≠ "" → (∃ piece ∈ splitComma raw, ':' ∉ piece.data) →
      (Unmarshal S impl (specConverter M) env spec).err ≠ none ∧
      (Unmarshal S impl (specConverter M) env spec).spec.Elem.get d.Field =
        some (.basic (.map key elem) cur)) ∧
    (∀ (texts : List (String × String)) (data : String × String → Data × Data),
      texts ≠ [] → raw = joinComma (texts.map (fun kv => kv.1 ++ ":" ++ kv.2)) →
      (∀ kv ∈ texts, ',' ∉ kv.1.data ∧ ':' ∉ kv.1.data ∧ ',' ∉ kv.2.data) →
      (∀ kv ∈ texts, convertData M key kv.1 = .ok (data kv).1 ∧
        convertData M elem kv.2 = .ok (data kv).2) →
      (Unmarshal S impl (specConverter M) env spec).spec.Elem.get d.Field =
        some (.basic (.map key elem) (.dict (dictInsertAll [] (texts.map data)))) ∧
      ∀ k, dictLookup k (dictInsertAll [] (texts.map data)) =
        ((texts.map data).reverse.find? (fun pair => Data.beq pair.1 k)).map
          (fun pair => pair.2)) := by
  obtain ⟨hget, hres, herr⟩ := Unmarshal_outcome S impl (specConverter M) env spec d _ hok hkeys
    hd htarget
  have hvalue : (specConverter M).convert (.basic (.map key elem) cur) raw =
      (convertData M (.map key elem) raw).map (Value.basic (.map key elem)) :=
    convertValue_basic M (.map key elem) cur raw rfl
  refine ⟨?_, ?_, ?_⟩
  · intro hempty
    have hconv : (specConverter M).convert (.basic (.map key elem) cur) raw =
        .ok (.basic (.map key elem) (.dict [])) := by
      rw [hvalue, convertData, if_pos hempty]
      rfl
    rw [fieldOutcome_ok _ env _ _ d _ hraw hconv] at hget hres
    exact ⟨hget, hres⟩
  · intro hne hpiece
    obtain ⟨cause, hc⟩ := convertData_map_no_colon M key elem raw hne hpiece
    have hconv : (specConverter M).convert (.basic (.map key elem) cur) raw = .error cause := by
      rw [hvalue, hc]
      rfl
    obtain ⟨h₁, h₂⟩ := fieldOutcome_error _ env _ d _ cause hraw hconv
    rw [h₁] at hget
    exact ⟨herr h₂, hget⟩
  · intro texts data hne htexts hplain hconvs
    have hconv : (specConverter M).convert (.basic (.map key elem) cur) raw =
        .ok (.basic (.map key elem) (.dict (dictInsertAll [] (texts.map data)))) := by
      rw [hvalue, htexts, convertData_map M key elem texts data hne hplain hconvs]
      rfl
    rw [fieldOutcome_ok _ env _ _ d _ hraw hconv] at hget
    refine ⟨hget, ?_⟩
    intro k
    rw [dictLookup_dictInsertAll]
    cases (texts.map data).reverse.find? (fun pair => Data.beq pair.1 k) <;> rfl

/-- C14 at the field `ColorCodes` of `TestProcess`: `red:1,green:2,blue:3`
gives the mapping of red to 1, green to 2 and blue to 3; with a later pair
`red:7` the value of red is 7; `red:1,green` fails. -/
theorem Unmarshal_map_witness :
    (Unmarshal insertionSorter noInterface (specConverter noMethods)
      [("ENV_CONFIG_COLOR_CODES", "red:1,green:2,blue:3")] colorSpec).spec.Elem.get [.field 0] =
      some (.basic (.map .string (.int 64))
        (.dict [(.str "red", .int 1), (.str "green", .int 2), (.str "blue", .int 3)])) ∧
    (Unmarshal insertionSorter noInterface (specConverter noMethods)
      [("ENV_CONFIG_COLOR_CODES", "red:1,green:2,red:7")] colorSpec).spec.Elem.get [.field 0] =
      some (.basic (.map .string (.int 64)) (.dict [(.str "red", .int 7), (.str "green", .int 2)])) ∧
    (Unmarshal insertionSorter noInterface (specConverter noMethods)
      [("ENV_CONFIG_COLOR_CODES", "red:1,green")] colorSpec).err ≠ none := by
  obtain ⟨hok, hkeys, hd, htarget⟩ := singleSpec_Unmarshal insertionSorter noInterface
    "ColorCodes" "ENV_CONFIG_COLOR_CODES" (.map .string (.int 64))
  have h₁ := ((Unmarshal_map insertionSorter noInterface noMethods
    [("ENV_CONFIG_COLOR_CODES", "red:1,green:2,blue:3")] colorSpec _ .string (.int 64) _
    "red:1,green:2,blue:3" hok hkeys hd htarget (by decide)).2.2
    [("red", "1"), ("green", "2"), ("blue", "3")]
    (fun kv => (.str kv.1, .int (if kv.2 = "1" then 1 else if kv.2 = "2" then 2 else 3)))
    (by decide) (by decide) (by decide) (by
      intro kv hkv
      simp only [List.mem_cons, List.mem_singleton, List.not_mem_nil, or_false] at hkv
      rcases hkv with rfl | rfl | rfl <;> exact ⟨rfl, rfl⟩)).1
  have h₂ := ((Unmarshal_map insertionSorter noInterface noMethods
    [("ENV_CONFIG_COLOR_CODES", "red:1,green:2,red:7")] colorSpec _ .string (.int 64) _
    "red:1,green:2,red:7" hok hkeys hd htarget (by decide)).2.2
    [("red", "1"), ("green", "2"), ("red", "7")]
    (fun kv => (.str kv.1, .int (if kv.2 = "1" then 1 else if kv.2 = "2" then 2 else 7)))
    (by decide) (by decide) (by decide) (by
      intro kv hkv
      simp only [List.mem_cons, List.mem_singleton, List.not_mem_nil, or_false] at hkv
      rcases hkv with rfl | rfl | rfl <;> exact ⟨rfl, rfl⟩)).1
  have h₃ := ((Unmarshal_map insertionSorter noInterface noMethods
    [("ENV_CONFIG_COLOR_CODES", "red:1,green")] colorSpec _ .string (.int 64) _
    "red:1,green" hok hkeys hd htarget (by decide)).2.1 (by decide)
    ⟨"green", by decide, by decide⟩).1
  exact ⟨h₁, h₂, h₃⟩

theorem parseUint_negative (bits : Nat) (digits : List Char) :
    ∃ cause, parseUint bits (String.mk ('-' :: digits)) = .error cause := by
  have : parseDigits ('-' :: digits) = none := by
    simp only [parseDigits, parseDigitsFrom]
    rfl
  refine ⟨.errorf [.text "strconv.ParseUint: parsing ", .quoted (String.mk ('-' :: digits)),
    .text ": invalid syntax"], ?_⟩
  simp only [parseUint, this]

/-- C15: a field whose conversion fails is never written: the pass fails and
the target holds the content it had.  This is so for every field of an
unsigned integer type, of any bit width, with a resolved raw value that
starts with a minus sign, as a negative decimal literal does. -/
theorem Unmarshal_failure (S : SliceSorter) (impl : GoType → Bool) (M : Methods)
    (env : Environ) (spec : Value) (d : envVarInfo) (t : Value) (raw : String)
    (hok : (gatherInfo S impl spec).err = none)
    (hkeys : ((gatherInfo S impl spec).infos.map (fun info => info.Key)).Nodup)
    (hd : d ∈ (gatherInfo S impl spec).infos)
    (htarget : (gatherInfo S impl spec).spec.Elem.get d.Field = some t)
    (hraw : d.GetValueFromEnv env = (raw, none)) :
    (∀ cause, (specConverter M).convert t raw = .error cause →
      (Unmarshal S impl (specConverter M) env spec).err ≠ none ∧
      (Unmarshal S impl (specConverter M) env spec).spec.Elem.get d.Field = some t) ∧
    (∀ (bits : Nat) (cur : Data) (digits : List Char),
      t = .basic (.uint bits) cur → raw = String.mk ('-' :: digits) →
      (Unmarshal S impl (specConverter M) env spec).err ≠ none ∧
      (Unmarshal S impl (specConverter M) env spec).spec.Elem.get d.Field =
        some (.basic (.uint bits) cur)) := by
  obtain ⟨hget, _, herr⟩ := Unmarshal_outcome S impl (specConverter M) env spec d _ hok hkeys
    hd htarget
  have hgeneral : ∀ cause, (specConverter M).convert t raw = .error cause →
      (Unmarshal S impl (specConverter M) env spec).err ≠ none ∧
      (Unmarshal S impl (specConverter M) env spec).spec.Elem.get d.Field = some t := by
    intro cause hconv
    obtain ⟨h₁, h₂⟩ := fieldOutcome_error _ env _ d _ cause hraw hconv
    rw [h₁] at hget
    exact ⟨herr h₂, hget⟩
  refine ⟨hgeneral, ?_⟩
  intro bits cur digits ht hdigits
  obtain ⟨cause, hc⟩ := parseUint_negative bits digits
  rw [← ht]
  apply hgeneral cause
  rw [ht, hdigits]
  show convertValue M _ _ = _
  rw [convertValue_basic M (.uint bits) cur _ rfl]
  simp only [convertData, hc]
  rfl

/-- C15 at `TestParseErrorUint`: `TTL` is set to `-30`; `Unmarshal` fails and
the field holds zero as before. -/
theorem Unmarshal_failure_witness :
    (Unmarshal insertionSorter noInterface (specConverter noMethods)
      [("ENV_CONFIG_TTL", "-30")] ttlSpec).err ≠ none ∧
    (Unmarshal insertionSorter noInterface (specConverter noMethods)
      [("ENV_CONFIG_TTL", "-30")] ttlSpec).spec.Elem.get [.field 0] =
      some (.basic (.uint 32) (.int 0)) := by
  obtain ⟨hok, hkeys, hd, htarget⟩ := singleSpec_Unmarshal insertionSorter noInterface
    "TTL" "ENV_CONFIG_TTL" (.uint 32)
  exact (Unmarshal_failure insertionSorter noInterface noMethods [("ENV_CONFIG_TTL", "-30")]
    ttlSpec _ _ "-30" hok hkeys hd htarget (by decide)).2 32 (.int 0) ['3', '0'] rfl rfl

/-- C16: for a field whose type provides `Decode`, the conversion is the
result of that `Decode` on the target and the raw value, whatever `Set` and
`UnmarshalBinary` the type provides as well and whether or not it is a struct:
`Unmarshal` leaves in the field what `Decode` produces, or fails and leaves
the field as it was when `Decode` fails. -/
theorem Unmarshal_decode (S : SliceSorter) (impl : GoType → Bool) (M : Methods)
    (env : Environ) (spec : Value) (d : envVarInfo) (t : Value) (raw name : String)
    (decode : Capability)
    (hok : (gatherInfo S impl spec).err = none)
    (hkeys : ((gatherInfo S impl spec).infos.map (fun info => info.Key)).Nodup)
    (hd : d ∈ (gatherInfo S impl spec).infos)
    (htarget : (gatherInfo S impl spec).spec.Elem.get d.Field = some t)
    (hraw : d.GetValueFromEnv env = (raw, none))
    (hname : t.typeName? = some name)
    (hdecode : M.Decode name = some decode) :
    (specConverter M).convert t raw = decode t raw ∧
    (∀ v, decode t raw = .ok v →
      (Unmarshal S impl (specConverter M) env spec).spec.Elem.get d.Field = some v) ∧
    (∀ cause, decode t raw = .error cause →
      (Unmarshal S impl (specConverter M) env spec).err ≠ none ∧
      (Unmarshal S impl (specConverter M) env spec).spec.Elem.get d.Field = some t) := by
  have hconv : (specConverter M).convert t raw = decode t raw := by
    show convertValue M t raw = _
    cases t with
    | basic b cur => simp only [convertValue, convertLeaf, hname, Option.some_bind,
        Methods.capability, hdecode]
    | struct nm fields => simp only [convertValue, convertLeaf, hname, Option.some_bind,
        Methods.capability, hdecode]
    | nilPtr elem => simp [Value.typeName?] at hname
    | ptr target => simp [Value.typeName?] at hname
  obtain ⟨hget, _, herr⟩ := Unmarshal_outcome S impl (specConverter M) env spec d _ hok hkeys
    hd htarget
  refine ⟨hconv, ?_, ?_⟩
  · intro v hv
    rw [fieldOutcome_ok _ env _ _ d _ hraw (hconv.trans hv)] at hget
    exact hget
  · intro cause hc
    obtain ⟨h₁, h₂⟩ := fieldOutcome_error _ env _ d _ cause hraw (hconv.trans hc)
    rw [h₁] at hget
    exact ⟨herr h₂, hget⟩

/-- C16 at the field `Baz quoted` of `TestCustomValueFields`, bound to `baz`:
the type has `Decode` and `Set`; the field ends with `["baz"]`, the value of
`Decode`, and not with `[baz]`, the value of `Set`. -/
theorem Unmarshal_decode_witness :
    (Unmarshal insertionSorter quotedInterface (specConverter quotedMethods)
      [("ENV_CONFIG_BAZ", "baz")] quotedSpec).spec.Elem.get [.field 0] =
      some (quotedValue "[\"baz\"]") ∧
    quotedSet (quotedValue "") "baz" = .ok (quotedValue "[baz]") := by
  obtain ⟨hok, hkeys, hd, htarget⟩ := quotedSpec_Unmarshal insertionSorter
  exact ⟨(Unmarshal_decode insertionSorter quotedInterface quotedMethods
    [("ENV_CONFIG_BAZ", "baz")] quotedSpec _ _ "baz" "quoted" quotedDecode hok hkeys hd htarget
    (by decide) rfl rfl).2.1 _ rfl, rfl⟩

theorem convertData_string_sequence (M : Methods) (xs : List String)
    (hplain : ∀ x ∈ xs, ',' ∉ x.data) (hone : xs ≠ [""]) :
    convertData M (.slice .string) (joinComma xs) = .ok (.seq (xs.map Data.str)) := by
  rw [convertData]
  · by_cases hraw : joinComma xs = ""
    · rw [if_pos hraw]
      rcases joinComma_eq_empty _ hraw with h | h
      · rw [h]
        rfl
      · exact absurd h hone
    · rw [if_neg hraw]
      have hne : xs ≠ [] := by
        intro h
        rw [h] at hraw
        exact hraw rfl
      rw [splitComma_joinComma _ hne hplain]
      have := convertPieces_map (fun piece => convertData M .string piece) id Data.str xs
        (fun x _ => by simp only [convertData, id])
      rw [List.map_id] at this
      rw [this]
      rfl
  · intro h
    cases h

theorem convertData_string_map (M : Methods) (kvs : List (String × String))
    (hkeys : (kvs.map (fun kv => kv.1)).Nodup)
    (hplain : ∀ kv ∈ kvs, ',' ∉ kv.1.data ∧ ':' ∉ kv.1.data ∧ ',' ∉ kv.2.data) :
    convertData M (.map .string .string) (joinComma (kvs.map (fun kv => kv.1 ++ ":" ++ kv.2))) =
      .ok (.dict (kvs.map (fun kv => (Data.str kv.1, Data.str kv.2)))) := by
  cases hkvs : kvs with
  | nil => rfl
  | cons kv rest =>
    rw [← hkvs]
    rw [convertData_map M .string .string kvs (fun kv => (Data.str kv.1, Data.str kv.2))
      (by rw [hkvs]; simp) hplain (fun kv _ => by simp only [convertData, and_self])]
    rw [dictInsertAll_fresh _ [] (by
      rw [List.nil_append, List.map_map]
      have : ((fun pair : Data × Data => pair.1) ∘ fun kv : String × String =>
          (Data.str kv.1, Data.str kv.2)) = Data.str ∘ (fun kv => kv.1) := rfl
      rw [this, ← List.map_map]
      exact hkeys.map (fun a b h => by injection h))]
    rfl

/-- C17, the claim as stated fails: the sequence with the one string `a,b` is
written `a,b`, and the field of type sequence of strings bound to it is set to
the sequence of `a` and `b`. -/
theorem Unmarshal_roundtrip_comma :
    (Unmarshal insertionSorter noInterface (specConverter noMethods)
      [("ENV_CONFIG_ADMIN_USERS", joinComma ["a,b"])] adminSpec).spec.Elem.get [.field 0] =
      some (.basic (.slice .string) (.seq [.str "a", .str "b"])) ∧
    (Unmarshal insertionSorter noInterface (specConverter noMethods)
      [("ENV_CONFIG_ADMIN_USERS", joinComma ["a,b"])] adminSpec).spec.Elem.get [.field 0] ≠
      some (.basic (.slice .string) (.seq (["a,b"].map Data.str))) := by
  obtain ⟨hok, hkeys, hd, htarget⟩ := singleSpec_Unmarshal insertionSorter noInterface
    "AdminUsers" "ENV_CONFIG_ADMIN_USERS" (.slice .string)
  obtain ⟨hget, _, _⟩ := Unmarshal_outcome insertionSorter noInterface (specConverter noMethods)
    [("ENV_CONFIG_ADMIN_USERS", joinComma ["a,b"])] adminSpec _ _ hok hkeys hd htarget
  have hout : fieldOutcome (specConverter noMethods)
      [("ENV_CONFIG_ADMIN_USERS", joinComma ["a,b"])] (.basic (.slice .string) (.seq []))
      (singleInfo "AdminUsers" "ENV_CONFIG_ADMIN_USERS") =
      (.basic (.slice .string) (.seq [.str "a", .str "b"]), none) :=
    fieldOutcome_ok _ _ _ _ _ "a,b" (by decide) rfl
  have hget₁ : (Unmarshal insertionSorter noInterface (specConverter noMethods)
      [("ENV_CONFIG_ADMIN_USERS", joinComma ["a,b"])] adminSpec).spec.Elem.get [.field 0] =
      some (.basic (.slice .string) (.seq [.str "a", .str "b"])) := by
    have := hget
    rw [show BasicType.zero (.slice .string) = Data.seq [] from rfl, hout] at this
    exact this
  refine ⟨hget₁, ?_⟩
  rw [hget₁]
  intro h
  simp at h

/-- C17, as the model has it: a sequence of strings written with commas
between them resolves to the same sequence when no string holds a comma and
the sequence is not the one empty string alone; a mapping of strings to
strings, its pairs `key:value` written with commas between them in any order
of its distinct keys, resolves to the same mapping when no key holds a comma
or colon and no value holds a comma. -/
theorem Unmarshal_roundtrip (S : SliceSorter) (impl : GoType → Bool) (M : Methods)
    (env : Environ) (spec : Value) (d : envVarInfo)
    (hok : (gatherInfo S impl spec).err = none)
    (hkeys : ((gatherInfo S impl spec).infos.map (fun info => info.Key)).Nodup)
    (hd : d ∈ (gatherInfo S impl spec).infos) :
    (∀ (cur : Data) (xs : List String),
      (gatherInfo S impl spec).spec.Elem.get d.Field = some (.basic (.slice .string) cur) →
      d.GetValueFromEnv env = (joinComma xs, none) →
      (∀ x ∈ xs, ',' ∉ x.data) → xs ≠ [""] →
      (Unmarshal S impl (specConverter M) env spec).spec.Elem.get d.Field =
        some (.basic (.slice .string) (.seq (xs.map Data.str)))) ∧
    (∀ (cur : Data) (kvs : List (String × String)),
      (gatherInfo S impl spec).spec.Elem.get d.Field =
        some (.basic (.map .string .string) cur) →
      d.GetValueFromEnv env = (joinComma (kvs.map (fun kv => kv.1 ++ ":" ++ kv.2)), none) →
      (kvs.map (fun kv => kv.1)).Nodup →
      (∀ kv ∈ kvs, ',' ∉ kv.1.data ∧ ':' ∉ kv.1.data ∧ ',' ∉ kv.2.data) →
      (Unmarshal S impl (specConverter M) env spec).spec.Elem.get d.Field =
        some (.basic (.map .string .string)
          (.dict (kvs.map (fun kv => (Data.str kv.1, Data.str kv.2)))))) := by
  constructor
  · intro cur xs htarget hraw hplain hone
    obtain ⟨hget, _, _⟩ := Unmarshal_outcome S impl (specConverter M) env spec d _ hok hkeys hd
      htarget
    have hconv : (specConverter M).convert (.basic (.slice .string) cur) (joinComma xs) =
        .ok (.basic (.slice .string) (.seq (xs.map Data.str))) := by
      show convertValue M _ _ = _
      rw [convertValue_basic M (.slice .string) cur _ rfl,
        convertData_string_sequence M xs hplain hone]
      rfl
    rw [fieldOutcome_ok _ env _ _ d _ hraw hconv] at hget
    exact hget
  · intro cur kvs htarget hraw hnodup hplain
    obtain ⟨hget, _, _⟩ := Unmarshal_outcome S impl (specConverter M) env spec d _ hok hkeys hd
      htarget
    have hconv : (specConverter M).convert (.basic (.map .string .string) cur)
        (joinComma (kvs.map (fun kv => kv.1 ++ ":" ++ kv.2))) =
        .ok (.basic (.map .string .string)
          (.dict (kvs.map (fun kv => (Data.str kv.1, Data.str kv.2))))) := by
      show convertValue M _ _ = _
      rw [convertValue_basic M (.map .string .string) cur _ rfl,
        convertData_string_map M kvs hnodup hplain]
      rfl
    rw [fieldOutcome_ok _ env _ _ d _ hraw hconv] at hget
    exact hget

/-- C17 at the fields `AdminUsers` and `MapField` of `TestProcess`: the
sequence John, Adam, Will and the mapping of one to two and three to four
resolve to themselves. -/
theorem Unmarshal_roundtrip_witness :
    (Unmarshal insertionSorter noInterface (specConverter noMethods)
      [("ENV_CONFIG_ADMIN_USERS", "John,Adam,Will")] adminSpec).spec.Elem.get [.field 0] =
      some (.basic (.slice .string) (.seq [.str "John", .str "Adam", .str "Will"])) ∧
    (Unmarshal insertionSorter noInterface (specConverter noMethods)
      [("ENV_CONFIG_MAPFIELD", "one:two,three:four")] mapFieldSpec).spec.Elem.get [.field 0] =
      some (.basic (.map .string .string)
        (.dict [(.str "one", .str "two"), (.str "three", .str "four")])) := by
  obtain ⟨hok, hkeys, hd, htarget⟩ := singleSpec_Unmarshal insertionSorter noInterface
    "AdminUsers" "ENV_CONFIG_ADMIN_USERS" (.slice .string)
  obtain ⟨hok₂, hkeys₂, hd₂, htarget₂⟩ := singleSpec_Unmarshal insertionSorter noInterface
    "MapField" "ENV_CONFIG_MAPFIELD" (.map .string .string)
  exact ⟨(Unmarshal_roundtrip insertionSorter noInterface noMethods
      [("ENV_CONFIG_ADMIN_USERS", "John,Adam,Will")] adminSpec _ hok hkeys hd).1 _
      ["John", "Adam", "Will"] htarget (by decide) (by decide) (by decide),
    (Unmarshal_roundtrip insertionSorter noInterface noMethods
      [("ENV_CONFIG_MAPFIELD", "one:two,three:four")] mapFieldSpec _ hok₂ hkeys₂ hd₂).2 _
      [("one", "two"), ("three", "four")] htarget₂ (by decide) (by decide) (by decide)⟩

end Envconfig
